import Mathlib

/-!
# Cybercafe monitoring system

A shallow embedding of `src/include/cybercafe_monitoring_system.h` and
`src/src/cybercafe_monitoring_system.cc`, followed by theorems about it.

Modelling conventions.

* `TimePoint` is a count of minutes and `int`, `int64_t` are mathematical
  integers: both are `Int`.  Signed overflow is undefined behaviour in C++, so
  the embedding describes the runs in which it does not happen.
* `std::unordered_set<std::string>` is a list of its elements and
  `std::unordered_map<K, V>` is a list of its entries; `std::deque` is a list
  with the front at the head.  The operations below never create a second
  entry for a key, and an iteration over the container is an iteration over
  the list.
* A C++ exception is a value of `Failure`.  A member function that throws
  before it has changed anything returns `Except Failure _`; an event handler
  returns a `Run`: the system it leaves behind, what it printed, and the
  exception that left it, if any.
-/

namespace cybercafe_monitoring_system

/-- The exception classes thrown by the program. -/
inductive Failure
  | invalid_argument
  | out_of_range
  | runtime_error
  deriving DecidableEq

/-! ## Containers -/

namespace unordered_set

variable {κ : Type} [DecidableEq κ]

/-- Insertion `s.insert(k)`: nothing happens when `k` is already an element. -/
def insert (k : κ) (s : List κ) : List κ :=
  if k ∈ s then s else k :: s

/-- Removal `s.erase(k)`. -/
def erase (k : κ) (s : List κ) : List κ :=
  s.filter (fun x => decide (x ≠ k))

end unordered_set

namespace unordered_map

variable {κ ν : Type} [DecidableEq κ]

/-- Lookup `m.find(k)`: the value stored under `k`, if there is one. -/
def find (k : κ) : List (κ × ν) → Option ν
  | [] => none
  | (k', v) :: m => if k' = k then some v else find k m

/-- Membership test `m.contains(k)`. -/
def contains (k : κ) (m : List (κ × ν)) : Bool :=
  (find k m).isSome

/-- Removal `m.erase(k)`. -/
def erase (k : κ) (m : List (κ × ν)) : List (κ × ν) :=
  m.filter (fun p => decide (p.1 ≠ k))

/-- Assignment `m[k] = v`: the entry of `k` is replaced, or created. -/
def assign (k : κ) (v : ν) (m : List (κ × ν)) : List (κ × ν) :=
  (k, v) :: erase k m

end unordered_map

namespace deque

/-- The pair `std::ranges::remove(q, x)` and `q.erase(first, last)`: every
occurrence of `x` goes, the other elements keep their order. -/
def remove (x : String) (q : List String) : List String :=
  q.filter (fun y => decide (y ≠ x))

end deque

/-! ## Events -/

/-- The direction `Event::Type` of an event. -/
inductive EventType
  | kIncoming
  | kOutgoing
  deriving DecidableEq

/-- The numeric kinds `Event::Id`. -/
inductive EventId
  | k1
  | k2
  | k3
  | k4
  | k11
  | k12
  | k13
  | kBadId
  deriving DecidableEq

/-- The five event classes with their data members. -/
inductive Event
  | ClientArrivedEvent (time : Int) (client_name : String)
  | ClientSatAtTableEvent (time : Int) (client_name : String) (table_id : Int)
      (type : EventType)
  | ClientWaitingEvent (time : Int) (client_name : String)
  | ClientLeftEvent (time : Int) (client_name : String) (type : EventType)
  | ErrorEvent (time : Int) (error_message : String)
  deriving DecidableEq

/-- The kind each constructor passes to `Event(time, id, type)`. -/
def Event.GetId : Event → EventId
  | .ClientArrivedEvent _ _ => .k1
  | .ClientSatAtTableEvent _ _ _ .kIncoming => .k2
  | .ClientSatAtTableEvent _ _ _ .kOutgoing => .k12
  | .ClientWaitingEvent _ _ => .k3
  | .ClientLeftEvent _ _ .kIncoming => .k4
  | .ClientLeftEvent _ _ .kOutgoing => .k11
  | .ErrorEvent _ _ => .k13

/-- The member `time_` of an event. -/
def Event.GetTime : Event → Int
  | .ClientArrivedEvent time _ => time
  | .ClientSatAtTableEvent time _ _ _ => time
  | .ClientWaitingEvent time _ => time
  | .ClientLeftEvent time _ _ => time
  | .ErrorEvent time _ => time

/-- The C-locale `std::isdigit`. -/
def isdigit (c : Char) : Bool :=
  decide ('0' ≤ c) && decide (c ≤ '9')

/-- The C-locale `std::islower`. -/
def islower (c : Char) : Bool :=
  decide ('a' ≤ c) && decide (c ≤ 'z')

/-- The loop of `Event::IsClientNameValid`: `false` at the first character
that is not a digit, a lowercase letter, `_` or `-`. -/
def IsClientNameValid.loop : List Char → Bool
  | [] => true
  | c :: rest =>
    if !(isdigit c || islower c || c == '_' || c == '-') then false
    else IsClientNameValid.loop rest

/-- The name check `Event::IsClientNameValid`: after the loop,
`!client_name.empty()`. -/
def IsClientNameValid (client_name : String) : Bool :=
  if IsClientNameValid.loop client_name.data then !client_name.data.isEmpty
  else false

/-- What the program writes to standard output, one item per line. -/
inductive Output
  | event (e : Event)
  | time (time_point : Int)
  | table (table_id : Int) (revenue : Int) (duration : Int)
  deriving DecidableEq

/-! ## The system -/

/-- The data members of `class CybercafeMonitoringSystem`. -/
structure CybercafeMonitoringSystem where
  hourly_rate_ : Int
  opening_time_ : Int
  closing_time_ : Int
  tables_count_ : Int
  total_revenue_ : Int
  waiting_clients_ : List String
  clients_ : List String
  clients_at_table_ : List (String × Int)
  tables_current_using_since_ : List (Int × Int)
  tables_daily_using_ : List (Int × Int)
  tables_daily_revenue_ : List (Int × Int)
  deriving DecidableEq

/-- What a call leaves behind: the system, the lines printed, and the
exception that ended the call, if one was thrown. -/
structure Run where
  system : CybercafeMonitoringSystem
  printed : List Output
  thrown : Option Failure
  deriving DecidableEq

namespace CybercafeMonitoringSystem

/-- The constructor: it throws `std::invalid_argument` when
`tables_count < 1` and checks nothing else; the containers start empty and
`total_revenue_` at `0`. -/
def ctor (opening_time closing_time tables_count hourly_rate : Int) :
    Except Failure CybercafeMonitoringSystem :=
  if tables_count < 1 then .error .invalid_argument
  else .ok
    { hourly_rate_ := hourly_rate
      opening_time_ := opening_time
      closing_time_ := closing_time
      tables_count_ := tables_count
      total_revenue_ := 0
      waiting_clients_ := []
      clients_ := []
      clients_at_table_ := []
      tables_current_using_since_ := []
      tables_daily_using_ := []
      tables_daily_revenue_ := [] }

/-- The query `GetTotalRevenue`. -/
def GetTotalRevenue (system : CybercafeMonitoringSystem) : Int :=
  system.total_revenue_

/-- The query `IsWorking`: `time >= opening_time_ and time < closing_time_`. -/
def IsWorking (system : CybercafeMonitoringSystem) (time : Int) : Bool :=
  decide (time ≥ system.opening_time_) && decide (time < system.closing_time_)

/-- The query `IsAvailableTableExists`:
`clients_at_table_.size() < static_cast<size_t>(tables_count_)`, the cast
being the reduction modulo `2 ^ 64`. -/
def IsAvailableTableExists (system : CybercafeMonitoringSystem) : Bool :=
  decide ((system.clients_at_table_.length : Int) < system.tables_count_ % 2 ^ 64)

/-- The query `IsTableFree`: it throws `std::invalid_argument` for an id
outside `1 .. tables_count_`, and otherwise scans every entry of
`clients_at_table_` for the id. -/
def IsTableFree (system : CybercafeMonitoringSystem) (table_id : Int) :
    Except Failure Bool :=
  if table_id < 1 ∨ table_id > system.tables_count_ then .error .invalid_argument
  else .ok (system.clients_at_table_.all (fun entry => decide (entry.2 ≠ table_id)))

/-- The helper `ProcessClientDeparture`.  Both `.at` lookups come before the
first assignment, so a thrown `std::out_of_range` leaves the system as it
was.  `operator[]` on the two daily maps reads `0` for a missing table.  The
division is the C++ one, which truncates towards zero. -/
def ProcessClientDeparture (system : CybercafeMonitoringSystem)
    (client_name : String) (time : Int) : Except Failure CybercafeMonitoringSystem :=
  match unordered_map.find client_name system.clients_at_table_ with
  | none => .error .out_of_range
  | some table_id =>
    match unordered_map.find table_id system.tables_current_using_since_ with
    | none => .error .out_of_range
    | some since =>
      .ok
        { system with
          tables_daily_using_ :=
            unordered_map.assign table_id
              ((unordered_map.find table_id system.tables_daily_using_).getD 0
                + (time - since))
              system.tables_daily_using_
          tables_daily_revenue_ :=
            unordered_map.assign table_id
              ((unordered_map.find table_id system.tables_daily_revenue_).getD 0
                + Int.tdiv (time - since + 59) 60 * system.hourly_rate_)
              system.tables_daily_revenue_
          total_revenue_ :=
            system.total_revenue_
              + Int.tdiv (time - since + 59) 60 * system.hourly_rate_
          clients_at_table_ := unordered_map.erase client_name system.clients_at_table_
          clients_ := unordered_set.erase client_name system.clients_
          tables_current_using_since_ :=
            unordered_map.erase table_id system.tables_current_using_since_ }

/-- The loop of `CybercafeOpen`: `m[i] = 0` for `i = first, first + 1, ...`,
`count` times. -/
def CybercafeOpen.loop : Nat → Int → List (Int × Int) → List (Int × Int)
  | 0, _, m => m
  | count + 1, first, m =>
    CybercafeOpen.loop count (first + 1) (unordered_map.assign first 0 m)

/-- The member `CybercafeOpen`: revenue and occupied time of the tables
`1 .. tables_count_` are set to zero, then the opening time is printed. -/
def CybercafeOpen (system : CybercafeMonitoringSystem) : Run :=
  { system :=
      { system with
        tables_daily_revenue_ :=
          CybercafeOpen.loop system.tables_count_.toNat 1 system.tables_daily_revenue_
        tables_daily_using_ :=
          CybercafeOpen.loop system.tables_count_.toNat 1 system.tables_daily_using_ }
    printed := [Output.time system.opening_time_]
    thrown := none }

end CybercafeMonitoringSystem

/-! ## Event handlers

Every `Handle` starts with `Print()`, which writes the event itself.  The
constructor of an event class throws `std::invalid_argument` when
`IsClientNameValid` rejects the name: a handler that builds a follow-up event
makes that check before it handles the event. -/

/-- The handler `ErrorEvent::Handle`: it only prints. -/
def ErrorEvent.Handle (time : Int) (error_message : String)
    (system : CybercafeMonitoringSystem) : Run :=
  ⟨system, [Output.event (.ErrorEvent time error_message)], none⟩

/-- The handler `ClientArrivedEvent::Handle`. -/
def ClientArrivedEvent.Handle (time : Int) (client_name : String)
    (system : CybercafeMonitoringSystem) : Run :=
  if client_name ∈ system.clients_ then
    ⟨system, [Output.event (.ClientArrivedEvent time client_name),
      Output.event (.ErrorEvent time "YouShallNotPass")], none⟩
  else if !system.IsWorking time then
    ⟨system, [Output.event (.ClientArrivedEvent time client_name),
      Output.event (.ErrorEvent time "NotOpenYet")], none⟩
  else
    ⟨{ system with clients_ := unordered_set.insert client_name system.clients_ },
      [Output.event (.ClientArrivedEvent time client_name)], none⟩

/-- The handler `ClientSatAtTableEvent::Handle`: case `k2` for an incoming
event, case `k12` for an outgoing one (the constructor leaves no other id). -/
def ClientSatAtTableEvent.Handle (time : Int) (client_name : String) (table_id : Int)
    (type : EventType) (system : CybercafeMonitoringSystem) : Run :=
  match type with
  | .kIncoming =>
    match system.IsTableFree table_id with
    | .error failure =>
      ⟨system, [Output.event (.ClientSatAtTableEvent time client_name table_id type)],
        some failure⟩
    | .ok false =>
      ⟨system, [Output.event (.ClientSatAtTableEvent time client_name table_id type),
        Output.event (.ErrorEvent time "PlaceIsBusy")], none⟩
    | .ok true =>
      if ¬ client_name ∈ system.clients_ then
        ⟨system, [Output.event (.ClientSatAtTableEvent time client_name table_id type),
          Output.event (.ErrorEvent time "ClientUnknown")], none⟩
      else if unordered_map.contains client_name system.clients_at_table_ then
        match system.ProcessClientDeparture client_name time with
        | .error failure =>
          ⟨system, [Output.event (.ClientSatAtTableEvent time client_name table_id type)],
            some failure⟩
        | .ok departed =>
          ⟨{ departed with
              clients_ := unordered_set.insert client_name departed.clients_
              clients_at_table_ :=
                unordered_map.assign client_name table_id departed.clients_at_table_
              tables_current_using_since_ :=
                unordered_map.assign table_id time departed.tables_current_using_since_ },
            [Output.event (.ClientSatAtTableEvent time client_name table_id type)], none⟩
      else
        ⟨{ system with
            clients_at_table_ :=
              unordered_map.assign client_name table_id system.clients_at_table_
            tables_current_using_since_ :=
              unordered_map.assign table_id time system.tables_current_using_since_ },
          [Output.event (.ClientSatAtTableEvent time client_name table_id type)], none⟩
  | .kOutgoing =>
    ⟨{ system with
        clients_at_table_ :=
          unordered_map.assign client_name table_id system.clients_at_table_
        tables_current_using_since_ :=
          unordered_map.assign table_id time system.tables_current_using_since_ },
      [Output.event (.ClientSatAtTableEvent time client_name table_id type)], none⟩

/-- The handler `ClientLeftEvent::Handle`: case `k4` for an incoming event,
case `k11` for an outgoing one.  In case `k4` the table is read before the
departure, and after it the front of the queue, if there is one, is seated
by an outgoing `ClientSatAtTableEvent` and then popped. -/
def ClientLeftEvent.Handle (time : Int) (client_name : String) (type : EventType)
    (system : CybercafeMonitoringSystem) : Run :=
  match type with
  | .kIncoming =>
    if ¬ client_name ∈ system.clients_ then
      ⟨system, [Output.event (.ClientLeftEvent time client_name type),
        Output.event (.ErrorEvent time "ClientUnknown")], none⟩
    else
      match unordered_map.find client_name system.clients_at_table_ with
      | none =>
        ⟨{ system with
            clients_ := unordered_set.erase client_name system.clients_
            waiting_clients_ := deque.remove client_name system.waiting_clients_ },
          [Output.event (.ClientLeftEvent time client_name type)], none⟩
      | some table_id =>
        match system.ProcessClientDeparture client_name time with
        | .error failure =>
          ⟨system, [Output.event (.ClientLeftEvent time client_name type)], some failure⟩
        | .ok departed =>
          match departed.waiting_clients_ with
          | [] => ⟨departed, [Output.event (.ClientLeftEvent time client_name type)], none⟩
          | front :: _ =>
            if IsClientNameValid front then
              let sat := ClientSatAtTableEvent.Handle time front table_id .kOutgoing departed
              match sat.thrown with
              | some failure =>
                ⟨sat.system,
                  Output.event (.ClientLeftEvent time client_name type) :: sat.printed,
                  some failure⟩
              | none =>
                ⟨{ sat.system with waiting_clients_ := sat.system.waiting_clients_.tail },
                  Output.event (.ClientLeftEvent time client_name type) :: sat.printed,
                  none⟩
            else
              ⟨departed, [Output.event (.ClientLeftEvent time client_name type)],
                some .invalid_argument⟩
  | .kOutgoing =>
    if ¬ unordered_map.contains client_name system.clients_at_table_ then
      ⟨{ system with
          clients_ := unordered_set.erase client_name system.clients_
          waiting_clients_ := deque.remove client_name system.waiting_clients_ },
        [Output.event (.ClientLeftEvent time client_name type)], none⟩
    else
      match system.ProcessClientDeparture client_name time with
      | .error failure =>
        ⟨system, [Output.event (.ClientLeftEvent time client_name type)], some failure⟩
      | .ok departed =>
        ⟨departed, [Output.event (.ClientLeftEvent time client_name type)], none⟩

/-- The handler `ClientWaitingEvent::Handle`.  The queue length is compared
as `static_cast<int>(waiting_clients_.size()) >= tables_count_`. -/
def ClientWaitingEvent.Handle (time : Int) (client_name : String)
    (system : CybercafeMonitoringSystem) : Run :=
  if system.IsAvailableTableExists then
    ⟨system, [Output.event (.ClientWaitingEvent time client_name),
      Output.event (.ErrorEvent time "ICanWaitNoLonger!")], none⟩
  else if unordered_map.contains client_name system.clients_at_table_ then
    ⟨system, [Output.event (.ClientWaitingEvent time client_name),
      Output.event (.ErrorEvent time "YouAlreadyAtTable!")], none⟩
  else if (system.waiting_clients_.length : Int) ≥ system.tables_count_ then
    if IsClientNameValid client_name then
      let left := ClientLeftEvent.Handle time client_name .kOutgoing system
      ⟨left.system, Output.event (.ClientWaitingEvent time client_name) :: left.printed,
        left.thrown⟩
    else
      ⟨system, [Output.event (.ClientWaitingEvent time client_name)],
        some .invalid_argument⟩
  else if ¬ client_name ∈ system.clients_ then
    ⟨system, [Output.event (.ClientWaitingEvent time client_name),
      Output.event (.ErrorEvent time "ClientUnknown")], none⟩
  else
    ⟨{ system with waiting_clients_ := system.waiting_clients_ ++ [client_name] },
      [Output.event (.ClientWaitingEvent time client_name)], none⟩

/-- The virtual call `event.Handle(system)`. -/
def Event.Handle (event : Event) (system : CybercafeMonitoringSystem) : Run :=
  match event with
  | .ClientArrivedEvent time client_name =>
    ClientArrivedEvent.Handle time client_name system
  | .ClientSatAtTableEvent time client_name table_id type =>
    ClientSatAtTableEvent.Handle time client_name table_id type system
  | .ClientWaitingEvent time client_name =>
    ClientWaitingEvent.Handle time client_name system
  | .ClientLeftEvent time client_name type =>
    ClientLeftEvent.Handle time client_name type system
  | .ErrorEvent time error_message => ErrorEvent.Handle time error_message system

/-! ## Closing the day -/

namespace CybercafeMonitoringSystem

/-- The rank `ClientsNameCompare::CharacterRank`: letters `0 .. 25`, digits
`26 .. 35`, then `_` and `-`; any other character throws
`std::runtime_error`. -/
def CharacterRank (c : Char) : Except Failure Int :=
  if c ≥ 'a' ∧ c ≤ 'z' then .ok ((c.toNat : Int) - ('a'.toNat : Int))
  else if c ≥ '0' ∧ c ≤ '9' then .ok (26 + ((c.toNat : Int) - ('0'.toNat : Int)))
  else if c = '_' then .ok 36
  else if c = '-' then .ok 37
  else .error .runtime_error

/-- The loop of `ClientsNameCompare::operator()` from index `i` on, the two
arguments being what is left of `first` and of `second` there; when either
is used up the answer is `first.size() < second.size()`. -/
def ClientsNameCompare.loop (first_size second_size : Nat) :
    List Char → List Char → Except Failure Bool
  | c1 :: rest1, c2 :: rest2 =>
    match CharacterRank c1 with
    | .error failure => .error failure
    | .ok first_rank =>
      match CharacterRank c2 with
      | .error failure => .error failure
      | .ok second_rank =>
        if first_rank ≠ second_rank then .ok (decide (first_rank < second_rank))
        else ClientsNameCompare.loop first_size second_size rest1 rest2
  | _, _ => .ok (decide (first_size < second_size))

/-- The comparator `ClientsNameCompare::operator()`. -/
def ClientsNameCompare (first second : String) : Except Failure Bool :=
  if first = second then .ok false
  else ClientsNameCompare.loop first.data.length second.data.length first.data second.data

/-- One insertion into a list sorted by `ClientsNameCompare`. -/
def sort.insert (client : String) : List String → Except Failure (List String)
  | [] => .ok [client]
  | head :: rest =>
    match ClientsNameCompare client head with
    | .error failure => .error failure
    | .ok true => .ok (client :: head :: rest)
    | .ok false =>
      match sort.insert client rest with
      | .error failure => .error failure
      | .ok inserted => .ok (head :: inserted)

/-- The call `std::ranges::sort(remaining_clients, ClientsNameCompare())`,
as an insertion sort: the standard fixes the result, not the algorithm, and a
comparison that throws ends the sort. -/
def sort : List String → Except Failure (List String)
  | [] => .ok []
  | client :: rest =>
    match sort rest with
    | .error failure => .error failure
    | .ok sorted => sort.insert client sorted

/-- The table ids `PrintClosingStats` walks through: `1 .. tables_count_ - 1`
in the loop, then `tables_count_` itself. -/
def PrintClosingStats.ids (tables_count : Int) : List Int :=
  (List.range (tables_count - 1).toNat).map (fun i => (i : Int) + 1) ++ [tables_count]

/-- The rows of `PrintClosingStats`, each read with `.at` from the two daily
maps; a missing table throws `std::out_of_range` after the rows before it. -/
def PrintClosingStats.rows (system : CybercafeMonitoringSystem) :
    List Int → List Output × Option Failure
  | [] => ([], none)
  | table_id :: rest =>
    match unordered_map.find table_id system.tables_daily_revenue_,
      unordered_map.find table_id system.tables_daily_using_ with
    | some revenue, some duration =>
      let later := PrintClosingStats.rows system rest
      (Output.table table_id revenue duration :: later.1, later.2)
    | _, _ => ([], some .out_of_range)

/-- The member `PrintClosingStats`: the closing time, then one row a table. -/
def PrintClosingStats (system : CybercafeMonitoringSystem) :
    List Output × Option Failure :=
  let rows := PrintClosingStats.rows system (PrintClosingStats.ids system.tables_count_)
  (Output.time system.closing_time_ :: rows.1, rows.2)

/-- The second loop of `CybercafeClose`: an outgoing `ClientLeftEvent` at
`closing_time_` is built and handled for each remaining client in turn. -/
def CybercafeClose.loop : List String → CybercafeMonitoringSystem → Run
  | [], system => ⟨system, [], none⟩
  | client :: rest, system =>
    if IsClientNameValid client then
      let left := ClientLeftEvent.Handle system.closing_time_ client .kOutgoing system
      match left.thrown with
      | some failure => ⟨left.system, left.printed, some failure⟩
      | none =>
        let later := CybercafeClose.loop rest left.system
        ⟨later.system, left.printed ++ later.printed, later.thrown⟩
    else ⟨system, [], some .invalid_argument⟩

/-- The member `CybercafeClose` (called by `EndWorkDayTrigger`): the clients
present are sorted and made to leave, the statistics are printed, and the
three per-day maps are cleared. -/
def CybercafeClose (system : CybercafeMonitoringSystem) : Run :=
  match sort system.clients_ with
  | .error failure => ⟨system, [], some failure⟩
  | .ok remaining_clients =>
    let left := CybercafeClose.loop remaining_clients system
    match left.thrown with
    | some failure => ⟨left.system, left.printed, some failure⟩
    | none =>
      let stats := PrintClosingStats left.system
      match stats.2 with
      | some failure => ⟨left.system, left.printed ++ stats.1, some failure⟩
      | none =>
        ⟨{ left.system with
            tables_daily_using_ := []
            tables_current_using_since_ := []
            tables_daily_revenue_ := [] },
          left.printed ++ stats.1, none⟩

end CybercafeMonitoringSystem

/-! ## Reachable states -/

/-- The events the input reader builds (ids 1 to 4), their constructor having
accepted the client name. -/
def Event.IsIncoming : Event → Bool
  | .ClientArrivedEvent _ client_name => IsClientNameValid client_name
  | .ClientSatAtTableEvent _ client_name _ .kIncoming => IsClientNameValid client_name
  | .ClientWaitingEvent _ client_name => IsClientNameValid client_name
  | .ClientLeftEvent _ client_name .kIncoming => IsClientNameValid client_name
  | _ => false

/-- The states of a day: a system is constructed and opened, then incoming
events are handled one after the other.  A handler that throws leaves the
system it had reached, and the day may go on from there. -/
inductive Reachable : CybercafeMonitoringSystem → Prop
  | opened (opening_time closing_time tables_count hourly_rate : Int)
      (system : CybercafeMonitoringSystem)
      (constructed : CybercafeMonitoringSystem.ctor opening_time closing_time
        tables_count hourly_rate = .ok system) :
      Reachable system.CybercafeOpen.system
  | handled (system : CybercafeMonitoringSystem) (event : Event)
      (before : Reachable system) (incoming : event.IsIncoming = true) :
      Reachable (event.Handle system).system

/-- The system after the events of the list, handled from left to right; as in
the tests, an exception thrown by one handler does not stop the next. -/
def HandleAll : List Event → CybercafeMonitoringSystem → CybercafeMonitoringSystem
  | [], system => system
  | event :: rest, system => HandleAll rest (event.Handle system).system

/-! ## Invariants and example days -/

deriving instance DecidableEq for Except

/-- The seating is a map in which no table has two clients: no client name
and no table id occurs twice among the entries of `clients_at_table_`. -/
def Seating (m : List (String × Int)) : Prop :=
  (m.map Prod.fst).Nodup ∧ (m.map Prod.snd).Nodup

/-- The books are in order: every assigned table id lies in
`1 .. tables_count_`, `tables_daily_revenue_` has exactly one entry for each of
these ids, and its values add up to `total_revenue_`. -/
def Accounted (system : CybercafeMonitoringSystem) : Prop :=
  (∀ c T, (c, T) ∈ system.clients_at_table_ → 1 ≤ T ∧ T ≤ system.tables_count_)
  ∧ (system.tables_daily_revenue_.map Prod.fst).Nodup
  ∧ (∀ T, T ∈ system.tables_daily_revenue_.map Prod.fst ↔ 1 ≤ T ∧ T ≤ system.tables_count_)
  ∧ system.total_revenue_ = (system.tables_daily_revenue_.map Prod.snd).sum

/-- A day from 10:00 to 22:00 with two tables at 100 an hour, just opened. -/
def day_opened : CybercafeMonitoringSystem :=
  (⟨100, 600, 1320, 2, 0, [], [], [], [], [], []⟩ : CybercafeMonitoringSystem).CybercafeOpen.system

/-- Two clients take the two tables, a third one asks to wait twice, then the
client of table 1 leaves. -/
def waits_twice : List Event :=
  [.ClientArrivedEvent 600 "a", .ClientSatAtTableEvent 600 "a" 1 .kIncoming,
   .ClientArrivedEvent 600 "b", .ClientSatAtTableEvent 600 "b" 2 .kIncoming,
   .ClientArrivedEvent 600 "c", .ClientWaitingEvent 600 "c", .ClientWaitingEvent 600 "c",
   .ClientLeftEvent 660 "a" .kIncoming]

/-- The same day, the client of table 2 leaving as well. -/
def waits_twice_both_leave : List Event :=
  waits_twice ++ [.ClientLeftEvent 700 "b" .kIncoming]

/-- A client arrives and sits down at table 1 at opening time. -/
def sits_down : List Event :=
  [.ClientArrivedEvent 600 "client1", .ClientSatAtTableEvent 600 "client1" 1 .kIncoming]

/-! ## Client names in order -/

/-- The characters `IsClientNameValid` accepts. -/
def ValidChar (c : Char) : Bool :=
  isdigit c || islower c || c == '_' || c == '-'

/-- The rank of a character, `0` standing in where `CharacterRank` throws. -/
def rank (c : Char) : Int :=
  match CybercafeMonitoringSystem.CharacterRank c with
  | .ok r => r
  | .error _ => 0

/-- The ranks of the characters of a name, in order. -/
def ranks (name : String) : List Int :=
  name.data.map rank

/-- The order `ClientsNameCompare` computes on client names: the lexicographic
order of the ranks, a proper prefix coming first. -/
def Precedes (first second : String) : Prop :=
  List.Lex (· < ·) (ranks first) (ranks second)

/-- The order is decidable, as the lexicographic order of lists of integers is. -/
instance (first second : String) : Decidable (Precedes first second) :=
  inferInstanceAs (Decidable (List.Lex (· < ·) (ranks first) (ranks second)))

/-- The class of a character of a client name, in the order of the ranks:
lowercase letter, digit, underscore, hyphen. -/
def CharacterClass (c : Char) : Nat :=
  if islower c then 0 else if isdigit c then 1 else if c = '_' then 2 else 3

/-- Every seated client has the table to themselves, and the table has an
occupied-since entry. -/
def Settled (system : CybercafeMonitoringSystem) : Prop :=
  Seating system.clients_at_table_
  ∧ ∀ c T, unordered_map.find c system.clients_at_table_ = some T →
      ∃ s, unordered_map.find T system.tables_current_using_since_ = some s

/-- The day `waits_twice`, after which the client queued twice leaves while
still in the queue. -/
def leaves_while_queued : List Event :=
  waits_twice ++ [.ClientLeftEvent 700 "c" .kIncoming]

/-- The day `leaves_while_queued` is closed and client `c` arrives again: `c`
is present and seated at table 1, which has no occupied-since entry. -/
def unaccounted_seat : CybercafeMonitoringSystem :=
  ((Event.ClientArrivedEvent 710 "c").Handle
    (HandleAll leaves_while_queued day_opened).CybercafeClose.system).system

/-- A client arrives at 21:40 and sits down at 23:00, an hour after closing
time. -/
def sits_late : List Event :=
  [.ClientArrivedEvent 1300 "a", .ClientSatAtTableEvent 1380 "a" 1 .kIncoming]

/-- Both tables are taken, two clients are queued and a fifth has arrived. -/
def queue_full : List Event :=
  [.ClientArrivedEvent 600 "a", .ClientSatAtTableEvent 600 "a" 1 .kIncoming,
   .ClientArrivedEvent 600 "b", .ClientSatAtTableEvent 600 "b" 2 .kIncoming,
   .ClientArrivedEvent 600 "c", .ClientWaitingEvent 600 "c",
   .ClientArrivedEvent 600 "d", .ClientWaitingEvent 600 "d",
   .ClientArrivedEvent 600 "e"]

/-! ## Steps of a day -/

/-- The elementary changes the handlers make to a system.  Every handler of an
incoming event, and every forced departure of close-day, leaves the system as
it was or takes one or two of these steps.  `seats T` says that table `T` may
be taken by an incoming `ClientSatAtTableEvent`. -/
inductive Step (seats : Int → Prop) :
    CybercafeMonitoringSystem → CybercafeMonitoringSystem → Prop
  | arrive (system : CybercafeMonitoringSystem) (client_name : String)
      (valid : IsClientNameValid client_name = true)
      (fresh : client_name ∉ system.clients_) :
      Step seats system
        { system with clients_ := unordered_set.insert client_name system.clients_ }
  | seat (system : CybercafeMonitoringSystem) (client_name : String)
      (table_id time : Int) (allowed : seats table_id)
      (valid : IsClientNameValid client_name = true)
      (free : system.IsTableFree table_id = .ok true)
      (standing : unordered_map.find client_name system.clients_at_table_ = none) :
      Step seats system
        { system with
          clients_ := unordered_set.insert client_name system.clients_
          clients_at_table_ :=
            unordered_map.assign client_name table_id system.clients_at_table_
          tables_current_using_since_ :=
            unordered_map.assign table_id time system.tables_current_using_since_ }
  | depart (system : CybercafeMonitoringSystem) (client_name : String) (time : Int)
      (departed : CybercafeMonitoringSystem)
      (left : system.ProcessClientDeparture client_name time = .ok departed) :
      Step seats system departed
  | purge (system : CybercafeMonitoringSystem) (client_name : String)
      (standing : unordered_map.find client_name system.clients_at_table_ = none) :
      Step seats system
        { system with
          clients_ := unordered_set.erase client_name system.clients_
          waiting_clients_ := deque.remove client_name system.waiting_clients_ }
  | enqueue (system : CybercafeMonitoringSystem) (client_name : String)
      (valid : IsClientNameValid client_name = true)
      (present : client_name ∈ system.clients_)
      (standing : unordered_map.find client_name system.clients_at_table_ = none)
      (full : system.IsAvailableTableExists = false)
      (short : (system.waiting_clients_.length : Int) < system.tables_count_) :
      Step seats system
        { system with waiting_clients_ := system.waiting_clients_ ++ [client_name] }
  | promote (system : CybercafeMonitoringSystem) (client_name : String)
      (table_id time : Int) (departed : CybercafeMonitoringSystem)
      (front : String) (rest : List String)
      (present : client_name ∈ system.clients_)
      (seated : unordered_map.find client_name system.clients_at_table_ = some table_id)
      (left : system.ProcessClientDeparture client_name time = .ok departed)
      (queue : departed.waiting_clients_ = front :: rest)
      (valid : IsClientNameValid front = true) :
      Step seats system
        { departed with
          clients_at_table_ :=
            unordered_map.assign front table_id departed.clients_at_table_
          tables_current_using_since_ :=
            unordered_map.assign table_id time departed.tables_current_using_since_
          waiting_clients_ := rest }

/-- A run of steps, none included. -/
def Steps (seats : Int → Prop) :
    CybercafeMonitoringSystem → CybercafeMonitoringSystem → Prop :=
  Relation.ReflTransGen (Step seats)

/-- The tables an event may seat its client at: the table of an incoming
`ClientSatAtTableEvent`. -/
def Event.Seats (event : Event) (table_id : Int) : Prop :=
  ∃ time client_name, event = .ClientSatAtTableEvent time client_name table_id .kIncoming

/-- The register is in order: no client is present twice, and the names of the
clients present and of the clients queued are valid names. -/
def Registered (system : CybercafeMonitoringSystem) : Prop :=
  system.clients_.Nodup
  ∧ (∀ c ∈ system.clients_, IsClientNameValid c = true)
  ∧ (∀ c ∈ system.waiting_clients_, IsClientNameValid c = true)

/-- Both daily maps have an entry for every table `1 .. tables_count_`. -/
def Reported (system : CybercafeMonitoringSystem) : Prop :=
  ∀ T, 1 ≤ T → T ≤ system.tables_count_ →
    (∃ revenue, unordered_map.find T system.tables_daily_revenue_ = some revenue)
    ∧ (∃ duration, unordered_map.find T system.tables_daily_using_ = some duration)

/-- Table `T` has not been used yet: nobody sits at it and both daily maps
hold zero for it. -/
def Untouched (T : Int) (system : CybercafeMonitoringSystem) : Prop :=
  (∀ c, (c, T) ∉ system.clients_at_table_)
  ∧ unordered_map.find T system.tables_daily_revenue_ = some 0
  ∧ unordered_map.find T system.tables_daily_using_ = some 0

/-! ## Further parts of the program -/

/-- The local `hours` of `ProcessClientDeparture`, from `usage_duration` in
minutes: `(usage_duration.count() + 59) / 60` with the C++ division. -/
def CybercafeMonitoringSystem.ProcessClientDeparture.hours (usage_duration : Int) : Int :=
  Int.tdiv (usage_duration + 59) 60

/-- The constructor `ClientArrivedEvent(event_time, client_name)`: it throws
`std::invalid_argument` when `IsClientNameValid` rejects the name. -/
def ClientArrivedEvent.ctor (event_time : Int) (client_name : String) :
    Except Failure Event :=
  if !IsClientNameValid client_name then .error .invalid_argument
  else .ok (.ClientArrivedEvent event_time client_name)

/-- The constructor `ClientSatAtTableEvent(event_time, client_name, table_id,
event_type)`, with the same name check. -/
def ClientSatAtTableEvent.ctor (event_time : Int) (client_name : String)
    (table_id : Int) (event_type : EventType) : Except Failure Event :=
  if !IsClientNameValid client_name then .error .invalid_argument
  else .ok (.ClientSatAtTableEvent event_time client_name table_id event_type)

/-- The constructor `ClientWaitingEvent(event_time, client_name)`, with the
same name check. -/
def ClientWaitingEvent.ctor (event_time : Int) (client_name : String) :
    Except Failure Event :=
  if !IsClientNameValid client_name then .error .invalid_argument
  else .ok (.ClientWaitingEvent event_time client_name)

/-- The constructor `ClientLeftEvent(event_time, client_name, event_type)`,
with the same name check. -/
def ClientLeftEvent.ctor (event_time : Int) (client_name : String)
    (event_type : EventType) : Except Failure Event :=
  if !IsClientNameValid client_name then .error .invalid_argument
  else .ok (.ClientLeftEvent event_time client_name event_type)

/-- The loop of `ValidateEventsOrder` over `events[1 ..]`: the first event
whose time is below `previous_event_time`, which the loop never assigns. -/
def ValidateEventsOrder.loop (previous_event_time : Int) : List Event → Option Event
  | [] => none
  | event :: rest =>
    if event.GetTime < previous_event_time then some event
    else ValidateEventsOrder.loop previous_event_time rest

/-- The function `ValidateEventsOrder` of the input reader: the event it
prints before `std::exit(1)`, or `none` when it returns.
`previous_event_time` is `events[0]->GetTime()`. -/
def ValidateEventsOrder (events : List Event) : Option Event :=
  match events with
  | [] => none
  | first :: rest =>
    if events.length > 1 then ValidateEventsOrder.loop first.GetTime rest else none

/-- The function `CreateTestObject` of the input reader once the three header
lines are parsed: `std::runtime_error` for a table count or an hourly rate
`<= 0`, the table count being checked first; then the constructor. -/
def CreateTestObject (cybercafe_tables_count cybercafe_opening_time
    cybercafe_closing_time cybercafe_pc_hourly_rate : Int) :
    Except Failure CybercafeMonitoringSystem :=
  if cybercafe_tables_count ≤ 0 then .error .runtime_error
  else if cybercafe_pc_hourly_rate ≤ 0 then .error .runtime_error
  else CybercafeMonitoringSystem.ctor cybercafe_opening_time cybercafe_closing_time
    cybercafe_tables_count cybercafe_pc_hourly_rate

/-! ## Ranges, the clock and the reader of times -/

/-- Every table id the system holds is one of `1 .. tables_count_`: the
values of `clients_at_table_` and the keys of `tables_current_using_since_`,
`tables_daily_using_` and `tables_daily_revenue_`. -/
def Ranged (system : CybercafeMonitoringSystem) : Prop :=
  (∀ c T, (c, T) ∈ system.clients_at_table_ → 1 ≤ T ∧ T ≤ system.tables_count_)
  ∧ (∀ T ∈ system.tables_current_using_since_.map Prod.fst,
      1 ≤ T ∧ T ≤ system.tables_count_)
  ∧ (∀ T ∈ system.tables_daily_using_.map Prod.fst, 1 ≤ T ∧ T ≤ system.tables_count_)
  ∧ (∀ T ∈ system.tables_daily_revenue_.map Prod.fst, 1 ≤ T ∧ T ≤ system.tables_count_)

/-- The changes a handler makes at time `time`, as far as the clock and the
books go: a client is seated, a seated client departs, or only `clients_` and
`waiting_clients_` change.  A handler makes up to three of them. -/
inductive Tick (time : Int) : CybercafeMonitoringSystem → CybercafeMonitoringSystem → Prop
  | seat (system : CybercafeMonitoringSystem) (client_name : String) (table_id : Int) :
      Tick time system
        { system with
          clients_at_table_ :=
            unordered_map.assign client_name table_id system.clients_at_table_
          tables_current_using_since_ :=
            unordered_map.assign table_id time system.tables_current_using_since_ }
  | depart (system : CybercafeMonitoringSystem) (client_name : String)
      (departed : CybercafeMonitoringSystem)
      (left : system.ProcessClientDeparture client_name time = .ok departed) :
      Tick time system departed
  | idle (system : CybercafeMonitoringSystem) (clients waiting : List String) :
      Tick time system { system with clients_ := clients, waiting_clients_ := waiting }

/-- The books at time `now`: no table has been occupied since later than `now`,
no occupied time and no revenue in the daily maps is negative, and neither is
`total_revenue_` nor `hourly_rate_`. -/
def Clocked (now : Int) (system : CybercafeMonitoringSystem) : Prop :=
  (∀ T since, (T, since) ∈ system.tables_current_using_since_ → since ≤ now)
  ∧ (∀ T duration, (T, duration) ∈ system.tables_daily_using_ → 0 ≤ duration)
  ∧ (∀ T revenue, (T, revenue) ∈ system.tables_daily_revenue_ → 0 ≤ revenue)
  ∧ 0 ≤ system.total_revenue_
  ∧ 0 ≤ system.hourly_rate_

/-- A client arrives at 21:40 and sits down at 23:59, after closing time. -/
def sits_at_last_minute : List Event :=
  [.ClientArrivedEvent 1300 "a", .ClientSatAtTableEvent 1439 "a" 1 .kIncoming]

/-- The loop of `std::stoi` over decimal digits: it stops at the first
character that is not a digit. -/
def stoi.loop (value : Int) : List Char → Int
  | [] => value
  | c :: rest =>
    if isdigit c then stoi.loop (value * 10 + ((c.toNat : Int) - ('0'.toNat : Int))) rest
    else value

/-- The call `std::stoi(str)` for a string that starts with a decimal digit,
as `ParseTime` calls it: the value of the leading digits.  Without a leading
digit there is no conversion, and `std::invalid_argument` is thrown. -/
def stoi (str : List Char) : Except Failure Int :=
  match str with
  | [] => .error .invalid_argument
  | c :: _ => if isdigit c then .ok (stoi.loop 0 str) else .error .invalid_argument

/-- The function `ParseTime` of the input reader on the token it has read
(a missing token throws `std::invalid_argument` as well): five characters with
`:` in the middle, digits around it, hours up to 23 and minutes up to 59 give
the minute of the day.  The characters stand for the bytes of the token. -/
def ParseTime (time_token : String) : Except Failure Int :=
  match time_token.data with
  | [c0, c1, c2, c3, c4] =>
    if c2 ≠ ':' then .error .invalid_argument
    else if !isdigit c0 || !isdigit c1 || !isdigit c3 || !isdigit c4 then
      .error .invalid_argument
    else
      match stoi [c0, c1], stoi [c3, c4] with
      | .ok hours, .ok minutes =>
        if hours < 0 ∨ hours > 23 then .error .invalid_argument
        else if minutes < 0 ∨ minutes > 59 then .error .invalid_argument
        else .ok (hours * 60 + minutes)
      | .error failure, _ => .error failure
      | _, .error failure => .error failure
  | _ => .error .invalid_argument
/-! ## Facts about the containers -/

namespace unordered_map

variable {κ ν : Type} [DecidableEq κ]

theorem find_erase_self (k : κ) (m : List (κ × ν)) : find k (erase k m) = none := by
  induction m with
  | nil => rfl
  | cons p m ih =>
    obtain ⟨k', v⟩ := p
    by_cases h : k' = k
    · simpa [erase, List.filter_cons, h] using ih
    · simpa [erase, List.filter_cons, h, find] using ih

theorem find_erase_ne {k k' : κ} (h : k' ≠ k) (m : List (κ × ν)) :
    find k' (erase k m) = find k' m := by
  induction m with
  | nil => rfl
  | cons p m ih =>
    obtain ⟨k'', v⟩ := p
    by_cases h2 : k'' = k
    · subst h2
      have h3 : ¬ k'' = k' := fun e => h e.symm
      simpa [erase, List.filter_cons, find, h3] using ih
    · by_cases h3 : k'' = k'
      · subst h3
        simp [erase, List.filter_cons, find, h2]
      · simpa [erase, List.filter_cons, find, h2, h3] using ih

theorem find_assign_self (k : κ) (v : ν) (m : List (κ × ν)) :
    find k (assign k v m) = some v := by
  simp [assign, find]

theorem find_assign_ne {k k' : κ} (h : k' ≠ k) (v : ν) (m : List (κ × ν)) :
    find k' (assign k v m) = find k' m := by
  have h3 : ¬ k = k' := fun e => h e.symm
  simp [assign, find, h3, find_erase_ne h]

theorem mem_of_find {k : κ} {v : ν} {m : List (κ × ν)} (h : find k m = some v) :
    (k, v) ∈ m := by
  induction m with
  | nil => simp [find] at h
  | cons p m ih =>
    obtain ⟨k', v'⟩ := p
    by_cases hk : k' = k
    · simp [find, hk] at h
      simp [hk, h]
    · simp [find, hk] at h
      exact List.mem_cons_of_mem _ (ih h)

theorem erase_sublist (k : κ) (m : List (κ × ν)) : (erase k m).Sublist m :=
  List.filter_sublist _

theorem mem_erase {p : κ × ν} {k : κ} {m : List (κ × ν)} :
    p ∈ erase k m ↔ p ∈ m ∧ p.1 ≠ k := by
  simp [erase, List.mem_filter]

theorem contains_iff_find {k : κ} {m : List (κ × ν)} :
    contains k m = true ↔ ∃ v, find k m = some v := by
  simp [contains, Option.isSome_iff_exists]

theorem mem_keys_erase {k k' : κ} {m : List (κ × ν)} :
    k' ∈ (erase k m).map Prod.fst ↔ k' ∈ m.map Prod.fst ∧ k' ≠ k := by
  simp only [List.mem_map, mem_erase]
  constructor
  · rintro ⟨p, ⟨hp, hne⟩, rfl⟩
    exact ⟨⟨p, hp, rfl⟩, hne⟩
  · rintro ⟨⟨p, hp, rfl⟩, hne⟩
    exact ⟨p, ⟨hp, hne⟩, rfl⟩

theorem mem_keys_assign {k k' : κ} {v : ν} {m : List (κ × ν)} :
    k' ∈ (assign k v m).map Prod.fst ↔ k' = k ∨ k' ∈ m.map Prod.fst := by
  simp only [assign, List.map_cons, List.mem_cons, mem_keys_erase]
  by_cases h : k' = k <;> simp [h]

theorem nodup_keys_erase {m : List (κ × ν)} (h : (m.map Prod.fst).Nodup) (k : κ) :
    ((erase k m).map Prod.fst).Nodup :=
  h.sublist ((erase_sublist k m).map _)

theorem nodup_keys_assign {m : List (κ × ν)} (h : (m.map Prod.fst).Nodup) (k : κ) (v : ν) :
    ((assign k v m).map Prod.fst).Nodup := by
  refine List.nodup_cons.mpr ⟨?_, nodup_keys_erase h k⟩
  intro hk
  exact (mem_keys_erase.mp hk).2 rfl

theorem erase_of_not_mem {k : κ} {m : List (κ × ν)} (h : k ∉ m.map Prod.fst) :
    erase k m = m := by
  refine List.filter_eq_self.mpr ?_
  intro p hp
  simp only [decide_eq_true_eq]
  rintro rfl
  exact h (List.mem_map_of_mem _ hp)

theorem sum_values (k : κ) {m : List (κ × Int)} (h : (m.map Prod.fst).Nodup) :
    (m.map Prod.snd).sum = (find k m).getD 0 + ((erase k m).map Prod.snd).sum := by
  induction m with
  | nil => simp [find, erase]
  | cons p m ih =>
    obtain ⟨k', v'⟩ := p
    simp only [List.map_cons, List.nodup_cons] at h
    by_cases hk : k' = k
    · subst hk
      have e : erase k' ((k', v') :: m) = m := by
        have := erase_of_not_mem h.1
        simpa [erase, List.filter_cons] using this
      simp [e, find]
    · have e : erase k ((k', v') :: m) = (k', v') :: erase k m := by
        simp [erase, List.filter_cons, hk]
      rw [e]
      simp only [List.map_cons, List.sum_cons, find, hk, if_false, ih h.2]
      omega

theorem sum_values_assign (k : κ) (v : Int) {m : List (κ × Int)} (h : (m.map Prod.fst).Nodup) :
    ((assign k v m).map Prod.snd).sum = (m.map Prod.snd).sum + (v - (find k m).getD 0) := by
  rw [sum_values k h]
  simp only [assign, List.map_cons, List.sum_cons]
  omega

theorem map_find_keys {m : List (Int × Int)} (h : (m.map Prod.fst).Nodup) :
    (m.map Prod.fst).map (fun k => (find k m).getD 0) = m.map Prod.snd := by
  induction m with
  | nil => rfl
  | cons p m ih =>
    obtain ⟨k', v'⟩ := p
    simp only [List.map_cons, List.nodup_cons] at h
    simp only [List.map_cons, find, if_true, Option.getD_some, List.cons.injEq, true_and]
    rw [← ih h.2]
    refine List.map_congr_left ?_
    intro k hk
    have hne : ¬ k' = k := by
      rintro rfl
      exact h.1 hk
    simp [hne]

end unordered_map

namespace unordered_set

variable {κ : Type} [DecidableEq κ]

theorem mem_insert_iff (x k : κ) (s : List κ) : x ∈ insert k s ↔ x = k ∨ x ∈ s := by
  unfold insert
  split
  · constructor
    · exact Or.inr
    · rintro (h | h)
      · subst h; assumption
      · exact h
  · simp

theorem mem_erase_iff (x k : κ) (s : List κ) : x ∈ erase k s ↔ x ∈ s ∧ x ≠ k := by
  simp [erase, List.mem_filter]

end unordered_set

open unordered_map

/-! ## Facts about the member functions -/

/-- The hours billed for a stay of `m ≥ 0` minutes are `m / 60` rounded up. -/
theorem tdiv_eq_ceil (m : Int) (h : 0 ≤ m) :
    Int.tdiv (m + 59) 60 = ⌈((m : Int) : ℚ) / 60⌉ := by
  rw [Int.tdiv_eq_ediv (by omega) (by omega)]
  symm
  rw [Int.ceil_eq_iff]
  have h1 : 60 * ((m + 59) / 60) ≤ m + 59 := by omega
  have h2 : m ≤ 60 * ((m + 59) / 60) := by omega
  have h1' : (60 : ℚ) * (((m + 59) / 60 : Int) : ℚ) ≤ (m : ℚ) + 59 := by exact_mod_cast h1
  have h2' : (m : ℚ) ≤ 60 * (((m + 59) / 60 : Int) : ℚ) := by exact_mod_cast h2
  constructor
  · rw [lt_div_iff₀ (by norm_num)]; linarith
  · rw [div_le_iff₀ (by norm_num)]; linarith

theorem ctor_ok (opening_time closing_time tables_count hourly_rate : Int)
    (h : 1 ≤ tables_count) :
    CybercafeMonitoringSystem.ctor opening_time closing_time tables_count hourly_rate
      = .ok ⟨hourly_rate, opening_time, closing_time, tables_count, 0, [], [], [], [], [], []⟩ := by
  have hN : ¬ tables_count < 1 := by omega
  simp only [CybercafeMonitoringSystem.ctor, hN, if_false]

theorem find_loop_outside (count : Nat) (first : Int) (m : List (Int × Int)) (T : Int)
    (h : T < first ∨ first + count ≤ T) :
    find T (CybercafeMonitoringSystem.CybercafeOpen.loop count first m) = find T m := by
  induction count generalizing first m with
  | zero => rfl
  | succ n ih =>
    rw [CybercafeMonitoringSystem.CybercafeOpen.loop, ih (first + 1) _ (by push_cast at h; omega)]
    exact find_assign_ne (by push_cast at h; omega) _ _

theorem find_loop_inside (count : Nat) (first : Int) (m : List (Int × Int)) (T : Int)
    (h1 : first ≤ T) (h2 : T < first + count) :
    find T (CybercafeMonitoringSystem.CybercafeOpen.loop count first m) = some 0 := by
  induction count generalizing first m with
  | zero => simp at h2; omega
  | succ n ih =>
    rw [CybercafeMonitoringSystem.CybercafeOpen.loop]
    by_cases h : T = first
    · subst h
      rw [find_loop_outside _ _ _ _ (Or.inl (by omega))]
      simp [assign, find]
    · exact ih _ _ (by omega) (by push_cast at h2; omega)

theorem ProcessClientDeparture_ok {system departed : CybercafeMonitoringSystem}
    {c : String} {t : Int} (h : system.ProcessClientDeparture c t = .ok departed) :
    ∃ T since, find c system.clients_at_table_ = some T
      ∧ find T system.tables_current_using_since_ = some since
      ∧ departed =
        { system with
          tables_daily_using_ :=
            assign T ((find T system.tables_daily_using_).getD 0 + (t - since))
              system.tables_daily_using_
          tables_daily_revenue_ :=
            assign T ((find T system.tables_daily_revenue_).getD 0
                + Int.tdiv (t - since + 59) 60 * system.hourly_rate_)
              system.tables_daily_revenue_
          total_revenue_ :=
            system.total_revenue_ + Int.tdiv (t - since + 59) 60 * system.hourly_rate_
          clients_at_table_ := erase c system.clients_at_table_
          clients_ := unordered_set.erase c system.clients_
          tables_current_using_since_ := erase T system.tables_current_using_since_ } := by
  unfold CybercafeMonitoringSystem.ProcessClientDeparture at h
  split at h
  · simp at h
  · rename_i T hT
    split at h
    · simp at h
    · rename_i since hs
      simp only [Except.ok.injEq] at h
      exact ⟨T, since, hT, hs, h.symm⟩

theorem IsTableFree_true {system : CybercafeMonitoringSystem} {T : Int}
    (h : system.IsTableFree T = .ok true) (c : String) :
    (c, T) ∉ system.clients_at_table_ := by
  unfold CybercafeMonitoringSystem.IsTableFree at h
  split at h
  · simp at h
  · simp only [Except.ok.injEq, List.all_eq_true, decide_eq_true_eq] at h
    intro hm
    exact h _ hm rfl

theorem IsTableFree_ok {system : CybercafeMonitoringSystem} {T : Int} {free : Bool}
    (h : system.IsTableFree T = .ok free) : 1 ≤ T ∧ T ≤ system.tables_count_ := by
  unfold CybercafeMonitoringSystem.IsTableFree at h
  split at h
  · simp at h
  · omega

theorem ProcessClientDeparture_seats {system departed : CybercafeMonitoringSystem}
    {c : String} {t : Int} (h : system.ProcessClientDeparture c t = .ok departed) :
    departed.clients_at_table_ = erase c system.clients_at_table_ := by
  unfold CybercafeMonitoringSystem.ProcessClientDeparture at h
  split at h
  · simp at h
  · split at h
    · simp at h
    · simp only [Except.ok.injEq] at h
      subst h
      rfl

theorem Reachable_HandleAll {system : CybercafeMonitoringSystem} (h : Reachable system)
    (events : List Event) (incoming : ∀ event ∈ events, event.IsIncoming = true) :
    Reachable (HandleAll events system) := by
  induction events generalizing system with
  | nil => exact h
  | cons event rest ih =>
    exact ih (Reachable.handled system event h (incoming event (List.mem_cons_self _ _)))
      (fun e he => incoming e (List.mem_cons_of_mem _ he))

theorem ProcessClientDeparture_of_seated {system : CybercafeMonitoringSystem}
    {c : String} {T since : Int} (t : Int)
    (seated : find c system.clients_at_table_ = some T)
    (occupied : find T system.tables_current_using_since_ = some since) :
    system.ProcessClientDeparture c t = .ok
      { system with
        tables_daily_using_ :=
          assign T ((find T system.tables_daily_using_).getD 0 + (t - since))
            system.tables_daily_using_
        tables_daily_revenue_ :=
          assign T ((find T system.tables_daily_revenue_).getD 0
              + Int.tdiv (t - since + 59) 60 * system.hourly_rate_)
            system.tables_daily_revenue_
        total_revenue_ :=
          system.total_revenue_ + Int.tdiv (t - since + 59) 60 * system.hourly_rate_
        clients_at_table_ := erase c system.clients_at_table_
        clients_ := unordered_set.erase c system.clients_
        tables_current_using_since_ := erase T system.tables_current_using_since_ } := by
  simp only [CybercafeMonitoringSystem.ProcessClientDeparture, seated, occupied]

theorem ClientLeft_incoming_books {system departed : CybercafeMonitoringSystem}
    {c : String} {t : Int} (present : c ∈ system.clients_)
    (h : system.ProcessClientDeparture c t = .ok departed) :
    ((Event.ClientLeftEvent t c .kIncoming).Handle system).system.tables_daily_revenue_
        = departed.tables_daily_revenue_
    ∧ ((Event.ClientLeftEvent t c .kIncoming).Handle system).system.tables_daily_using_
        = departed.tables_daily_using_
    ∧ ((Event.ClientLeftEvent t c .kIncoming).Handle system).system.total_revenue_
        = departed.total_revenue_ := by
  obtain ⟨T, since, hT, -, -⟩ := ProcessClientDeparture_ok h
  simp only [Event.Handle, ClientLeftEvent.Handle, present, not_true_eq_false, if_false, hT, h]
  split
  · exact ⟨rfl, rfl, rfl⟩
  · split
    · exact ⟨rfl, rfl, rfl⟩
    · exact ⟨rfl, rfl, rfl⟩

theorem ClientLeft_incoming_bill (system : CybercafeMonitoringSystem) (c : String)
    (T s t : Int) (present : c ∈ system.clients_)
    (seated : find c system.clients_at_table_ = some T)
    (occupied : find T system.tables_current_using_since_ = some s) (later : s ≤ t) :
    find T ((Event.ClientLeftEvent t c .kIncoming).Handle system).system.tables_daily_revenue_
        = some ((find T system.tables_daily_revenue_).getD 0
            + ⌈((t - s : Int) : ℚ) / 60⌉ * system.hourly_rate_)
    ∧ ((Event.ClientLeftEvent t c .kIncoming).Handle system).system.total_revenue_
        = system.total_revenue_ + ⌈((t - s : Int) : ℚ) / 60⌉ * system.hourly_rate_
    ∧ (∀ T', T' ≠ T →
        find T' ((Event.ClientLeftEvent t c .kIncoming).Handle system).system.tables_daily_revenue_
          = find T' system.tables_daily_revenue_) := by
  obtain ⟨h1, -, h3⟩ :=
    ClientLeft_incoming_books present (ProcessClientDeparture_of_seated t seated occupied)
  rw [h1, h3]
  refine ⟨?_, ?_, ?_⟩
  · simp only [find_assign_self, tdiv_eq_ceil (t - s) (by omega)]
  · simp only [tdiv_eq_ceil (t - s) (by omega)]
  · intro T' h
    exact find_assign_ne h _ _

theorem Reachable_day_opened : Reachable day_opened :=
  Reachable.opened 600 1320 2 100 _ rfl

theorem Reachable_waits_twice : Reachable (HandleAll waits_twice day_opened) :=
  Reachable_HandleAll Reachable_day_opened waits_twice (by decide)

theorem Reachable_waits_twice_both_leave :
    Reachable (HandleAll waits_twice_both_leave day_opened) :=
  Reachable_HandleAll Reachable_day_opened waits_twice_both_leave (by decide)

theorem mem_find_isSome {m : List (String × Int)} {c : String} {T : Int}
    (h : find c m = some T) : contains c m = true := by
  simp [contains, h]

theorem IsTableFree_busy {system : CybercafeMonitoringSystem} {T : Int} {c : String}
    (range : 1 ≤ T ∧ T ≤ system.tables_count_) (h : (c, T) ∈ system.clients_at_table_) :
    system.IsTableFree T = .ok false := by
  have hrange : ¬ (T < 1 ∨ T > system.tables_count_) := by omega
  simp only [CybercafeMonitoringSystem.IsTableFree, hrange, if_false, Except.ok.injEq,
    List.all_eq_false]
  exact ⟨(c, T), h, by simp⟩

theorem IsTableFree_outside {system : CybercafeMonitoringSystem} {T : Int}
    (range : ¬ (1 ≤ T ∧ T ≤ system.tables_count_)) :
    system.IsTableFree T = .error .invalid_argument := by
  have hrange : T < 1 ∨ T > system.tables_count_ := by omega
  simp only [CybercafeMonitoringSystem.IsTableFree, hrange, if_true]

theorem length_ge_of_full {m : List (String × Int)} {N : Int}
    (full : ∀ T, 1 ≤ T → T ≤ N → ∃ c, (c, T) ∈ m) : N ≤ (m.length : Int) := by
  have hnodup : ((List.range N.toNat).map (fun i : Nat => (i : Int) + 1)).Nodup := by
    refine (List.nodup_range _).map ?_
    intro a b h
    simp only at h
    omega
  have hsub : (List.range N.toNat).map (fun i : Nat => (i : Int) + 1) ⊆ m.map Prod.snd := by
    intro T hT
    simp only [List.mem_map, List.mem_range] at hT
    obtain ⟨i, hi, rfl⟩ := hT
    obtain ⟨c, hc⟩ := full ((i : Int) + 1) (by omega) (by omega)
    exact List.mem_map.mpr ⟨(c, (i : Int) + 1), hc, rfl⟩
  have hle := (List.subperm_of_subset hnodup hsub).length_le
  simp only [List.length_map, List.length_range] at hle
  omega

theorem remove_of_not_mem {c : String} {q : List String} (h : c ∉ q) : deque.remove c q = q := by
  refine List.filter_eq_self.mpr ?_
  intro x hx
  simp only [decide_eq_true_eq]
  rintro rfl
  exact h hx

theorem not_mem_erase_of_alone {m : List (String × Int)} {c : String} {T : Int}
    (alone : ∀ c', (c', T) ∈ m → c' = c) (c' : String) : (c', T) ∉ erase c m := by
  intro hm
  have h := mem_erase.mp hm
  exact h.2 (alone c' h.1)

theorem Reachable_leaves_while_queued :
    Reachable (HandleAll leaves_while_queued day_opened) :=
  Reachable_HandleAll Reachable_day_opened leaves_while_queued (by decide)

theorem Reachable_sits_late : Reachable (HandleAll sits_late day_opened) :=
  Reachable_HandleAll Reachable_day_opened sits_late (by decide)

/-! ## The seating invariant -/

theorem Seating.of_erase {m : List (String × Int)} (h : Seating m) (c : String) :
    Seating (erase c m) :=
  ⟨h.1.sublist ((erase_sublist c m).map _), h.2.sublist ((erase_sublist c m).map _)⟩

theorem Seating.of_assign {m : List (String × Int)} (h : Seating m) (c : String) (T : Int)
    (free : ∀ c', (c', T) ∈ m → c' = c) : Seating (assign c T m) := by
  have he := h.of_erase c
  refine ⟨List.nodup_cons.mpr ⟨?_, he.1⟩, List.nodup_cons.mpr ⟨?_, he.2⟩⟩
  · simp [mem_erase]
  · simp only [List.mem_map, mem_erase, not_exists, not_and]
    rintro ⟨c', T'⟩ ⟨hm, hne⟩ hT
    simp only at hT hne
    subst hT
    exact hne (free c' hm)

theorem Seating.unique {m : List (String × Int)} (h : Seating m) {c c' : String} {T : Int}
    (h1 : (c, T) ∈ m) (h2 : (c', T) ∈ m) : c = c' := by
  have := List.inj_on_of_nodup_map h.2 h1 h2 rfl
  simpa using this

theorem Seating_ClientLeft_outgoing (system : CybercafeMonitoringSystem) (t : Int) (c : String)
    (h : Seating system.clients_at_table_) :
    Seating (ClientLeftEvent.Handle t c .kOutgoing system).system.clients_at_table_ := by
  unfold ClientLeftEvent.Handle
  simp only
  split
  · exact h
  · split
    · exact h
    · rename_i departed hd
      rw [ProcessClientDeparture_seats hd]
      exact h.of_erase c

theorem Seating_ClientSat_incoming (system : CybercafeMonitoringSystem) (t : Int) (c : String)
    (T : Int) (h : Seating system.clients_at_table_) :
    Seating (ClientSatAtTableEvent.Handle t c T .kIncoming system).system.clients_at_table_ := by
  unfold ClientSatAtTableEvent.Handle
  simp only
  split
  · exact h
  · exact h
  · rename_i free
    split
    · exact h
    · split
      · split
        · exact h
        · rename_i departed hd
          simp only [ProcessClientDeparture_seats hd]
          refine (h.of_erase c).of_assign c T ?_
          intro c' hm
          exact absurd (mem_erase.mp hm).1 (IsTableFree_true free c')
      · refine h.of_assign c T ?_
        intro c' hm
        exact absurd hm (IsTableFree_true free c')

theorem Seating_ClientLeft_incoming (system : CybercafeMonitoringSystem) (t : Int) (c : String)
    (h : Seating system.clients_at_table_) :
    Seating (ClientLeftEvent.Handle t c .kIncoming system).system.clients_at_table_ := by
  unfold ClientLeftEvent.Handle
  simp only
  split
  · exact h
  · split
    · exact h
    · rename_i T hT
      split
      · exact h
      · rename_i departed hd
        have hs := ProcessClientDeparture_seats hd
        have hdep : Seating departed.clients_at_table_ := hs ▸ h.of_erase c
        split
        · exact hdep
        · rename_i front rest hq
          split
          · have hnew : Seating (assign front T departed.clients_at_table_) := by
              refine hdep.of_assign front T ?_
              intro c' hm
              rw [hs] at hm
              have hm' := mem_erase.mp hm
              exact absurd (h.unique hm'.1 (mem_of_find hT)) hm'.2
            simpa [ClientSatAtTableEvent.Handle] using hnew
          · exact hdep

theorem Seating_ClientWaiting (system : CybercafeMonitoringSystem) (t : Int) (c : String)
    (h : Seating system.clients_at_table_) :
    Seating (ClientWaitingEvent.Handle t c system).system.clients_at_table_ := by
  unfold ClientWaitingEvent.Handle
  split
  · exact h
  · split
    · exact h
    · split
      · split
        · exact Seating_ClientLeft_outgoing system t c h
        · exact h
      · split
        · exact h
        · exact h
theorem Seating_Handle (system : CybercafeMonitoringSystem) (event : Event)
    (incoming : event.IsIncoming = true) (h : Seating system.clients_at_table_) :
    Seating (event.Handle system).system.clients_at_table_ := by
  cases event with
  | ClientArrivedEvent t c =>
    simp only [Event.Handle, ClientArrivedEvent.Handle]
    split
    · exact h
    · split <;> exact h
  | ClientSatAtTableEvent t c T type =>
    cases type with
    | kIncoming => exact Seating_ClientSat_incoming system t c T h
    | kOutgoing => simp [Event.IsIncoming] at incoming
  | ClientWaitingEvent t c => exact Seating_ClientWaiting system t c h
  | ClientLeftEvent t c type =>
    cases type with
    | kIncoming => exact Seating_ClientLeft_incoming system t c h
    | kOutgoing => simp [Event.IsIncoming] at incoming
  | ErrorEvent t message => simp [Event.IsIncoming] at incoming

theorem Seating_Reachable {system : CybercafeMonitoringSystem} (h : Reachable system) :
    Seating system.clients_at_table_ := by
  induction h with
  | opened opening_time closing_time tables_count hourly_rate system constructed =>
    unfold CybercafeMonitoringSystem.ctor at constructed
    split at constructed
    · simp at constructed
    · simp only [Except.ok.injEq] at constructed
      subst constructed
      simp [CybercafeMonitoringSystem.CybercafeOpen, Seating]
  | handled system event _ incoming ih => exact Seating_Handle system event incoming ih

theorem Seating_CybercafeClose_loop (clients : List String) (system : CybercafeMonitoringSystem)
    (h : Seating system.clients_at_table_) :
    Seating (CybercafeMonitoringSystem.CybercafeClose.loop clients system).system.clients_at_table_ := by
  induction clients generalizing system with
  | nil => exact h
  | cons client rest ih =>
    unfold CybercafeMonitoringSystem.CybercafeClose.loop
    split
    · simp only
      split
      · exact Seating_ClientLeft_outgoing system _ client h
      · exact ih _ (Seating_ClientLeft_outgoing system _ client h)
    · exact h

theorem Seating_CybercafeClose (system : CybercafeMonitoringSystem)
    (h : Seating system.clients_at_table_) :
    Seating system.CybercafeClose.system.clients_at_table_ := by
  unfold CybercafeMonitoringSystem.CybercafeClose
  split
  · exact h
  · simp only
    split
    · exact Seating_CybercafeClose_loop _ system h
    · split
      · exact Seating_CybercafeClose_loop _ system h
      · exact Seating_CybercafeClose_loop _ system h

theorem Seating.injective {m : List (String × Int)} (h : Seating m) (c1 c2 : String) (T : Int)
    (h1 : find c1 m = some T) (h2 : find c2 m = some T) : c1 = c2 :=
  h.unique (mem_of_find h1) (mem_of_find h2)

/-! ## The accounting invariant -/

theorem Accounted_ProcessClientDeparture {system departed : CybercafeMonitoringSystem}
    {c : String} {t : Int} (h : Accounted system)
    (hd : system.ProcessClientDeparture c t = .ok departed) : Accounted departed := by
  obtain ⟨T, since, hT, -, rfl⟩ := ProcessClientDeparture_ok hd
  obtain ⟨h1, h2, h3, h4⟩ := h
  refine ⟨?_, nodup_keys_assign h2 _ _, ?_, ?_⟩
  · intro c' T' hm
    exact h1 c' T' (mem_erase.mp hm).1
  · intro T'
    simp only [mem_keys_assign, h3]
    constructor
    · rintro (rfl | h)
      · exact h1 c _ (mem_of_find hT)
      · exact h
    · exact Or.inr
  · simp only [sum_values_assign _ _ h2, h4]
    omega

/-- Frame: only the seating, the clients and the queue differ. -/
theorem Accounted.frame {system after : CybercafeMonitoringSystem} (h : Accounted system)
    (count : after.tables_count_ = system.tables_count_)
    (revenue : after.tables_daily_revenue_ = system.tables_daily_revenue_)
    (total : after.total_revenue_ = system.total_revenue_)
    (seats : ∀ c T, (c, T) ∈ after.clients_at_table_ →
      (c, T) ∈ system.clients_at_table_ ∨ (1 ≤ T ∧ T ≤ system.tables_count_)) :
    Accounted after := by
  obtain ⟨h1, h2, h3, h4⟩ := h
  refine ⟨?_, revenue ▸ h2, ?_, ?_⟩
  · intro c T hm
    rw [count]
    rcases seats c T hm with h | h
    · exact h1 c T h
    · exact h
  · rw [revenue, count]; exact h3
  · rw [revenue, total]; exact h4

theorem Accounted.seat {system : CybercafeMonitoringSystem} (h : Accounted system)
    (c : String) (T t : Int) (cl : List String)
    (range : 1 ≤ T ∧ T ≤ system.tables_count_) :
    Accounted { system with
      clients_ := cl
      clients_at_table_ := assign c T system.clients_at_table_
      tables_current_using_since_ := assign T t system.tables_current_using_since_ } := by
  refine h.frame rfl rfl rfl ?_
  intro c' T' hm
  simp only [assign, List.mem_cons, Prod.mk.injEq] at hm
  rcases hm with ⟨-, rfl⟩ | hm
  · exact Or.inr range
  · exact Or.inl (mem_erase.mp hm).1

theorem Accounted_ClientLeft_outgoing (system : CybercafeMonitoringSystem) (t : Int) (c : String)
    (h : Accounted system) :
    Accounted (ClientLeftEvent.Handle t c .kOutgoing system).system := by
  unfold ClientLeftEvent.Handle
  simp only
  split
  · exact h.frame rfl rfl rfl (fun _ _ hm => Or.inl hm)
  · split
    · exact h
    · rename_i departed hd
      exact Accounted_ProcessClientDeparture h hd

theorem Accounted_ClientSat_incoming (system : CybercafeMonitoringSystem) (t : Int) (c : String)
    (T : Int) (h : Accounted system) :
    Accounted (ClientSatAtTableEvent.Handle t c T .kIncoming system).system := by
  unfold ClientSatAtTableEvent.Handle
  simp only
  split
  · exact h
  · exact h
  · rename_i free
    have range := IsTableFree_ok free
    split
    · exact h
    · split
      · split
        · exact h
        · rename_i departed hd
          have hdep := Accounted_ProcessClientDeparture h hd
          have hcount : departed.tables_count_ = system.tables_count_ := by
            obtain ⟨_, _, _, _, rfl⟩ := ProcessClientDeparture_ok hd
            rfl
          exact hdep.seat c T t _ (hcount ▸ range)
      · exact h.seat c T t system.clients_ range

theorem Accounted_ClientLeft_incoming (system : CybercafeMonitoringSystem) (t : Int) (c : String)
    (h : Accounted system) :
    Accounted (ClientLeftEvent.Handle t c .kIncoming system).system := by
  unfold ClientLeftEvent.Handle
  simp only
  split
  · exact h
  · split
    · exact h.frame rfl rfl rfl (fun _ _ hm => Or.inl hm)
    · rename_i T hT
      have range := h.1 c T (mem_of_find hT)
      split
      · exact h
      · rename_i departed hd
        have hdep := Accounted_ProcessClientDeparture h hd
        have hcount : departed.tables_count_ = system.tables_count_ := by
          obtain ⟨_, _, _, _, rfl⟩ := ProcessClientDeparture_ok hd
          rfl
        split
        · exact hdep
        · rename_i front rest hq
          split
          · have hnew := hdep.seat front T t departed.clients_ (hcount ▸ range)
            simp only [ClientSatAtTableEvent.Handle]
            exact hnew.frame rfl rfl rfl (fun _ _ hm => Or.inl hm)
          · exact hdep

theorem Accounted_ClientWaiting (system : CybercafeMonitoringSystem) (t : Int) (c : String)
    (h : Accounted system) :
    Accounted (ClientWaitingEvent.Handle t c system).system := by
  unfold ClientWaitingEvent.Handle
  split
  · exact h
  · split
    · exact h
    · split
      · split
        · exact Accounted_ClientLeft_outgoing system t c h
        · exact h
      · split
        · exact h
        · exact h.frame rfl rfl rfl (fun _ _ hm => Or.inl hm)

theorem Accounted_Handle (system : CybercafeMonitoringSystem) (event : Event)
    (incoming : event.IsIncoming = true) (h : Accounted system) :
    Accounted (event.Handle system).system := by
  cases event with
  | ClientArrivedEvent t c =>
    simp only [Event.Handle, ClientArrivedEvent.Handle]
    split
    · exact h
    · split
      · exact h
      · exact h.frame rfl rfl rfl (fun _ _ hm => Or.inl hm)
  | ClientSatAtTableEvent t c T type =>
    cases type with
    | kIncoming => exact Accounted_ClientSat_incoming system t c T h
    | kOutgoing => simp [Event.IsIncoming] at incoming
  | ClientWaitingEvent t c => exact Accounted_ClientWaiting system t c h
  | ClientLeftEvent t c type =>
    cases type with
    | kIncoming => exact Accounted_ClientLeft_incoming system t c h
    | kOutgoing => simp [Event.IsIncoming] at incoming
  | ErrorEvent t message => simp [Event.IsIncoming] at incoming

theorem nodup_keys_loop (count : Nat) (first : Int) (m : List (Int × Int))
    (h : (m.map Prod.fst).Nodup) :
    ((CybercafeMonitoringSystem.CybercafeOpen.loop count first m).map Prod.fst).Nodup := by
  induction count generalizing first m with
  | zero => exact h
  | succ n ih => exact ih _ _ (nodup_keys_assign h _ _)

theorem mem_keys_loop (count : Nat) (first : Int) (m : List (Int × Int)) (T : Int) :
    T ∈ (CybercafeMonitoringSystem.CybercafeOpen.loop count first m).map Prod.fst
      ↔ (first ≤ T ∧ T < first + count) ∨ T ∈ m.map Prod.fst := by
  induction count generalizing first m with
  | zero => simp [CybercafeMonitoringSystem.CybercafeOpen.loop]
  | succ n ih =>
    rw [CybercafeMonitoringSystem.CybercafeOpen.loop, ih, mem_keys_assign]
    push_cast
    constructor
    · rintro (h | h | h)
      · exact Or.inl (by omega)
      · exact Or.inl (by omega)
      · exact Or.inr h
    · rintro (h | h)
      · by_cases e : T = first
        · exact Or.inr (Or.inl e)
        · exact Or.inl (by omega)
      · exact Or.inr (Or.inr h)

theorem values_loop (count : Nat) (first : Int) (m : List (Int × Int)) (v : Int)
    (h : v ∈ (CybercafeMonitoringSystem.CybercafeOpen.loop count first m).map Prod.snd) :
    v = 0 ∨ v ∈ m.map Prod.snd := by
  induction count generalizing first m with
  | zero => exact Or.inr h
  | succ n ih =>
    rw [CybercafeMonitoringSystem.CybercafeOpen.loop] at h
    rcases ih _ _ h with h | h
    · exact Or.inl h
    · simp only [assign, List.map_cons, List.mem_cons] at h
      rcases h with h | h
      · exact Or.inl h
      · exact Or.inr ((erase_sublist first m).map _ |>.subset h)

theorem Accounted_Reachable {system : CybercafeMonitoringSystem} (h : Reachable system) :
    Accounted system := by
  induction h with
  | opened opening_time closing_time tables_count hourly_rate system constructed =>
    unfold CybercafeMonitoringSystem.ctor at constructed
    split at constructed
    · simp at constructed
    · rename_i hN
      simp only [Except.ok.injEq] at constructed
      subst constructed
      refine ⟨by simp [CybercafeMonitoringSystem.CybercafeOpen],
        nodup_keys_loop _ _ _ List.nodup_nil, ?_, ?_⟩
      · intro T
        simp only [CybercafeMonitoringSystem.CybercafeOpen, mem_keys_loop]
        simp
        omega
      · simp only [CybercafeMonitoringSystem.CybercafeOpen]
        symm
        apply List.sum_eq_zero
        intro v hv
        rcases values_loop _ _ _ v hv with h | h
        · exact h
        · simp at h
  | handled system event _ incoming ih => exact Accounted_Handle system event incoming ih

/-! ## The order of client names -/

theorem ValidChar_iff (c : Char) :
    ValidChar c = true ↔
      (48 ≤ c.toNat ∧ c.toNat ≤ 57) ∨ (97 ≤ c.toNat ∧ c.toNat ≤ 122)
        ∨ c.toNat = 95 ∨ c.toNat = 45 := by
  have h1 : (c = '_') ↔ c.toNat = 95 :=
    ⟨fun h => by rw [h]; rfl, fun h => Char.ext (UInt32.ext h)⟩
  have h2 : (c = '-') ↔ c.toNat = 45 :=
    ⟨fun h => by rw [h]; rfl, fun h => Char.ext (UInt32.ext h)⟩
  have d1 : ('0' ≤ c) ↔ 48 ≤ c.toNat := Iff.rfl
  have d2 : (c ≤ '9') ↔ c.toNat ≤ 57 := Iff.rfl
  have l1 : ('a' ≤ c) ↔ 97 ≤ c.toNat := Iff.rfl
  have l2 : (c ≤ 'z') ↔ c.toNat ≤ 122 := Iff.rfl
  simp only [ValidChar, isdigit, islower, Bool.or_eq_true, Bool.and_eq_true, decide_eq_true_eq,
    beq_iff_eq, h1, h2, d1, d2, l1, l2, or_assoc]

theorem CharacterRank_eq (c : Char) :
    CybercafeMonitoringSystem.CharacterRank c =
      if 97 ≤ c.toNat ∧ c.toNat ≤ 122 then .ok ((c.toNat : Int) - 97)
      else if 48 ≤ c.toNat ∧ c.toNat ≤ 57 then .ok (26 + ((c.toNat : Int) - 48))
      else if c.toNat = 95 then .ok 36
      else if c.toNat = 45 then .ok 37
      else .error .runtime_error := by
  have h1 : (c = '_') ↔ c.toNat = 95 :=
    ⟨fun h => by rw [h]; rfl, fun h => Char.ext (UInt32.ext h)⟩
  have h2 : (c = '-') ↔ c.toNat = 45 :=
    ⟨fun h => by rw [h]; rfl, fun h => Char.ext (UInt32.ext h)⟩
  have d1 : (c ≥ '0') ↔ 48 ≤ c.toNat := Iff.rfl
  have d2 : (c ≤ '9') ↔ c.toNat ≤ 57 := Iff.rfl
  have l1 : (c ≥ 'a') ↔ 97 ≤ c.toNat := Iff.rfl
  have l2 : (c ≤ 'z') ↔ c.toNat ≤ 122 := Iff.rfl
  have e1 : (('a'.toNat : Nat) : Int) = 97 := rfl
  have e2 : (('0'.toNat : Nat) : Int) = 48 := rfl
  simp only [CybercafeMonitoringSystem.CharacterRank, h1, h2, d1, d2, l1, l2, e1, e2]

theorem CharacterRank_ok {c : Char} (h : ValidChar c = true) :
    CybercafeMonitoringSystem.CharacterRank c = .ok (rank c) := by
  rw [ValidChar_iff] at h
  unfold rank
  rw [CharacterRank_eq]
  split_ifs <;> first | rfl | omega

theorem rank_eq (c : Char) :
    rank c =
      if 97 ≤ c.toNat ∧ c.toNat ≤ 122 then (c.toNat : Int) - 97
      else if 48 ≤ c.toNat ∧ c.toNat ≤ 57 then 26 + ((c.toNat : Int) - 48)
      else if c.toNat = 95 then 36
      else if c.toNat = 45 then 37
      else 0 := by
  unfold rank
  rw [CharacterRank_eq]
  split_ifs <;> rfl

theorem rank_injective {c d : Char} (hc : ValidChar c = true) (hd : ValidChar d = true)
    (h : rank c = rank d) : c = d := by
  rw [ValidChar_iff] at hc hd
  rw [rank_eq, rank_eq] at h
  apply Char.ext
  apply UInt32.ext
  show c.toNat = d.toNat
  split_ifs at h <;> omega
theorem IsClientNameValid_loop_iff (name : List Char) :
    IsClientNameValid.loop name = true ↔ ∀ c ∈ name, ValidChar c = true := by
  induction name with
  | nil => simp [IsClientNameValid.loop]
  | cons c rest ih =>
    by_cases h : ValidChar c = true
    · have h' : (isdigit c || islower c || c == '_' || c == '-') = true := h
      simp [IsClientNameValid.loop, h', ih, h]
    · have h' : (isdigit c || islower c || c == '_' || c == '-') = false := by
        simpa [ValidChar] using h
      simp [IsClientNameValid.loop, h', h]

theorem IsClientNameValid_iff (name : String) :
    IsClientNameValid name = true ↔
      name.data ≠ [] ∧ ∀ c ∈ name.data, ValidChar c = true := by
  unfold IsClientNameValid
  by_cases h : IsClientNameValid.loop name.data = true
  · have h' := (IsClientNameValid_loop_iff _).mp h
    rw [if_pos h]
    constructor
    · intro e
      refine ⟨?_, h'⟩
      intro e'
      simp [e'] at e
    · intro e
      cases hd : name.data with
      | nil => exact absurd hd e.1
      | cons _ _ => rfl
  · have h' := mt (IsClientNameValid_loop_iff name.data).mpr h
    rw [if_neg h]
    constructor
    · intro e
      exact absurd e (by simp)
    · intro e
      exact absurd e.2 h'

theorem Lex_cons_of_ne {x y : Int} (l1 l2 : List Int) (h : x ≠ y) :
    List.Lex (· < ·) (x :: l1) (y :: l2) ↔ x < y := by
  constructor
  · intro hl
    cases hl with
    | cons _ => exact absurd rfl h
    | rel hr => exact hr
  · exact List.Lex.rel

theorem ClientsNameCompare_loop_eq (first_size second_size : Nat) (first second : List Char)
    (hfirst : ∀ c ∈ first, ValidChar c = true) (hsecond : ∀ c ∈ second, ValidChar c = true)
    (sizes : first_size + second.length = second_size + first.length) :
    CybercafeMonitoringSystem.ClientsNameCompare.loop first_size second_size first second
      = .ok (decide (List.Lex (· < ·) (first.map rank) (second.map rank))) := by
  induction first generalizing second with
  | nil =>
    cases second with
    | nil =>
      have : ¬ first_size < second_size := by simp at sizes; omega
      simp [CybercafeMonitoringSystem.ClientsNameCompare.loop, this, List.Lex.not_nil_right]
    | cons c2 rest2 =>
      have : first_size < second_size := by simp at sizes; omega
      simp [CybercafeMonitoringSystem.ClientsNameCompare.loop, this, List.Lex.nil]
  | cons c1 rest1 ih =>
    cases second with
    | nil =>
      have : ¬ first_size < second_size := by simp at sizes; omega
      simp [CybercafeMonitoringSystem.ClientsNameCompare.loop, this, List.Lex.not_nil_right]
    | cons c2 rest2 =>
      have h1 := CharacterRank_ok (hfirst c1 (List.mem_cons_self _ _))
      have h2 := CharacterRank_ok (hsecond c2 (List.mem_cons_self _ _))
      simp only [CybercafeMonitoringSystem.ClientsNameCompare.loop, h1, h2, List.map_cons]
      by_cases hne : rank c1 = rank c2
      · rw [if_neg (not_not.mpr hne),
          ih rest2 (fun c hc => hfirst c (List.mem_cons_of_mem _ hc))
            (fun c hc => hsecond c (List.mem_cons_of_mem _ hc))
            (by simp at sizes; omega)]
        simp only [Except.ok.injEq, decide_eq_decide, List.Lex.cons_iff, hne]
      · rw [if_pos hne]
        simp only [Except.ok.injEq, decide_eq_decide]
        exact (Lex_cons_of_ne _ _ hne).symm

theorem ranks_injective {first second : String}
    (hfirst : IsClientNameValid first = true) (hsecond : IsClientNameValid second = true)
    (h : ranks first = ranks second) : first = second := by
  have h1 := ((IsClientNameValid_iff first).mp hfirst).2
  have h2 := ((IsClientNameValid_iff second).mp hsecond).2
  have key : ∀ (l1 l2 : List Char), (∀ c ∈ l1, ValidChar c = true) →
      (∀ c ∈ l2, ValidChar c = true) → l1.map rank = l2.map rank → l1 = l2 := by
    intro l1
    induction l1 with
    | nil =>
      intro l2 _ _ h
      cases l2 with
      | nil => rfl
      | cons _ _ => simp at h
    | cons c1 r1 ih =>
      intro l2 h1 h2 h
      cases l2 with
      | nil => simp at h
      | cons c2 r2 =>
        simp only [List.map_cons, List.cons.injEq] at h
        rw [rank_injective (h1 c1 (List.mem_cons_self _ _)) (h2 c2 (List.mem_cons_self _ _)) h.1,
          ih r2 (fun c hc => h1 c (List.mem_cons_of_mem _ hc))
            (fun c hc => h2 c (List.mem_cons_of_mem _ hc)) h.2]
  exact String.ext (key _ _ h1 h2 h)

theorem ClientsNameCompare_eq {first second : String}
    (hfirst : IsClientNameValid first = true) (hsecond : IsClientNameValid second = true) :
    CybercafeMonitoringSystem.ClientsNameCompare first second
      = .ok (decide (Precedes first second)) := by
  unfold CybercafeMonitoringSystem.ClientsNameCompare Precedes ranks
  by_cases h : first = second
  · subst h
    have : ¬ List.Lex (· < ·) (first.data.map rank) (first.data.map rank) :=
      irrefl_of (List.Lex (fun a b : Int => a < b)) _
    simp [this]
  · rw [if_neg h]
    exact ClientsNameCompare_loop_eq _ _ _ _ ((IsClientNameValid_iff first).mp hfirst).2
      ((IsClientNameValid_iff second).mp hsecond).2 (by omega)

theorem Precedes.trans {a b c : String} (h1 : Precedes a b) (h2 : Precedes b c) : Precedes a c :=
  trans_of (List.Lex (fun a b : Int => a < b)) h1 h2

theorem Precedes.irrefl (a : String) : ¬ Precedes a a :=
  irrefl_of (List.Lex (fun a b : Int => a < b)) _

theorem Precedes.asymm {a b : String} (h1 : Precedes a b) : ¬ Precedes b a :=
  asymm_of (List.Lex (fun a b : Int => a < b)) h1

theorem Precedes.total {a b : String}
    (ha : IsClientNameValid a = true) (hb : IsClientNameValid b = true) (h : a ≠ b) :
    Precedes a b ∨ Precedes b a := by
  rcases trichotomous_of (List.Lex (fun a b : Int => a < b)) (ranks a) (ranks b) with h1 | h1 | h1
  · exact Or.inl h1
  · exact absurd (ranks_injective ha hb h1) h
  · exact Or.inr h1

theorem Precedes_of_prefix {a b : String} (h : a.data <+: b.data) (hne : a ≠ b) :
    Precedes a b := by
  obtain ⟨t, ht⟩ := h
  unfold Precedes ranks
  rw [← ht, List.map_append]
  cases t with
  | nil =>
    rw [List.append_nil] at ht
    exact absurd (String.ext ht) hne
  | cons c t =>
    have := List.Lex.append_left (fun a b : Int => a < b)
      (List.Lex.nil : List.Lex (fun a b : Int => a < b) [] (rank c :: t.map rank))
      (a.data.map rank)
    simpa using this

theorem rank_lt_of_class {x y : Char} (_hx : ValidChar x = true) (hy : ValidChar y = true)
    (h : CharacterClass x < CharacterClass y) : rank x < rank y := by
  have lx : islower x = true ↔ 97 ≤ x.toNat ∧ x.toNat ≤ 122 := by
    simp only [islower, Bool.and_eq_true, decide_eq_true_eq]; exact Iff.rfl
  have ly : islower y = true ↔ 97 ≤ y.toNat ∧ y.toNat ≤ 122 := by
    simp only [islower, Bool.and_eq_true, decide_eq_true_eq]; exact Iff.rfl
  have dx : isdigit x = true ↔ 48 ≤ x.toNat ∧ x.toNat ≤ 57 := by
    simp only [isdigit, Bool.and_eq_true, decide_eq_true_eq]; exact Iff.rfl
  have dy : isdigit y = true ↔ 48 ≤ y.toNat ∧ y.toNat ≤ 57 := by
    simp only [isdigit, Bool.and_eq_true, decide_eq_true_eq]; exact Iff.rfl
  have ux : (x = '_') ↔ x.toNat = 95 :=
    ⟨fun h => by rw [h]; rfl, fun h => Char.ext (UInt32.ext h)⟩
  have uy : (y = '_') ↔ y.toNat = 95 :=
    ⟨fun h => by rw [h]; rfl, fun h => Char.ext (UInt32.ext h)⟩
  rw [ValidChar_iff] at hy
  rw [rank_eq, rank_eq]
  simp only [CharacterClass, lx, ly, dx, dy, ux, uy] at h
  split_ifs at h ⊢ <;> omega

theorem sort_insert_ok (client : String) (sorted : List String)
    (hclient : IsClientNameValid client = true)
    (hsorted : ∀ c ∈ sorted, IsClientNameValid c = true)
    (fresh : client ∉ sorted) (ordered : sorted.Pairwise Precedes) :
    ∃ inserted, CybercafeMonitoringSystem.sort.insert client sorted = .ok inserted
      ∧ inserted.Perm (client :: sorted) ∧ inserted.Pairwise Precedes := by
  induction sorted with
  | nil => exact ⟨[client], rfl, List.Perm.refl _, List.pairwise_singleton _ _⟩
  | cons head rest ih =>
    have hhead := hsorted head (List.mem_cons_self _ _)
    have hne : client ≠ head := fun e => fresh (e ▸ List.mem_cons_self _ _)
    rw [List.pairwise_cons] at ordered
    by_cases hlt : Precedes client head
    · refine ⟨client :: head :: rest, ?_, List.Perm.refl _, ?_⟩
      · simp [CybercafeMonitoringSystem.sort.insert, ClientsNameCompare_eq hclient hhead, hlt]
      · refine List.pairwise_cons.mpr ⟨?_, List.pairwise_cons.mpr ordered⟩
        intro x hx
        rcases List.mem_cons.mp hx with rfl | hx
        · exact hlt
        · exact hlt.trans (ordered.1 x hx)
    · obtain ⟨inserted, h1, h2, h3⟩ := ih (fun c hc => hsorted c (List.mem_cons_of_mem _ hc))
        (fun hm => fresh (List.mem_cons_of_mem _ hm)) ordered.2
      have hgt : Precedes head client := by
        rcases Precedes.total hclient hhead hne with h | h
        · exact absurd h hlt
        · exact h
      refine ⟨head :: inserted, ?_, ?_, ?_⟩
      · simp [CybercafeMonitoringSystem.sort.insert, ClientsNameCompare_eq hclient hhead, hlt, h1]
      · exact (List.Perm.cons head h2).trans (List.Perm.swap client head rest)
      · refine List.pairwise_cons.mpr ⟨?_, h3⟩
        intro x hx
        rcases List.mem_cons.mp (h2.subset hx) with rfl | hx
        · exact hgt
        · exact ordered.1 x hx

theorem sort_ok (clients : List String)
    (valid : ∀ c ∈ clients, IsClientNameValid c = true) (distinct : clients.Nodup) :
    ∃ sorted, CybercafeMonitoringSystem.sort clients = .ok sorted
      ∧ sorted.Perm clients ∧ sorted.Pairwise Precedes := by
  induction clients with
  | nil => exact ⟨[], rfl, List.Perm.refl _, List.Pairwise.nil⟩
  | cons client rest ih =>
    rw [List.nodup_cons] at distinct
    obtain ⟨sorted, h1, h2, h3⟩ := ih (fun c hc => valid c (List.mem_cons_of_mem _ hc)) distinct.2
    obtain ⟨inserted, h4, h5, h6⟩ := sort_insert_ok client sorted
      (valid client (List.mem_cons_self _ _))
      (fun c hc => valid c (List.mem_cons_of_mem _ (h2.subset hc)))
      (fun hm => distinct.1 (h2.subset hm)) h3
    refine ⟨inserted, ?_, h5.trans (List.Perm.cons client h2), h6⟩
    simp [CybercafeMonitoringSystem.sort, h1, h4]

/-! ## Closing: the forced departures -/

theorem find_erase_eq_none_or {m : List (String × Int)} {c c' : String} {T : Int}
    (h : find c' (erase c m) = some T) : c' ≠ c ∧ find c' m = some T := by
  by_cases e : c' = c
  · subst e
    rw [find_erase_self] at h
    exact absurd h (by simp)
  · exact ⟨e, by rwa [find_erase_ne e] at h⟩

theorem ClientLeft_outgoing_of_departed {system departed : CybercafeMonitoringSystem}
    {c : String} {t : Int} (seated : contains c system.clients_at_table_ = true)
    (h : system.ProcessClientDeparture c t = .ok departed) :
    ClientLeftEvent.Handle t c .kOutgoing system
      = ⟨departed, [Output.event (.ClientLeftEvent t c .kOutgoing)], none⟩ := by
  simp only [ClientLeftEvent.Handle, seated, not_true_eq_false, if_false, h]

theorem ClientLeft_forced_step (system : CybercafeMonitoringSystem) (t : Int) (c : String)
    (settled : Settled system) :
    (ClientLeftEvent.Handle t c .kOutgoing system).thrown = none
    ∧ (ClientLeftEvent.Handle t c .kOutgoing system).printed
        = [Output.event (.ClientLeftEvent t c .kOutgoing)]
    ∧ Settled (ClientLeftEvent.Handle t c .kOutgoing system).system
    ∧ (ClientLeftEvent.Handle t c .kOutgoing system).system.closing_time_
        = system.closing_time_
    ∧ (ClientLeftEvent.Handle t c .kOutgoing system).system.hourly_rate_
        = system.hourly_rate_
    ∧ (∀ c', c' ≠ c →
        find c' (ClientLeftEvent.Handle t c .kOutgoing system).system.clients_at_table_
          = find c' system.clients_at_table_)
    ∧ (∀ T', find c system.clients_at_table_ ≠ some T' →
        find T' (ClientLeftEvent.Handle t c .kOutgoing system).system.tables_current_using_since_
          = find T' system.tables_current_using_since_
        ∧ find T' (ClientLeftEvent.Handle t c .kOutgoing system).system.tables_daily_revenue_
          = find T' system.tables_daily_revenue_)
    ∧ (∀ T s, find c system.clients_at_table_ = some T →
        find T system.tables_current_using_since_ = some s →
        find T (ClientLeftEvent.Handle t c .kOutgoing system).system.tables_daily_revenue_
          = some ((find T system.tables_daily_revenue_).getD 0
              + Int.tdiv (t - s + 59) 60 * system.hourly_rate_)) := by
  cases hseat : find c system.clients_at_table_ with
  | none =>
    have hc : contains c system.clients_at_table_ = false := by simp [contains, hseat]
    have hrun : ClientLeftEvent.Handle t c .kOutgoing system
        = ⟨{ system with
              clients_ := unordered_set.erase c system.clients_
              waiting_clients_ := deque.remove c system.waiting_clients_ },
            [Output.event (.ClientLeftEvent t c .kOutgoing)], none⟩ := by
      simp only [ClientLeftEvent.Handle, hc, Bool.false_eq_true, not_false_eq_true, if_true]
    rw [hrun]
    exact ⟨rfl, rfl, settled, rfl, rfl, fun _ _ => rfl, fun _ _ => ⟨rfl, rfl⟩,
      fun T s h => absurd h (by simp)⟩
  | some T =>
    obtain ⟨s, hs⟩ := settled.2 c T hseat
    have hd := ProcessClientDeparture_of_seated t hseat hs
    rw [ClientLeft_outgoing_of_departed (mem_find_isSome hseat) hd]
    refine ⟨rfl, rfl, ⟨settled.1.of_erase c, ?_⟩, rfl, rfl, ?_, ?_, ?_⟩
    · intro c' T' h
      obtain ⟨hne, h'⟩ := find_erase_eq_none_or h
      obtain ⟨s', hs'⟩ := settled.2 c' T' h'
      have hT : T' ≠ T := by
        rintro rfl
        exact hne (settled.1.injective c' c T' h' hseat)
      exact ⟨s', by simp only [find_erase_ne hT, hs']⟩
    · intro c' hne
      exact find_erase_ne hne _
    · intro T' hT
      have hT' : T' ≠ T := fun e => hT (by rw [e])
      exact ⟨find_erase_ne hT' _, find_assign_ne hT' _ _⟩
    · intro T' s' h1 h2
      simp only [Option.some.injEq] at h1
      subst h1
      rw [hs] at h2
      simp only [Option.some.injEq] at h2
      subst h2
      exact find_assign_self _ _ _

theorem CybercafeClose_loop_ok (order : List String) (system : CybercafeMonitoringSystem)
    (valid : ∀ c ∈ order, IsClientNameValid c = true) (distinct : order.Nodup)
    (settled : Settled system) :
    (CybercafeMonitoringSystem.CybercafeClose.loop order system).thrown = none
    ∧ (CybercafeMonitoringSystem.CybercafeClose.loop order system).printed
        = order.map (fun c => Output.event (.ClientLeftEvent system.closing_time_ c .kOutgoing))
    ∧ (∀ c T s, c ∈ order → find c system.clients_at_table_ = some T →
        find T system.tables_current_using_since_ = some s →
        find T (CybercafeMonitoringSystem.CybercafeClose.loop order
            system).system.tables_daily_revenue_
          = some ((find T system.tables_daily_revenue_).getD 0
              + Int.tdiv (system.closing_time_ - s + 59) 60 * system.hourly_rate_))
    ∧ (∀ T, (∀ c ∈ order, find c system.clients_at_table_ ≠ some T) →
        find T (CybercafeMonitoringSystem.CybercafeClose.loop order
            system).system.tables_daily_revenue_
          = find T system.tables_daily_revenue_) := by
  induction order generalizing system with
  | nil =>
    simp only [CybercafeMonitoringSystem.CybercafeClose.loop, List.map_nil, List.not_mem_nil,
      false_implies, implies_true, true_and]
  | cons c rest ih =>
    obtain ⟨h1, h2, h3, h4, h5, h6, h7, h8⟩ :=
      ClientLeft_forced_step system system.closing_time_ c settled
    rw [List.nodup_cons] at distinct
    obtain ⟨i1, i2, i3, i4⟩ := ih _ (fun x hx => valid x (List.mem_cons_of_mem _ hx))
      distinct.2 h3
    have hv := valid c (List.mem_cons_self _ _)
    simp only [CybercafeMonitoringSystem.CybercafeClose.loop, hv, if_true, h1]
    refine ⟨i1, ?_, ?_, ?_⟩
    · rw [h2, i2, h4]
      rfl
    · intro c' T s hc' hseat hs
      rcases List.mem_cons.mp hc' with rfl | hc'
      · rw [i4 T, h8 T s hseat hs]
        intro x hx hxT
        have hne : x ≠ c' := fun e => distinct.1 (e ▸ hx)
        rw [h6 x hne] at hxT
        exact hne (settled.1.injective x c' T hxT hseat)
      · have hne : c' ≠ c := fun e => distinct.1 (e ▸ hc')
        have hT : find c system.clients_at_table_ ≠ some T := by
          intro hcT
          exact hne (settled.1.injective c' c T hseat hcT)
        rw [i3 c' T s hc' (by rw [h6 c' hne]; exact hseat) (by rw [(h7 T hT).1]; exact hs),
          (h7 T hT).2, h4, h5]
    · intro T hT
      have hcT := hT c (List.mem_cons_self _ _)
      rw [i4 T, (h7 T hcT).2]
      intro x hx
      have e : x ≠ c := fun e => distinct.1 (e ▸ hx)
      rw [h6 x e]
      exact hT x (List.mem_cons_of_mem _ hx)

theorem PrintClosingStats_rows_no_event (system : CybercafeMonitoringSystem) (ids : List Int)
    (line : Output) (h : line ∈ (CybercafeMonitoringSystem.PrintClosingStats.rows system ids).1)
    (e : Event) : line ≠ Output.event e := by
  induction ids with
  | nil => simp [CybercafeMonitoringSystem.PrintClosingStats.rows] at h
  | cons table_id rest ih =>
    unfold CybercafeMonitoringSystem.PrintClosingStats.rows at h
    split at h
    · simp only [List.mem_cons] at h
      rcases h with rfl | h
      · simp
      · exact ih h
    · simp at h

theorem PrintClosingStats_no_event (system : CybercafeMonitoringSystem)
    (line : Output) (h : line ∈ system.PrintClosingStats.1) (e : Event) :
    line ≠ Output.event e := by
  simp only [CybercafeMonitoringSystem.PrintClosingStats, List.mem_cons] at h
  rcases h with rfl | h
  · simp
  · exact PrintClosingStats_rows_no_event system _ line h e

theorem CybercafeClose_printed {system : CybercafeMonitoringSystem} {order : List String}
    (sorted : CybercafeMonitoringSystem.sort system.clients_ = .ok order)
    (quiet : (CybercafeMonitoringSystem.CybercafeClose.loop order system).thrown = none) :
    system.CybercafeClose.printed
      = (CybercafeMonitoringSystem.CybercafeClose.loop order system).printed
        ++ (CybercafeMonitoringSystem.CybercafeClose.loop order system).system.PrintClosingStats.1
    ∧ system.CybercafeClose.thrown
      = (CybercafeMonitoringSystem.CybercafeClose.loop order system).system.PrintClosingStats.2 := by
  simp only [CybercafeMonitoringSystem.CybercafeClose, sorted, quiet]
  split
  · rename_i failure h
    exact ⟨rfl, h.symm⟩
  · rename_i h
    exact ⟨rfl, h.symm⟩


/-! ## Handlers as runs of steps -/

theorem Step.mono {seats seats' : Int → Prop} (h : ∀ T, seats T → seats' T)
    {s s' : CybercafeMonitoringSystem} (step : Step seats s s') : Step seats' s s' := by
  cases step with
  | arrive c valid fresh => exact .arrive _ c valid fresh
  | seat c T t allowed valid free standing =>
    exact .seat _ c T t (h T allowed) valid free standing
  | depart c t _ left => exact .depart _ c t _ left
  | purge c standing => exact .purge _ c standing
  | enqueue c valid present standing full short =>
    exact .enqueue _ c valid present standing full short
  | promote c T t d front rest present seated left queue valid =>
    exact .promote _ c T t d front rest present seated left queue valid

theorem Steps.of_subset {seats seats' : Int → Prop} (h : ∀ T, seats T → seats' T)
    {s s' : CybercafeMonitoringSystem} (steps : Steps seats s s') : Steps seats' s s' :=
  Relation.ReflTransGen.mono (fun _ _ step => Step.mono h step) steps

theorem find_of_not_contains {m : List (String × Int)} {c : String}
    (h : ¬ contains c m = true) : find c m = none := by
  cases hf : find c m with
  | none => rfl
  | some T => exact absurd (mem_find_isSome hf) h

theorem IsTableFree_departed {system departed : CybercafeMonitoringSystem} {c : String}
    {t T : Int} (left : system.ProcessClientDeparture c t = .ok departed)
    (free : system.IsTableFree T = .ok true) : departed.IsTableFree T = .ok true := by
  have hrange := IsTableFree_ok free
  have hfree := IsTableFree_true free
  obtain ⟨T', since, -, -, rfl⟩ := ProcessClientDeparture_ok left
  have hr : ¬ (T < 1 ∨ T > system.tables_count_) := by omega
  simp only [CybercafeMonitoringSystem.IsTableFree, hr, if_false, Except.ok.injEq,
    List.all_eq_true, decide_eq_true_eq]
  rintro ⟨c', T''⟩ hmem rfl
  exact hfree c' (mem_erase.mp hmem).1

theorem ClientLeft_outgoing_steps (seats : Int → Prop) (t : Int) (c : String)
    (system : CybercafeMonitoringSystem) :
    Steps seats system (ClientLeftEvent.Handle t c .kOutgoing system).system := by
  by_cases hc : contains c system.clients_at_table_ = true
  · cases hd : system.ProcessClientDeparture c t with
    | error failure =>
      simp only [ClientLeftEvent.Handle, hc, not_true_eq_false, if_false, hd]
      exact Relation.ReflTransGen.refl
    | ok departed =>
      simp only [ClientLeftEvent.Handle, hc, not_true_eq_false, if_false, hd]
      exact Relation.ReflTransGen.single (.depart _ c t departed hd)
  · simp only [ClientLeftEvent.Handle, hc, not_false_eq_true, if_true]
    exact Relation.ReflTransGen.single (.purge _ c (find_of_not_contains hc))

theorem ClientArrived_steps (t : Int) (c : String) (system : CybercafeMonitoringSystem)
    (valid : IsClientNameValid c = true) :
    Steps (Event.ClientArrivedEvent t c).Seats system
      (ClientArrivedEvent.Handle t c system).system := by
  unfold ClientArrivedEvent.Handle
  split
  · exact Relation.ReflTransGen.refl
  · rename_i fresh
    split
    · exact Relation.ReflTransGen.refl
    · exact Relation.ReflTransGen.single (.arrive _ c valid fresh)

theorem ClientSat_steps (t : Int) (c : String) (T : Int)
    (system : CybercafeMonitoringSystem) (valid : IsClientNameValid c = true) :
    Steps (Event.ClientSatAtTableEvent t c T .kIncoming).Seats system
      (ClientSatAtTableEvent.Handle t c T .kIncoming system).system := by
  have allowed : (Event.ClientSatAtTableEvent t c T .kIncoming).Seats T := ⟨t, c, rfl⟩
  cases hfree : system.IsTableFree T with
  | error failure =>
    simp only [ClientSatAtTableEvent.Handle, hfree]
    exact Relation.ReflTransGen.refl
  | ok free =>
    cases free with
    | false =>
      simp only [ClientSatAtTableEvent.Handle, hfree]
      exact Relation.ReflTransGen.refl
    | true =>
      by_cases present : c ∈ system.clients_
      · by_cases hc : contains c system.clients_at_table_ = true
        · cases hd : system.ProcessClientDeparture c t with
          | error failure =>
            simp only [ClientSatAtTableEvent.Handle, hfree, present, not_true_eq_false,
              if_false, hc, if_true, hd]
            exact Relation.ReflTransGen.refl
          | ok departed =>
            simp only [ClientSatAtTableEvent.Handle, hfree, present, not_true_eq_false,
              if_false, hc, if_true, hd]
            refine Relation.ReflTransGen.tail
              (Relation.ReflTransGen.single (.depart _ c t departed hd)) ?_
            refine .seat _ c T t allowed valid (IsTableFree_departed hd hfree) ?_
            rw [ProcessClientDeparture_seats hd]
            exact find_erase_self c _
        · simp only [ClientSatAtTableEvent.Handle, hfree, present, not_true_eq_false,
            if_false, hc, Bool.false_eq_true]
          have hstep := @Step.seat (Event.ClientSatAtTableEvent t c T .kIncoming).Seats
            system c T t allowed valid hfree (find_of_not_contains hc)
          have hin : unordered_set.insert c system.clients_ = system.clients_ := by
            simp [unordered_set.insert, present]
          rw [hin] at hstep
          exact Relation.ReflTransGen.single hstep
      · simp only [ClientSatAtTableEvent.Handle, hfree, present, not_false_eq_true, if_true]
        exact Relation.ReflTransGen.refl

theorem ClientWaiting_steps (t : Int) (c : String) (system : CybercafeMonitoringSystem)
    (valid : IsClientNameValid c = true) :
    Steps (Event.ClientWaitingEvent t c).Seats system
      (ClientWaitingEvent.Handle t c system).system := by
  unfold ClientWaitingEvent.Handle
  split
  · exact Relation.ReflTransGen.refl
  · rename_i full
    split
    · exact Relation.ReflTransGen.refl
    · rename_i hc
      split
      · simp only [valid, if_true]
        exact ClientLeft_outgoing_steps _ t c system
      · rename_i short
        split
        · exact Relation.ReflTransGen.refl
        · rename_i present
          refine Relation.ReflTransGen.single
            (.enqueue _ c valid (not_not.mp present) (find_of_not_contains hc) ?_ ?_)
          · simpa using full
          · omega

theorem ClientLeft_incoming_steps (t : Int) (c : String)
    (system : CybercafeMonitoringSystem) :
    Steps (Event.ClientLeftEvent t c .kIncoming).Seats system
      (ClientLeftEvent.Handle t c .kIncoming system).system := by
  by_cases present : c ∈ system.clients_
  · cases hseat : find c system.clients_at_table_ with
    | none =>
      simp only [ClientLeftEvent.Handle, present, not_true_eq_false, if_false, hseat]
      exact Relation.ReflTransGen.single (.purge _ c hseat)
    | some T =>
      cases hd : system.ProcessClientDeparture c t with
      | error failure =>
        simp only [ClientLeftEvent.Handle, present, not_true_eq_false, if_false, hseat, hd]
        exact Relation.ReflTransGen.refl
      | ok departed =>
        cases hq : departed.waiting_clients_ with
        | nil =>
          simp only [ClientLeftEvent.Handle, present, not_true_eq_false, if_false, hseat,
            hd, hq]
          exact Relation.ReflTransGen.single (.depart _ c t departed hd)
        | cons front rest =>
          by_cases valid : IsClientNameValid front = true
          · simp only [ClientLeftEvent.Handle, present, not_true_eq_false, if_false, hseat,
              hd, hq, valid, if_true, ClientSatAtTableEvent.Handle, List.tail_cons]
            exact Relation.ReflTransGen.single
              (.promote _ c T t departed front rest present hseat hd hq valid)
          · simp only [ClientLeftEvent.Handle, present, not_true_eq_false, if_false, hseat,
              hd, hq, valid, Bool.false_eq_true]
            exact Relation.ReflTransGen.single (.depart _ c t departed hd)
  · simp only [ClientLeftEvent.Handle, present, not_false_eq_true, if_true]
    exact Relation.ReflTransGen.refl

theorem Handle_steps (system : CybercafeMonitoringSystem) (event : Event)
    (incoming : event.IsIncoming = true) :
    Steps event.Seats system (event.Handle system).system := by
  cases event with
  | ClientArrivedEvent t c => exact ClientArrived_steps t c system incoming
  | ClientSatAtTableEvent t c T type =>
    cases type with
    | kIncoming => exact ClientSat_steps t c T system incoming
    | kOutgoing => simp [Event.IsIncoming] at incoming
  | ClientWaitingEvent t c => exact ClientWaiting_steps t c system incoming
  | ClientLeftEvent t c type =>
    cases type with
    | kIncoming => exact ClientLeft_incoming_steps t c system
    | kOutgoing => simp [Event.IsIncoming] at incoming
  | ErrorEvent t m => simp [Event.IsIncoming] at incoming

theorem HandleAll_steps (events : List Event) (system : CybercafeMonitoringSystem)
    (incoming : ∀ event ∈ events, event.IsIncoming = true) :
    Steps (fun T => ∃ event ∈ events, event.Seats T) system (HandleAll events system) := by
  induction events generalizing system with
  | nil => exact Relation.ReflTransGen.refl
  | cons event rest ih =>
    have h1 := Handle_steps system event (incoming event (List.mem_cons_self _ _))
    have h2 := ih (event.Handle system).system
      (fun e he => incoming e (List.mem_cons_of_mem _ he))
    refine Relation.ReflTransGen.trans (Steps.of_subset ?_ h1) (Steps.of_subset ?_ h2)
    · exact fun T hT => ⟨event, List.mem_cons_self _ _, hT⟩
    · rintro T ⟨e, he, hT⟩
      exact ⟨e, List.mem_cons_of_mem _ he, hT⟩

theorem CybercafeClose_loop_steps (seats : Int → Prop) (order : List String)
    (system : CybercafeMonitoringSystem) :
    Steps seats system (CybercafeMonitoringSystem.CybercafeClose.loop order system).system := by
  induction order generalizing system with
  | nil => exact Relation.ReflTransGen.refl
  | cons c rest ih =>
    unfold CybercafeMonitoringSystem.CybercafeClose.loop
    split
    · have h1 := ClientLeft_outgoing_steps seats system.closing_time_ c system
      simp only
      split
      · exact h1
      · exact Relation.ReflTransGen.trans h1 (ih _)
    · exact Relation.ReflTransGen.refl

/-- What every step keeps is kept by a run of steps. -/
theorem Steps.invariant {seats : Int → Prop} (P : CybercafeMonitoringSystem → Prop)
    (step : ∀ s s', P s → Step seats s s' → P s')
    {s s' : CybercafeMonitoringSystem} (steps : Steps seats s s') (h : P s) : P s' := by
  induction steps with
  | refl => exact h
  | tail _ hstep ih => exact step _ _ ih hstep

/-- An invariant of the steps holds in every reachable state once it holds
after opening. -/
theorem Reachable.of_steps (P : CybercafeMonitoringSystem → Prop)
    (opened : ∀ opening_time closing_time tables_count hourly_rate system,
      CybercafeMonitoringSystem.ctor opening_time closing_time tables_count hourly_rate
        = .ok system → P system.CybercafeOpen.system)
    (step : ∀ s s', P s → Step (fun _ => True) s s' → P s')
    {system : CybercafeMonitoringSystem} (h : Reachable system) : P system := by
  induction h with
  | opened o c N r s constructed => exact opened o c N r s constructed
  | handled s e _ incoming ih =>
    exact Steps.invariant P step
      (Steps.of_subset (fun T _ => trivial) (Handle_steps s e incoming)) ih

/-! ## What the steps keep -/

theorem Step.config {seats : Int → Prop} {s s' : CybercafeMonitoringSystem}
    (step : Step seats s s') :
    s'.tables_count_ = s.tables_count_ ∧ s'.closing_time_ = s.closing_time_
    ∧ s'.opening_time_ = s.opening_time_ ∧ s'.hourly_rate_ = s.hourly_rate_ := by
  cases step with
  | arrive c valid fresh => exact ⟨rfl, rfl, rfl, rfl⟩
  | seat c T t allowed valid free standing => exact ⟨rfl, rfl, rfl, rfl⟩
  | depart c t _ left =>
    obtain ⟨T, since, -, -, rfl⟩ := ProcessClientDeparture_ok left
    exact ⟨rfl, rfl, rfl, rfl⟩
  | purge c standing => exact ⟨rfl, rfl, rfl, rfl⟩
  | enqueue c valid present standing full short => exact ⟨rfl, rfl, rfl, rfl⟩
  | promote c T t d front rest present seated left queue valid =>
    obtain ⟨T', since, -, -, rfl⟩ := ProcessClientDeparture_ok left
    exact ⟨rfl, rfl, rfl, rfl⟩

theorem Steps.same_config {seats : Int → Prop} {s s' : CybercafeMonitoringSystem}
    (steps : Steps seats s s') :
    s'.tables_count_ = s.tables_count_ ∧ s'.closing_time_ = s.closing_time_
    ∧ s'.opening_time_ = s.opening_time_ ∧ s'.hourly_rate_ = s.hourly_rate_ := by
  induction steps with
  | refl => exact ⟨rfl, rfl, rfl, rfl⟩
  | tail _ hstep ih =>
    obtain ⟨h1, h2, h3, h4⟩ := hstep.config
    exact ⟨h1.trans ih.1, h2.trans ih.2.1, h3.trans ih.2.2.1, h4.trans ih.2.2.2⟩

theorem Settled_departed {system departed : CybercafeMonitoringSystem} {c : String}
    {t : Int} (settled : Settled system)
    (left : system.ProcessClientDeparture c t = .ok departed) : Settled departed := by
  obtain ⟨T, since, hseat, -, rfl⟩ := ProcessClientDeparture_ok left
  refine ⟨settled.1.of_erase c, ?_⟩
  intro c' T' h
  obtain ⟨hne, h'⟩ := find_erase_eq_none_or h
  obtain ⟨s', hs'⟩ := settled.2 c' T' h'
  have hT : T' ≠ T := by
    rintro rfl
    exact hne (settled.1.injective c' c T' h' hseat)
  exact ⟨s', by simp only [find_erase_ne hT, hs']⟩

theorem Settled_of_seat {system after : CybercafeMonitoringSystem} (settled : Settled system)
    (c : String) (T t : Int) (vacant : ∀ c', (c', T) ∉ system.clients_at_table_)
    (seats : after.clients_at_table_ = assign c T system.clients_at_table_)
    (since : after.tables_current_using_since_
      = assign T t system.tables_current_using_since_) : Settled after := by
  unfold Settled
  rw [seats, since]
  refine ⟨settled.1.of_assign c T (fun c' hm => absurd hm (vacant c')), ?_⟩
  intro c' T' hf
  by_cases hT : T' = T
  · subst hT
    exact ⟨t, find_assign_self _ _ _⟩
  · rw [find_assign_ne hT]
    by_cases hc : c' = c
    · subst hc
      rw [find_assign_self] at hf
      simp only [Option.some.injEq] at hf
      exact absurd hf.symm hT
    · rw [find_assign_ne hc] at hf
      exact settled.2 c' T' hf

theorem Step.settled {seats : Int → Prop} {s s' : CybercafeMonitoringSystem}
    (settled : Settled s) (step : Step seats s s') : Settled s' := by
  cases step with
  | arrive c valid fresh => exact settled
  | seat c T t allowed valid free standing =>
    exact Settled_of_seat settled c T t (IsTableFree_true free) rfl rfl
  | depart c t _ left => exact Settled_departed settled left
  | purge c standing => exact settled
  | enqueue c valid present standing full short => exact settled
  | promote c T t d front rest present seated left queue valid =>
    refine Settled_of_seat (Settled_departed settled left) front T t ?_ rfl rfl
    rw [ProcessClientDeparture_seats left]
    exact not_mem_erase_of_alone
      (fun c' hm => settled.1.unique hm (mem_of_find seated))

theorem Settled_opened (system : CybercafeMonitoringSystem)
    (empty : system.clients_at_table_ = []) : Settled system.CybercafeOpen.system := by
  unfold Settled CybercafeMonitoringSystem.CybercafeOpen
  simp only [empty]
  exact ⟨⟨List.nodup_nil, List.nodup_nil⟩, fun c T h => by simp [find] at h⟩

theorem ctor_empty {opening_time closing_time tables_count hourly_rate : Int}
    {system : CybercafeMonitoringSystem}
    (constructed : CybercafeMonitoringSystem.ctor opening_time closing_time tables_count
      hourly_rate = .ok system) :
    1 ≤ tables_count
    ∧ system = ⟨hourly_rate, opening_time, closing_time, tables_count, 0, [], [], [], [], [], []⟩ := by
  unfold CybercafeMonitoringSystem.ctor at constructed
  split at constructed
  · simp at constructed
  · simp only [Except.ok.injEq] at constructed
    exact ⟨by omega, constructed.symm⟩

theorem Settled_Reachable {system : CybercafeMonitoringSystem} (h : Reachable system) :
    Settled system := by
  refine Reachable.of_steps Settled ?_ (fun s s' hs step => step.settled hs) h
  intro o c N r s constructed
  obtain ⟨-, rfl⟩ := ctor_empty constructed
  exact Settled_opened _ rfl

theorem nodup_insert {c : String} {l : List String} (h : l.Nodup) :
    (unordered_set.insert c l).Nodup := by
  unfold unordered_set.insert
  split
  · exact h
  · rename_i fresh
    exact List.nodup_cons.mpr ⟨fresh, h⟩

theorem nodup_set_erase {l : List String} (h : l.Nodup) (c : String) :
    (unordered_set.erase c l).Nodup :=
  h.sublist (List.filter_sublist _)

theorem mem_remove {x c : String} {q : List String} (h : x ∈ deque.remove c q) : x ∈ q :=
  (List.mem_filter.mp h).1

theorem Registered_departed {system departed : CybercafeMonitoringSystem} {c : String}
    {t : Int} (registered : Registered system)
    (left : system.ProcessClientDeparture c t = .ok departed) : Registered departed := by
  obtain ⟨T, since, -, -, rfl⟩ := ProcessClientDeparture_ok left
  exact ⟨nodup_set_erase registered.1 c,
    fun x hx => registered.2.1 x ((unordered_set.mem_erase_iff x c _).mp hx).1,
    registered.2.2⟩

theorem Step.registered {seats : Int → Prop} {s s' : CybercafeMonitoringSystem}
    (registered : Registered s) (step : Step seats s s') : Registered s' := by
  obtain ⟨h1, h2, h3⟩ := registered
  cases step with
  | arrive c valid fresh =>
    refine ⟨nodup_insert h1, fun x hx => ?_, h3⟩
    rcases (unordered_set.mem_insert_iff x c _).mp hx with rfl | hx
    · exact valid
    · exact h2 x hx
  | seat c T t allowed valid free standing =>
    refine ⟨nodup_insert h1, fun x hx => ?_, h3⟩
    rcases (unordered_set.mem_insert_iff x c _).mp hx with rfl | hx
    · exact valid
    · exact h2 x hx
  | depart c t _ left => exact Registered_departed ⟨h1, h2, h3⟩ left
  | purge c standing =>
    exact ⟨nodup_set_erase h1 c,
      fun x hx => h2 x ((unordered_set.mem_erase_iff x c _).mp hx).1,
      fun x hx => h3 x (mem_remove hx)⟩
  | enqueue c valid present standing full short =>
    refine ⟨h1, h2, fun x hx => ?_⟩
    rcases List.mem_append.mp hx with hx | hx
    · exact h3 x hx
    · rw [List.mem_singleton.mp hx]
      exact valid
  | promote c T t d front rest present seated left queue valid =>
    obtain ⟨g1, g2, g3⟩ := Registered_departed ⟨h1, h2, h3⟩ left
    exact ⟨g1, g2, fun x hx => g3 x (by rw [queue]; exact List.mem_cons_of_mem _ hx)⟩

theorem Registered_Reachable {system : CybercafeMonitoringSystem} (h : Reachable system) :
    Registered system := by
  refine Reachable.of_steps Registered ?_ (fun s s' hs step => step.registered hs) h
  intro o c N r s constructed
  obtain ⟨-, rfl⟩ := ctor_empty constructed
  exact ⟨List.nodup_nil, fun x hx => by simp [CybercafeMonitoringSystem.CybercafeOpen] at hx,
    fun x hx => by simp [CybercafeMonitoringSystem.CybercafeOpen] at hx⟩

theorem find_assign_some (T T' v : Int) (m : List (Int × Int))
    (h : ∃ x, find T m = some x) : ∃ x, find T (assign T' v m) = some x := by
  by_cases hT : T = T'
  · subst hT
    exact ⟨v, find_assign_self _ _ _⟩
  · rw [find_assign_ne hT]
    exact h

theorem Reported_departed {system departed : CybercafeMonitoringSystem} {c : String}
    {t : Int} (reported : Reported system)
    (left : system.ProcessClientDeparture c t = .ok departed) : Reported departed := by
  obtain ⟨T, since, -, -, rfl⟩ := ProcessClientDeparture_ok left
  intro T' h1 h2
  obtain ⟨g1, g2⟩ := reported T' h1 h2
  exact ⟨find_assign_some _ _ _ _ g1, find_assign_some _ _ _ _ g2⟩

theorem Step.reported {seats : Int → Prop} {s s' : CybercafeMonitoringSystem}
    (reported : Reported s) (step : Step seats s s') : Reported s' := by
  cases step with
  | arrive c valid fresh => exact reported
  | seat c T t allowed valid free standing => exact reported
  | depart c t _ left => exact Reported_departed reported left
  | purge c standing => exact reported
  | enqueue c valid present standing full short => exact reported
  | promote c T t d front rest present seated left queue valid =>
    have hd : Reported d := Reported_departed reported left
    exact hd

theorem Reported_opened (system : CybercafeMonitoringSystem) :
    Reported system.CybercafeOpen.system := by
  intro T h1 h2
  simp only [CybercafeMonitoringSystem.CybercafeOpen] at h2 ⊢
  have hlt : T < 1 + (system.tables_count_.toNat : Int) := by
    rw [Int.toNat_of_nonneg (by omega)]
    omega
  exact ⟨⟨0, find_loop_inside _ _ _ _ h1 hlt⟩, ⟨0, find_loop_inside _ _ _ _ h1 hlt⟩⟩

theorem Reported_Reachable {system : CybercafeMonitoringSystem} (h : Reachable system) :
    Reported system :=
  Reachable.of_steps Reported (fun _ _ _ _ s _ => Reported_opened s)
    (fun _ _ hs step => step.reported hs) h

theorem Step.accounted {seats : Int → Prop} {s s' : CybercafeMonitoringSystem}
    (accounted : Accounted s) (step : Step seats s s') : Accounted s' := by
  cases step with
  | arrive c valid fresh => exact accounted.frame rfl rfl rfl (fun _ _ hm => Or.inl hm)
  | seat c T t allowed valid free standing =>
    exact accounted.seat c T t _ (IsTableFree_ok free)
  | depart c t _ left => exact Accounted_ProcessClientDeparture accounted left
  | purge c standing => exact accounted.frame rfl rfl rfl (fun _ _ hm => Or.inl hm)
  | enqueue c valid present standing full short =>
    exact accounted.frame rfl rfl rfl (fun _ _ hm => Or.inl hm)
  | promote c T t d front rest present seated left queue valid =>
    have hd := Accounted_ProcessClientDeparture accounted left
    have hcfg : d.tables_count_ = s.tables_count_ := (@Step.depart seats s c t d left).config.1
    have hrange : 1 ≤ T ∧ T ≤ d.tables_count_ := by
      rw [hcfg]
      exact accounted.1 c T (mem_of_find seated)
    exact (hd.seat front T t d.clients_ hrange).frame rfl rfl rfl (fun _ _ hm => Or.inl hm)

theorem Untouched_departed {T : Int} {system departed : CybercafeMonitoringSystem}
    {c : String} {t : Int} (untouched : Untouched T system)
    (left : system.ProcessClientDeparture c t = .ok departed) : Untouched T departed := by
  obtain ⟨T', since, hseat, -, rfl⟩ := ProcessClientDeparture_ok left
  obtain ⟨h1, h2, h3⟩ := untouched
  have hT : T ≠ T' := by
    rintro rfl
    exact h1 c (mem_of_find hseat)
  refine ⟨fun c' hm => h1 c' (mem_erase.mp hm).1, ?_, ?_⟩
  · simp only [find_assign_ne hT, h2]
  · simp only [find_assign_ne hT, h3]

theorem Untouched_of_seat {T : Int} {system after : CybercafeMonitoringSystem}
    (untouched : Untouched T system) (c : String) (T' : Int) (other : T' ≠ T)
    (seats : after.clients_at_table_ = assign c T' system.clients_at_table_)
    (revenue : after.tables_daily_revenue_ = system.tables_daily_revenue_)
    (using_ : after.tables_daily_using_ = system.tables_daily_using_) :
    Untouched T after := by
  obtain ⟨h1, h2, h3⟩ := untouched
  unfold Untouched
  rw [seats, revenue, using_]
  refine ⟨fun c' hm => ?_, h2, h3⟩
  simp only [assign, List.mem_cons, Prod.mk.injEq] at hm
  rcases hm with ⟨-, hT⟩ | hm
  · exact other hT.symm
  · exact h1 c' (mem_erase.mp hm).1

theorem Step.untouched {seats : Int → Prop} {T : Int} {s s' : CybercafeMonitoringSystem}
    (unused : ¬ seats T) (untouched : Untouched T s) (step : Step seats s s') :
    Untouched T s' := by
  cases step with
  | arrive c valid fresh => exact untouched
  | seat c T' t allowed valid free standing =>
    have other : T' ≠ T := by
      rintro rfl
      exact unused allowed
    exact Untouched_of_seat untouched c T' other rfl rfl rfl
  | depart c t _ left => exact Untouched_departed untouched left
  | purge c standing => exact untouched
  | enqueue c valid present standing full short => exact untouched
  | promote c T' t d front rest present seated left queue valid =>
    have other : T' ≠ T := by
      rintro rfl
      exact untouched.1 c (mem_of_find seated)
    exact Untouched_of_seat (Untouched_departed untouched left) front T' other rfl rfl rfl

theorem Untouched_opened (opening_time closing_time N r T : Int) (h1 : 1 ≤ T) (h2 : T ≤ N) :
    Untouched T (⟨r, opening_time, closing_time, N, 0, [], [], [], [], [], []⟩ :
      CybercafeMonitoringSystem).CybercafeOpen.system := by
  have hlt : T < 1 + (N.toNat : Int) := by
    rw [Int.toNat_of_nonneg (by omega)]
    omega
  exact ⟨fun c hm => by simp [CybercafeMonitoringSystem.CybercafeOpen] at hm,
    find_loop_inside _ _ _ _ h1 hlt, find_loop_inside _ _ _ _ h1 hlt⟩

theorem Accounted.total_eq_sum {system : CybercafeMonitoringSystem} (h : Accounted system) :
    system.total_revenue_
      = ∑ T ∈ Finset.Icc 1 system.tables_count_,
          (find T system.tables_daily_revenue_).getD 0 := by
  obtain ⟨-, h2, h3, h4⟩ := h
  have e : Finset.Icc 1 system.tables_count_
      = (system.tables_daily_revenue_.map Prod.fst).toFinset := by
    ext T
    simp only [Finset.mem_Icc, List.mem_toFinset, h3]
  rw [e, List.sum_toFinset _ h2, unordered_map.map_find_keys h2]
  exact h4

/-! ## The closing report -/

theorem flatMap_cast (l : List Nat) :
    (l.flatMap fun a => [(a : Int)]) = l.map (fun i : Nat => (i : Int)) := by
  induction l with
  | nil => rfl
  | cons a l ih => simp [List.flatMap_cons, ih]

theorem PrintClosingStats_ids (N : Int) (h : 1 ≤ N) :
    CybercafeMonitoringSystem.PrintClosingStats.ids N
      = (List.range N.toNat).map (fun i : Nat => (i : Int) + 1) := by
  have e : N.toNat = (N - 1).toNat + 1 := by omega
  have e' : (((N - 1).toNat : Nat) : Int) + 1 = N := by omega
  rw [CybercafeMonitoringSystem.PrintClosingStats.ids, e, List.range_succ, List.map_append,
    List.map_singleton, e']
  simp [flatMap_cast, List.map_map, Function.comp_def]

theorem PrintClosingStats_rows_ok (system : CybercafeMonitoringSystem) (ids : List Int)
    (h : ∀ T ∈ ids, (∃ revenue, find T system.tables_daily_revenue_ = some revenue)
      ∧ (∃ duration, find T system.tables_daily_using_ = some duration)) :
    CybercafeMonitoringSystem.PrintClosingStats.rows system ids
      = (ids.map (fun T => Output.table T
            ((find T system.tables_daily_revenue_).getD 0)
            ((find T system.tables_daily_using_).getD 0)), none) := by
  induction ids with
  | nil => rfl
  | cons T rest ih =>
    obtain ⟨⟨r, hr⟩, ⟨u, hu⟩⟩ := h T (List.mem_cons_self _ _)
    simp only [CybercafeMonitoringSystem.PrintClosingStats.rows, hr, hu,
      ih (fun x hx => h x (List.mem_cons_of_mem _ hx)), List.map_cons, Option.getD_some]

theorem PrintClosingStats_ok (system : CybercafeMonitoringSystem)
    (tables : 1 ≤ system.tables_count_) (reported : Reported system) :
    system.PrintClosingStats
      = (Output.time system.closing_time_ ::
          (List.range system.tables_count_.toNat).map (fun i : Nat => Output.table ((i : Int) + 1)
            ((find ((i : Int) + 1) system.tables_daily_revenue_).getD 0)
            ((find ((i : Int) + 1) system.tables_daily_using_).getD 0)), none) := by
  have hrows := PrintClosingStats_rows_ok system
    ((List.range system.tables_count_.toNat).map (fun i : Nat => (i : Int) + 1)) (by
      intro T hT
      simp only [List.mem_map, List.mem_range] at hT
      obtain ⟨i, hi, rfl⟩ := hT
      exact reported _ (by omega) (by omega))
  simp only [CybercafeMonitoringSystem.PrintClosingStats, PrintClosingStats_ids _ tables,
    hrows, List.map_map]
  rfl

theorem PrintClosingStats_cleared (system : CybercafeMonitoringSystem)
    (cleared : system.tables_daily_revenue_ = []) :
    system.PrintClosingStats = ([Output.time system.closing_time_], some .out_of_range) := by
  have hne : ∀ (l : List Int) (x : Int), ∃ T rest, l ++ [x] = T :: rest := by
    intro l x
    cases l with
    | nil => exact ⟨x, [], rfl⟩
    | cons a l => exact ⟨a, l ++ [x], rfl⟩
  have hids : ∃ T rest, CybercafeMonitoringSystem.PrintClosingStats.ids system.tables_count_
      = T :: rest := hne _ _
  obtain ⟨T, rest, hids⟩ := hids
  simp only [CybercafeMonitoringSystem.PrintClosingStats, hids,
    CybercafeMonitoringSystem.PrintClosingStats.rows, cleared, find]

/-! ## Closing twice -/

theorem sort_insert_perm (client : String) (sorted inserted : List String)
    (h : CybercafeMonitoringSystem.sort.insert client sorted = .ok inserted) :
    inserted.Perm (client :: sorted) := by
  induction sorted generalizing inserted with
  | nil =>
    simp only [CybercafeMonitoringSystem.sort.insert, Except.ok.injEq] at h
    rw [← h]
  | cons head rest ih =>
    unfold CybercafeMonitoringSystem.sort.insert at h
    split at h
    · simp at h
    · simp only [Except.ok.injEq] at h
      rw [← h]
    · split at h
      · simp at h
      · rename_i later hlater
        simp only [Except.ok.injEq] at h
        rw [← h]
        exact ((ih later hlater).cons head).trans (List.Perm.swap client head rest)

theorem sort_perm (clients sorted : List String)
    (h : CybercafeMonitoringSystem.sort clients = .ok sorted) : sorted.Perm clients := by
  induction clients generalizing sorted with
  | nil =>
    simp only [CybercafeMonitoringSystem.sort, Except.ok.injEq] at h
    rw [← h]
  | cons client rest ih =>
    unfold CybercafeMonitoringSystem.sort at h
    split at h
    · simp at h
    · rename_i later hlater
      exact (sort_insert_perm client later sorted h).trans ((ih later hlater).cons client)

theorem ClientLeft_outgoing_clients (system : CybercafeMonitoringSystem) (t : Int)
    (c : String) (quiet : (ClientLeftEvent.Handle t c .kOutgoing system).thrown = none) :
    (ClientLeftEvent.Handle t c .kOutgoing system).system.clients_
      = unordered_set.erase c system.clients_ := by
  by_cases hc : contains c system.clients_at_table_ = true
  · cases hd : system.ProcessClientDeparture c t with
    | error failure =>
      simp [ClientLeftEvent.Handle, hc, hd] at quiet
    | ok departed =>
      obtain ⟨T, since, -, -, rfl⟩ := ProcessClientDeparture_ok hd
      simp only [ClientLeftEvent.Handle, hc, not_true_eq_false, if_false, hd]
  · have hc' : contains c system.clients_at_table_ = false := by simpa using hc
    simp only [ClientLeftEvent.Handle, hc', Bool.false_eq_true, not_false_eq_true, if_true]

theorem CybercafeClose_loop_clients (order : List String)
    (system : CybercafeMonitoringSystem)
    (quiet : (CybercafeMonitoringSystem.CybercafeClose.loop order system).thrown = none)
    (x : String)
    (hx : x ∈ (CybercafeMonitoringSystem.CybercafeClose.loop order system).system.clients_) :
    x ∈ system.clients_ ∧ x ∉ order := by
  induction order generalizing system with
  | nil => exact ⟨hx, List.not_mem_nil x⟩
  | cons c rest ih =>
    by_cases hv : IsClientNameValid c = true
    · cases hleft : (ClientLeftEvent.Handle system.closing_time_ c .kOutgoing system).thrown with
      | some failure =>
        simp [CybercafeMonitoringSystem.CybercafeClose.loop, hv, hleft] at quiet
      | none =>
        simp only [CybercafeMonitoringSystem.CybercafeClose.loop, hv, if_true, hleft]
          at quiet hx
        obtain ⟨h1, h2⟩ := ih _ quiet hx
        rw [ClientLeft_outgoing_clients system _ c hleft] at h1
        obtain ⟨h3, h4⟩ := (unordered_set.mem_erase_iff x c _).mp h1
        exact ⟨h3, fun hm => (List.mem_cons.mp hm).elim h4 h2⟩
    · simp [CybercafeMonitoringSystem.CybercafeClose.loop, hv] at quiet

theorem CybercafeClose_done (system : CybercafeMonitoringSystem)
    (quiet : system.CybercafeClose.thrown = none) :
    system.CybercafeClose.system.clients_ = []
    ∧ system.CybercafeClose.system.tables_daily_using_ = []
    ∧ system.CybercafeClose.system.tables_current_using_since_ = []
    ∧ system.CybercafeClose.system.tables_daily_revenue_ = [] := by
  cases sorted : CybercafeMonitoringSystem.sort system.clients_ with
  | error failure => simp [CybercafeMonitoringSystem.CybercafeClose, sorted] at quiet
  | ok order =>
    cases hloop : (CybercafeMonitoringSystem.CybercafeClose.loop order system).thrown with
    | some failure => simp [CybercafeMonitoringSystem.CybercafeClose, sorted, hloop] at quiet
    | none =>
      cases hstats : (CybercafeMonitoringSystem.CybercafeClose.loop order
          system).system.PrintClosingStats.2 with
      | some failure =>
        simp [CybercafeMonitoringSystem.CybercafeClose, sorted, hloop, hstats] at quiet
      | none =>
        simp only [CybercafeMonitoringSystem.CybercafeClose, sorted, hloop, hstats, and_self,
          and_true]
        refine List.eq_nil_iff_forall_not_mem.mpr (fun x hx => ?_)
        obtain ⟨h1, h2⟩ := CybercafeClose_loop_clients order system hloop x hx
        exact h2 ((sort_perm _ _ sorted).mem_iff.mpr h1)

theorem CybercafeClose_of_closed (system : CybercafeMonitoringSystem)
    (nobody : system.clients_ = []) (cleared : system.tables_daily_revenue_ = []) :
    system.CybercafeClose
      = ⟨system, [Output.time system.closing_time_], some .out_of_range⟩ := by
  simp only [CybercafeMonitoringSystem.CybercafeClose, nobody,
    CybercafeMonitoringSystem.sort, CybercafeMonitoringSystem.CybercafeClose.loop,
    PrintClosingStats_cleared system cleared, List.nil_append]

/-! ## Free tables -/

theorem tables_Reachable {system : CybercafeMonitoringSystem} (h : Reachable system) :
    1 ≤ system.tables_count_ := by
  refine Reachable.of_steps (fun s => 1 ≤ s.tables_count_) ?_ ?_ h
  · intro o c N r s constructed
    obtain ⟨hN, rfl⟩ := ctor_empty constructed
    exact hN
  · intro s s' hs step
    rw [step.config.1]
    exact hs

theorem IsTableFree_free {system : CybercafeMonitoringSystem} {T : Int}
    (range : 1 ≤ T ∧ T ≤ system.tables_count_)
    (vacant : ∀ c, (c, T) ∉ system.clients_at_table_) :
    system.IsTableFree T = .ok true := by
  have hr : ¬ (T < 1 ∨ T > system.tables_count_) := by omega
  simp only [CybercafeMonitoringSystem.IsTableFree, hr, if_false, Except.ok.injEq,
    List.all_eq_true, decide_eq_true_eq]
  rintro ⟨c, T'⟩ hm rfl
  exact vacant c hm

theorem CybercafeClose_ok {system : CybercafeMonitoringSystem} {order : List String}
    (sorted : CybercafeMonitoringSystem.sort system.clients_ = .ok order)
    (quiet : (CybercafeMonitoringSystem.CybercafeClose.loop order system).thrown = none)
    (stats : (CybercafeMonitoringSystem.CybercafeClose.loop order
      system).system.PrintClosingStats.2 = none) :
    system.CybercafeClose
      = ⟨{ (CybercafeMonitoringSystem.CybercafeClose.loop order system).system with
            tables_daily_using_ := []
            tables_current_using_since_ := []
            tables_daily_revenue_ := [] },
          (CybercafeMonitoringSystem.CybercafeClose.loop order system).printed
            ++ (CybercafeMonitoringSystem.CybercafeClose.loop order
                system).system.PrintClosingStats.1,
          none⟩ := by
  simp only [CybercafeMonitoringSystem.CybercafeClose, sorted, quiet, stats]

theorem CybercafeClose_config (system : CybercafeMonitoringSystem) :
    system.CybercafeClose.system.tables_count_ = system.tables_count_
    ∧ system.CybercafeClose.system.closing_time_ = system.closing_time_
    ∧ system.CybercafeClose.system.opening_time_ = system.opening_time_
    ∧ system.CybercafeClose.system.hourly_rate_ = system.hourly_rate_ := by
  cases sorted : CybercafeMonitoringSystem.sort system.clients_ with
  | error failure =>
    simp only [CybercafeMonitoringSystem.CybercafeClose, sorted, and_self]
  | ok order =>
    have hcfg := (CybercafeClose_loop_steps (fun _ => True) order system).same_config
    cases hloop : (CybercafeMonitoringSystem.CybercafeClose.loop order system).thrown with
    | some failure =>
      simp only [CybercafeMonitoringSystem.CybercafeClose, sorted, hloop]
      exact hcfg
    | none =>
      cases hstats : (CybercafeMonitoringSystem.CybercafeClose.loop order
          system).system.PrintClosingStats.2 with
      | some failure =>
        simp only [CybercafeMonitoringSystem.CybercafeClose, sorted, hloop, hstats]
        exact hcfg
      | none =>
        simp only [CybercafeMonitoringSystem.CybercafeClose, sorted, hloop, hstats]
        exact hcfg

/-! ## Table ids in range, the queue, and departures that find their data -/

theorem Ranged_departed {system departed : CybercafeMonitoringSystem} {c : String}
    {t : Int} (ranged : Ranged system)
    (left : system.ProcessClientDeparture c t = .ok departed) : Ranged departed := by
  obtain ⟨T, since, hseat, -, rfl⟩ := ProcessClientDeparture_ok left
  obtain ⟨h1, h2, h3, h4⟩ := ranged
  have hT := h1 c T (mem_of_find hseat)
  refine ⟨fun c' T' hm => h1 c' T' (mem_erase.mp hm).1, fun T' hm => ?_, fun T' hm => ?_,
    fun T' hm => ?_⟩
  · exact h2 T' (mem_keys_erase.mp hm).1
  · rcases mem_keys_assign.mp hm with rfl | hm
    · exact hT
    · exact h3 T' hm
  · rcases mem_keys_assign.mp hm with rfl | hm
    · exact hT
    · exact h4 T' hm

theorem Ranged_of_seat {system after : CybercafeMonitoringSystem} (ranged : Ranged system)
    (c : String) (T t : Int) (range : 1 ≤ T ∧ T ≤ system.tables_count_)
    (count : after.tables_count_ = system.tables_count_)
    (seats : after.clients_at_table_ = assign c T system.clients_at_table_)
    (since : after.tables_current_using_since_
      = assign T t system.tables_current_using_since_)
    (using_ : after.tables_daily_using_ = system.tables_daily_using_)
    (revenue : after.tables_daily_revenue_ = system.tables_daily_revenue_) :
    Ranged after := by
  obtain ⟨h1, h2, h3, h4⟩ := ranged
  unfold Ranged
  rw [count, seats, since, using_, revenue]
  refine ⟨fun c' T' hm => ?_, fun T' hm => ?_, h3, h4⟩
  · simp only [assign, List.mem_cons, Prod.mk.injEq] at hm
    rcases hm with ⟨-, rfl⟩ | hm
    · exact range
    · exact h1 c' T' (mem_erase.mp hm).1
  · rcases mem_keys_assign.mp hm with rfl | hm
    · exact range
    · exact h2 T' hm

theorem Step.ranged {seats : Int → Prop} {s s' : CybercafeMonitoringSystem}
    (ranged : Ranged s) (step : Step seats s s') : Ranged s' := by
  cases step with
  | arrive c valid fresh => exact ranged
  | seat c T t allowed valid free standing =>
    exact Ranged_of_seat ranged c T t (IsTableFree_ok free) rfl rfl rfl rfl rfl
  | depart c t _ left => exact Ranged_departed ranged left
  | purge c standing => exact ranged
  | enqueue c valid present standing full short => exact ranged
  | promote c T t d front rest present seated left queue valid =>
    have hd : Ranged d := Ranged_departed ranged left
    have hcfg : d.tables_count_ = s.tables_count_ := (@Step.depart seats s c t d left).config.1
    have hrange : 1 ≤ T ∧ T ≤ d.tables_count_ := by
      rw [hcfg]
      exact ranged.1 c T (mem_of_find seated)
    exact Ranged_of_seat hd front T t hrange rfl rfl rfl rfl rfl

theorem Ranged_opened (opening_time closing_time N r : Int) :
    Ranged (⟨r, opening_time, closing_time, N, 0, [], [], [], [], [], []⟩ :
      CybercafeMonitoringSystem).CybercafeOpen.system := by
  have hkeys : ∀ T, T ∈ (CybercafeMonitoringSystem.CybercafeOpen.loop N.toNat 1 []).map Prod.fst
      → 1 ≤ T ∧ T ≤ N := by
    intro T hT
    rcases (mem_keys_loop _ _ _ _).mp hT with h | h
    · omega
    · simp at h
  exact ⟨fun c T hm => by simp [CybercafeMonitoringSystem.CybercafeOpen] at hm,
    fun T hm => by simp [CybercafeMonitoringSystem.CybercafeOpen] at hm, hkeys, hkeys⟩

theorem Ranged_Reachable {system : CybercafeMonitoringSystem} (h : Reachable system) :
    Ranged system := by
  refine Reachable.of_steps Ranged ?_ (fun s s' hs step => step.ranged hs) h
  intro o c N r s constructed
  obtain ⟨-, rfl⟩ := ctor_empty constructed
  exact Ranged_opened o c N r

theorem Step.queue {seats : Int → Prop} {s s' : CybercafeMonitoringSystem}
    (short : (s.waiting_clients_.length : Int) ≤ s.tables_count_) (step : Step seats s s') :
    (s'.waiting_clients_.length : Int) ≤ s'.tables_count_ := by
  cases step with
  | arrive c valid fresh => exact short
  | seat c T t allowed valid free standing => exact short
  | depart c t _ left =>
    obtain ⟨T, since, -, -, rfl⟩ := ProcessClientDeparture_ok left
    exact short
  | purge c standing =>
    have hle : (deque.remove c s.waiting_clients_).length ≤ s.waiting_clients_.length :=
      List.length_filter_le _ _
    show ((deque.remove c s.waiting_clients_).length : Int) ≤ s.tables_count_
    omega
  | enqueue c valid present standing full below =>
    show ((s.waiting_clients_ ++ [c]).length : Int) ≤ s.tables_count_
    rw [List.length_append, List.length_singleton]
    push_cast
    omega
  | promote c T t d front rest present seated left queue valid =>
    obtain ⟨T', since, -, -, rfl⟩ := ProcessClientDeparture_ok left
    simp only at queue
    show (rest.length : Int) ≤ s.tables_count_
    rw [queue, List.length_cons] at short
    push_cast at short
    omega

theorem queue_Reachable {system : CybercafeMonitoringSystem} (h : Reachable system) :
    (system.waiting_clients_.length : Int) ≤ system.tables_count_ := by
  refine Reachable.of_steps
    (fun s => (s.waiting_clients_.length : Int) ≤ s.tables_count_) ?_
    (fun s s' hs step => step.queue hs) h
  intro o c N r s constructed
  obtain ⟨hN, rfl⟩ := ctor_empty constructed
  show ((([] : List String).length : Nat) : Int) ≤ N
  simp only [List.length_nil, Nat.cast_zero]
  omega

theorem ProcessClientDeparture_of_settled {system : CybercafeMonitoringSystem}
    (settled : Settled system) {c : String} (t : Int)
    (seated : contains c system.clients_at_table_ = true) :
    ∃ departed, system.ProcessClientDeparture c t = .ok departed := by
  obtain ⟨T, hT⟩ := contains_iff_find.mp seated
  obtain ⟨since, hs⟩ := settled.2 c T hT
  exact ⟨_, ProcessClientDeparture_of_seated t hT hs⟩

theorem IsTableFree_error {system : CybercafeMonitoringSystem} {T : Int} {failure : Failure}
    (h : system.IsTableFree T = .error failure) : failure = .invalid_argument := by
  unfold CybercafeMonitoringSystem.IsTableFree at h
  split at h
  · simp only [Except.error.injEq] at h
    exact h.symm
  · simp at h

theorem ClientSat_thrown (t : Int) (c : String) (T : Int) (type : EventType)
    (system : CybercafeMonitoringSystem) (settled : Settled system) :
    (ClientSatAtTableEvent.Handle t c T type system).thrown = none
    ∨ (ClientSatAtTableEvent.Handle t c T type system).thrown = some .invalid_argument := by
  cases type with
  | kOutgoing => exact Or.inl rfl
  | kIncoming =>
    cases hfree : system.IsTableFree T with
    | error failure =>
      simp [ClientSatAtTableEvent.Handle, hfree, IsTableFree_error hfree]
    | ok free =>
      cases free with
      | false =>
        simp [ClientSatAtTableEvent.Handle, hfree]
      | true =>
        by_cases present : c ∈ system.clients_
        · by_cases hc : contains c system.clients_at_table_ = true
          · obtain ⟨departed, hd⟩ := ProcessClientDeparture_of_settled settled t hc
            simp [ClientSatAtTableEvent.Handle, hfree, present, not_true_eq_false,
              if_false, hc, if_true, hd]
          · simp [ClientSatAtTableEvent.Handle, hfree, present, not_true_eq_false,
              if_false, hc, Bool.false_eq_true]
        · simp [ClientSatAtTableEvent.Handle, hfree, present, not_false_eq_true, if_true]

theorem ClientLeft_thrown (t : Int) (c : String) (type : EventType)
    (system : CybercafeMonitoringSystem) (settled : Settled system) :
    (ClientLeftEvent.Handle t c type system).thrown = none
    ∨ (ClientLeftEvent.Handle t c type system).thrown = some .invalid_argument := by
  cases type with
  | kOutgoing => exact Or.inl (ClientLeft_forced_step system t c settled).1
  | kIncoming =>
    by_cases present : c ∈ system.clients_
    · cases hseat : find c system.clients_at_table_ with
      | none =>
        simp [ClientLeftEvent.Handle, present, not_true_eq_false, if_false, hseat]
      | some T =>
        obtain ⟨departed, hd⟩ :=
          ProcessClientDeparture_of_settled settled t (mem_find_isSome hseat)
        cases hq : departed.waiting_clients_ with
        | nil =>
          simp [ClientLeftEvent.Handle, present, not_true_eq_false, if_false, hseat,
            hd, hq]
        | cons front rest =>
          by_cases valid : IsClientNameValid front = true
          · simp [ClientLeftEvent.Handle, present, not_true_eq_false, if_false, hseat,
              hd, hq, valid, if_true, ClientSatAtTableEvent.Handle]
          · simp [ClientLeftEvent.Handle, present, not_true_eq_false, if_false, hseat,
              hd, hq, valid, Bool.false_eq_true]
    · simp [ClientLeftEvent.Handle, present, not_false_eq_true, if_true]

theorem ClientWaiting_thrown (t : Int) (c : String)
    (system : CybercafeMonitoringSystem) (settled : Settled system) :
    (ClientWaitingEvent.Handle t c system).thrown = none
    ∨ (ClientWaitingEvent.Handle t c system).thrown = some .invalid_argument := by
  unfold ClientWaitingEvent.Handle
  split
  · exact Or.inl rfl
  · split
    · exact Or.inl rfl
    · split
      · split
        · exact Or.inl (ClientLeft_forced_step system t c settled).1
        · exact Or.inr rfl
      · split
        · exact Or.inl rfl
        · exact Or.inl rfl

theorem Handle_thrown (event : Event) (system : CybercafeMonitoringSystem)
    (settled : Settled system) :
    (event.Handle system).thrown = none
    ∨ (event.Handle system).thrown = some .invalid_argument := by
  cases event with
  | ClientArrivedEvent t c =>
    simp only [Event.Handle, ClientArrivedEvent.Handle]
    split
    · exact Or.inl rfl
    · split
      · exact Or.inl rfl
      · exact Or.inl rfl
  | ClientSatAtTableEvent t c T type => exact ClientSat_thrown t c T type system settled
  | ClientWaitingEvent t c => exact ClientWaiting_thrown t c system settled
  | ClientLeftEvent t c type => exact ClientLeft_thrown t c type system settled
  | ErrorEvent t m => exact Or.inl rfl

/-- The close of a state in which the register is in order, every seated
client has an occupied-since entry and both daily maps have an entry for every
table: the forced departures in sorted order, the report, the cleared maps. -/
theorem CybercafeClose_run (system : CybercafeMonitoringSystem)
    (tables : 1 ≤ system.tables_count_) (registered : Registered system)
    (settled : Settled system) (reported : Reported system) :
    ∃ order last, CybercafeMonitoringSystem.sort system.clients_ = .ok order
      ∧ order.Perm system.clients_
      ∧ last = (CybercafeMonitoringSystem.CybercafeClose.loop order system).system
      ∧ Steps (fun _ => False) system last
      ∧ system.CybercafeClose
        = ⟨{ last with
              tables_daily_using_ := []
              tables_current_using_since_ := []
              tables_daily_revenue_ := [] },
            order.map (fun c =>
                Output.event (.ClientLeftEvent system.closing_time_ c .kOutgoing))
              ++ Output.time system.closing_time_ ::
                (List.range system.tables_count_.toNat).map (fun i : Nat =>
                  Output.table ((i : Int) + 1)
                    ((find ((i : Int) + 1) last.tables_daily_revenue_).getD 0)
                    ((find ((i : Int) + 1) last.tables_daily_using_).getD 0)),
            none⟩ := by
  obtain ⟨g1, g2, -⟩ := registered
  obtain ⟨order, sorted, hperm, -⟩ := sort_ok system.clients_ g2 g1
  obtain ⟨quiet, hprinted, -, -⟩ := CybercafeClose_loop_ok order system
    (fun c hc => g2 c (hperm.mem_iff.mp hc)) (hperm.nodup_iff.mpr g1) settled
  have hloop := CybercafeClose_loop_steps (fun _ => False) order system
  generalize hlast : (CybercafeMonitoringSystem.CybercafeClose.loop order system).system = last
    at hloop
  obtain ⟨c1, c2, -, -⟩ := hloop.same_config
  have hreported : Reported last :=
    Steps.invariant Reported (fun _ _ hs step => step.reported hs) hloop reported
  have hstats := PrintClosingStats_ok last (by rw [c1]; exact tables) hreported
  rw [c1, c2] at hstats
  have hclose := CybercafeClose_ok sorted quiet (by rw [hlast, hstats])
  rw [hlast, hstats, hprinted] at hclose
  exact ⟨order, last, sorted, hperm, hlast.symm, hloop, hclose⟩

theorem CybercafeClose_Reachable {system : CybercafeMonitoringSystem}
    (h : Reachable system) : system.CybercafeClose.thrown = none := by
  obtain ⟨order, last, -, -, -, -, hclose⟩ := CybercafeClose_run system (tables_Reachable h)
    (Registered_Reachable h) (Settled_Reachable h) (Reported_Reachable h)
  rw [hclose]

/-! ## The reader of times -/

theorem Char_eq_of_toNat {a b : Char} (h : a.toNat = b.toNat) : a = b :=
  Char.ext (UInt32.ext h)

theorem isdigit_iff (c : Char) : isdigit c = true ↔ 48 ≤ c.toNat ∧ c.toNat ≤ 57 := by
  have d1 : ('0' ≤ c) ↔ 48 ≤ c.toNat := Iff.rfl
  have d2 : (c ≤ '9') ↔ c.toNat ≤ 57 := Iff.rfl
  simp only [isdigit, Bool.and_eq_true, decide_eq_true_eq, d1, d2]

theorem stoi_two (c0 c1 : Char) (h0 : isdigit c0 = true) (h1 : isdigit c1 = true) :
    stoi [c0, c1] = .ok (10 * ((c0.toNat : Int) - 48) + ((c1.toNat : Int) - 48)) := by
  have e : ('0'.toNat : Int) = 48 := rfl
  simp only [stoi, stoi.loop, h0, h1, if_true, e, Except.ok.injEq]
  ring

theorem ParseTime_five (time_token : String) (c0 c1 c2 c3 c4 : Char)
    (h : time_token.data = [c0, c1, c2, c3, c4]) :
    ParseTime time_token
      = if c2 ≠ ':' then .error .invalid_argument
        else if !isdigit c0 || !isdigit c1 || !isdigit c3 || !isdigit c4 then
          .error .invalid_argument
        else if 10 * ((c0.toNat : Int) - 48) + ((c1.toNat : Int) - 48) > 23 then
          .error .invalid_argument
        else if 10 * ((c3.toNat : Int) - 48) + ((c4.toNat : Int) - 48) > 59 then
          .error .invalid_argument
        else .ok ((10 * ((c0.toNat : Int) - 48) + ((c1.toNat : Int) - 48)) * 60
          + (10 * ((c3.toNat : Int) - 48) + ((c4.toNat : Int) - 48))) := by
  unfold ParseTime
  rw [h]
  simp only
  by_cases hc : c2 = ':'
  · by_cases h0 : isdigit c0 = true
    · by_cases h1 : isdigit c1 = true
      · by_cases h3 : isdigit c3 = true
        · by_cases h4 : isdigit c4 = true
          · have g0 := (isdigit_iff c0).mp h0
            have g1 := (isdigit_iff c1).mp h1
            have g3 := (isdigit_iff c3).mp h3
            have g4 := (isdigit_iff c4).mp h4
            have n1 : ¬ 10 * ((c0.toNat : Int) - 48) + ((c1.toNat : Int) - 48) < 0 := by omega
            have n2 : ¬ 10 * ((c3.toNat : Int) - 48) + ((c4.toNat : Int) - 48) < 0 := by omega
            simp only [hc, ne_eq, not_true_eq_false, if_false, h0, h1, h3, h4, Bool.not_true,
              Bool.or_self, Bool.false_eq_true, stoi_two c0 c1 h0 h1, stoi_two c3 c4 h3 h4,
              n1, n2, false_or, gt_iff_lt]
          · simp [hc, h4]
        · simp [hc, h3]
      · simp [hc, h1]
    · simp [hc, h0]
  · simp [hc]

theorem ParseTime_other (time_token : String)
    (h : ∀ c0 c1 c2 c3 c4 : Char, time_token.data ≠ [c0, c1, c2, c3, c4]) :
    ParseTime time_token = .error .invalid_argument := by
  unfold ParseTime
  split
  · rename_i c0 c1 c2 c3 c4 heq
    exact absurd heq (h c0 c1 c2 c3 c4)
  · rfl

theorem ParseTime_ok_iff (time_token : String) (t : Int) :
    ParseTime time_token = .ok t ↔
      ∃ c0 c1 c3 c4 : Char, time_token.data = [c0, c1, ':', c3, c4]
        ∧ isdigit c0 = true ∧ isdigit c1 = true ∧ isdigit c3 = true ∧ isdigit c4 = true
        ∧ 10 * ((c0.toNat : Int) - 48) + ((c1.toNat : Int) - 48) ≤ 23
        ∧ 10 * ((c3.toNat : Int) - 48) + ((c4.toNat : Int) - 48) ≤ 59
        ∧ t = (10 * ((c0.toNat : Int) - 48) + ((c1.toNat : Int) - 48)) * 60
            + (10 * ((c3.toNat : Int) - 48) + ((c4.toNat : Int) - 48)) := by
  constructor
  · intro hok
    by_cases hform : ∃ c0 c1 c2 c3 c4 : Char, time_token.data = [c0, c1, c2, c3, c4]
    · obtain ⟨c0, c1, c2, c3, c4, hdata⟩ := hform
      rw [ParseTime_five time_token c0 c1 c2 c3 c4 hdata] at hok
      split at hok
      · simp at hok
      · rename_i hc
        split at hok
        · simp at hok
        · rename_i hd
          split at hok
          · simp at hok
          · rename_i hh
            split at hok
            · simp at hok
            · rename_i hm
              simp only [ne_eq, not_not] at hc
              simp only [Bool.or_eq_true, Bool.not_eq_true', not_or, Bool.not_eq_false] at hd
              simp only [Except.ok.injEq] at hok
              subst hc
              exact ⟨c0, c1, c3, c4, hdata, hd.1.1.1, hd.1.1.2, hd.1.2, hd.2, by omega,
                by omega, hok.symm⟩
    · rw [ParseTime_other time_token (fun c0 c1 c2 c3 c4 he => hform ⟨c0, c1, c2, c3, c4, he⟩)]
        at hok
      simp at hok
  · rintro ⟨c0, c1, c3, c4, hdata, h0, h1, h3, h4, hh, hm, rfl⟩
    have nh : ¬ 10 * ((c0.toNat : Int) - 48) + ((c1.toNat : Int) - 48) > 23 := by omega
    have nm : ¬ 10 * ((c3.toNat : Int) - 48) + ((c4.toNat : Int) - 48) > 59 := by omega
    rw [ParseTime_five time_token c0 c1 ':' c3 c4 hdata]
    simp only [ne_eq, not_true_eq_false, if_false, h0, h1, h3, h4, Bool.not_true,
      Bool.or_self, Bool.false_eq_true, nh, nm]

theorem ParseTime_failure (time_token : String) (failure : Failure)
    (h : ParseTime time_token = .error failure) : failure = .invalid_argument := by
  by_cases hform : ∃ c0 c1 c2 c3 c4 : Char, time_token.data = [c0, c1, c2, c3, c4]
  · obtain ⟨c0, c1, c2, c3, c4, hdata⟩ := hform
    rw [ParseTime_five time_token c0 c1 c2 c3 c4 hdata] at h
    repeat' split at h
    all_goals simp at h
    all_goals exact h.symm
  · rw [ParseTime_other time_token (fun c0 c1 c2 c3 c4 he => hform ⟨c0, c1, c2, c3, c4, he⟩)]
      at h
    simp only [Except.error.injEq] at h
    exact h.symm

/-! ## The clock -/

theorem mem_assign {k k' : Int} {v v' : Int} {m : List (Int × Int)}
    (h : (k', v') ∈ assign k v m) : (k' = k ∧ v' = v) ∨ (k', v') ∈ m := by
  simp only [assign, List.mem_cons, Prod.mk.injEq] at h
  rcases h with h | h
  · exact Or.inl h
  · exact Or.inr (mem_erase.mp h).1

theorem Clocked.later {now t : Int} {system : CybercafeMonitoringSystem}
    (h : Clocked now system) (le : now ≤ t) : Clocked t system :=
  ⟨fun T since hm => (h.1 T since hm).trans le, h.2⟩

theorem Clocked_departed {t : Int} {system departed : CybercafeMonitoringSystem}
    {c : String} (clocked : Clocked t system)
    (left : system.ProcessClientDeparture c t = .ok departed) : Clocked t departed := by
  obtain ⟨T, since, -, hsince, rfl⟩ := ProcessClientDeparture_ok left
  obtain ⟨h1, h2, h3, h4, h5⟩ := clocked
  have hle : since ≤ t := h1 T since (mem_of_find hsince)
  have husing : 0 ≤ (find T system.tables_daily_using_).getD 0 := by
    cases hf : find T system.tables_daily_using_ with
    | none => simp
    | some v => exact h2 T v (mem_of_find hf)
  have hrevenue : 0 ≤ (find T system.tables_daily_revenue_).getD 0 := by
    cases hf : find T system.tables_daily_revenue_ with
    | none => simp
    | some v => exact h3 T v (mem_of_find hf)
  have hhours : 0 ≤ Int.tdiv (t - since + 59) 60 := by
    rw [Int.tdiv_eq_ediv (by omega) (by omega)]
    omega
  have hbill : 0 ≤ Int.tdiv (t - since + 59) 60 * system.hourly_rate_ :=
    mul_nonneg hhours h5
  refine ⟨fun T' s' hm => h1 T' s' (mem_erase.mp hm).1, fun T' v hm => ?_,
    fun T' v hm => ?_, ?_, h5⟩
  · rcases mem_assign hm with ⟨-, rfl⟩ | hm
    · omega
    · exact h2 T' v hm
  · rcases mem_assign hm with ⟨-, rfl⟩ | hm
    · omega
    · exact h3 T' v hm
  · show 0 ≤ system.total_revenue_ + Int.tdiv (t - since + 59) 60 * system.hourly_rate_
    omega

theorem Tick.clocked {t : Int} {s s' : CybercafeMonitoringSystem}
    (clocked : Clocked t s) (tick : Tick t s s') : Clocked t s' := by
  cases tick with
  | seat c T =>
    obtain ⟨h1, h2⟩ := clocked
    refine ⟨fun T' since hm => ?_, h2⟩
    rcases mem_assign hm with ⟨-, rfl⟩ | hm
    · exact le_refl _
    · exact h1 T' since hm
  | depart c _ left => exact Clocked_departed clocked left
  | idle cl q => exact clocked

theorem Ticks.keep_clocked {t : Int} {s s' : CybercafeMonitoringSystem}
    (ticks : Relation.ReflTransGen (Tick t) s s') (clocked : Clocked t s) : Clocked t s' := by
  induction ticks with
  | refl => exact clocked
  | tail _ tick ih => exact tick.clocked ih

theorem ClientLeft_outgoing_ticks (t : Int) (c : String)
    (system : CybercafeMonitoringSystem) :
    Relation.ReflTransGen (Tick t) system
      (ClientLeftEvent.Handle t c .kOutgoing system).system := by
  by_cases hc : contains c system.clients_at_table_ = true
  · cases hd : system.ProcessClientDeparture c t with
    | error failure =>
      simp only [ClientLeftEvent.Handle, hc, not_true_eq_false, if_false, hd]
      exact Relation.ReflTransGen.refl
    | ok departed =>
      simp only [ClientLeftEvent.Handle, hc, not_true_eq_false, if_false, hd]
      exact Relation.ReflTransGen.single (.depart _ c departed hd)
  · simp only [ClientLeftEvent.Handle, hc, not_false_eq_true, if_true]
    exact Relation.ReflTransGen.single (.idle _ _ _)

theorem ClientSat_ticks (t : Int) (c : String) (T : Int) (type : EventType)
    (system : CybercafeMonitoringSystem) :
    Relation.ReflTransGen (Tick t) system
      (ClientSatAtTableEvent.Handle t c T type system).system := by
  cases type with
  | kOutgoing => exact Relation.ReflTransGen.single (.seat _ c T)
  | kIncoming =>
    cases hfree : system.IsTableFree T with
    | error failure =>
      simp only [ClientSatAtTableEvent.Handle, hfree]
      exact Relation.ReflTransGen.refl
    | ok free =>
      cases free with
      | false =>
        simp only [ClientSatAtTableEvent.Handle, hfree]
        exact Relation.ReflTransGen.refl
      | true =>
        by_cases present : c ∈ system.clients_
        · by_cases hc : contains c system.clients_at_table_ = true
          · cases hd : system.ProcessClientDeparture c t with
            | error failure =>
              simp only [ClientSatAtTableEvent.Handle, hfree, present, not_true_eq_false,
                if_false, hc, if_true, hd]
              exact Relation.ReflTransGen.refl
            | ok departed =>
              simp only [ClientSatAtTableEvent.Handle, hfree, present, not_true_eq_false,
                if_false, hc, if_true, hd]
              exact ((Relation.ReflTransGen.single (.depart _ c departed hd)).tail
                (.idle _ (unordered_set.insert c departed.clients_)
                  departed.waiting_clients_)).tail (.seat _ c T)
          · simp only [ClientSatAtTableEvent.Handle, hfree, present, not_true_eq_false,
              if_false, hc, Bool.false_eq_true]
            exact Relation.ReflTransGen.single (.seat _ c T)
        · simp only [ClientSatAtTableEvent.Handle, hfree, present, not_false_eq_true, if_true]
          exact Relation.ReflTransGen.refl

theorem ClientLeft_ticks (t : Int) (c : String) (type : EventType)
    (system : CybercafeMonitoringSystem) :
    Relation.ReflTransGen (Tick t) system
      (ClientLeftEvent.Handle t c type system).system := by
  cases type with
  | kOutgoing => exact ClientLeft_outgoing_ticks t c system
  | kIncoming =>
    by_cases present : c ∈ system.clients_
    · cases hseat : find c system.clients_at_table_ with
      | none =>
        simp only [ClientLeftEvent.Handle, present, not_true_eq_false, if_false, hseat]
        exact Relation.ReflTransGen.single (.idle _ _ _)
      | some T =>
        cases hd : system.ProcessClientDeparture c t with
        | error failure =>
          simp only [ClientLeftEvent.Handle, present, not_true_eq_false, if_false, hseat, hd]
          exact Relation.ReflTransGen.refl
        | ok departed =>
          cases hq : departed.waiting_clients_ with
          | nil =>
            simp only [ClientLeftEvent.Handle, present, not_true_eq_false, if_false, hseat,
              hd, hq]
            exact Relation.ReflTransGen.single (.depart _ c departed hd)
          | cons front rest =>
            by_cases valid : IsClientNameValid front = true
            · simp only [ClientLeftEvent.Handle, present, not_true_eq_false, if_false, hseat,
                hd, hq, valid, if_true, ClientSatAtTableEvent.Handle, List.tail_cons]
              exact ((Relation.ReflTransGen.single (.depart _ c departed hd)).tail
                (.seat _ front T)).tail (.idle _ departed.clients_ rest)
            · simp only [ClientLeftEvent.Handle, present, not_true_eq_false, if_false, hseat,
                hd, hq, valid, Bool.false_eq_true]
              exact Relation.ReflTransGen.single (.depart _ c departed hd)
    · simp only [ClientLeftEvent.Handle, present, not_false_eq_true, if_true]
      exact Relation.ReflTransGen.refl

theorem ClientWaiting_ticks (t : Int) (c : String) (system : CybercafeMonitoringSystem) :
    Relation.ReflTransGen (Tick t) system (ClientWaitingEvent.Handle t c system).system := by
  unfold ClientWaitingEvent.Handle
  split
  · exact Relation.ReflTransGen.refl
  · split
    · exact Relation.ReflTransGen.refl
    · split
      · split
        · exact ClientLeft_outgoing_ticks t c system
        · exact Relation.ReflTransGen.refl
      · split
        · exact Relation.ReflTransGen.refl
        · exact Relation.ReflTransGen.single (.idle _ system.clients_ _)

theorem Handle_ticks (event : Event) (system : CybercafeMonitoringSystem) :
    Relation.ReflTransGen (Tick event.GetTime) system (event.Handle system).system := by
  cases event with
  | ClientArrivedEvent t c =>
    simp only [Event.Handle, ClientArrivedEvent.Handle, Event.GetTime]
    split
    · exact Relation.ReflTransGen.refl
    · split
      · exact Relation.ReflTransGen.refl
      · exact Relation.ReflTransGen.single (.idle _ _ system.waiting_clients_)
  | ClientSatAtTableEvent t c T type => exact ClientSat_ticks t c T type system
  | ClientWaitingEvent t c => exact ClientWaiting_ticks t c system
  | ClientLeftEvent t c type => exact ClientLeft_ticks t c type system
  | ErrorEvent t m => exact Relation.ReflTransGen.refl

theorem CybercafeClose_loop_ticks (order : List String)
    (system : CybercafeMonitoringSystem) :
    Relation.ReflTransGen (Tick system.closing_time_) system
      (CybercafeMonitoringSystem.CybercafeClose.loop order system).system := by
  induction order generalizing system with
  | nil => exact Relation.ReflTransGen.refl
  | cons c rest ih =>
    have h1 := ClientLeft_outgoing_ticks system.closing_time_ c system
    have hcfg := (ClientLeft_outgoing_steps (fun _ => True) system.closing_time_ c
      system).same_config.2.1
    have h2 := ih (ClientLeftEvent.Handle system.closing_time_ c .kOutgoing system).system
    rw [hcfg] at h2
    unfold CybercafeMonitoringSystem.CybercafeClose.loop
    split
    · simp only
      split
      · exact h1
      · exact Relation.ReflTransGen.trans h1 h2
    · exact Relation.ReflTransGen.refl

theorem Clocked_HandleAll (events : List Event) (system : CybercafeMonitoringSystem)
    (now bound : Int) (clocked : Clocked now system) (le : now ≤ bound)
    (sorted : (events.map Event.GetTime).Pairwise (· ≤ ·))
    (times : ∀ event ∈ events, now ≤ event.GetTime ∧ event.GetTime ≤ bound) :
    Clocked bound (HandleAll events system) := by
  induction events generalizing system now with
  | nil => exact clocked.later le
  | cons event rest ih =>
    obtain ⟨h1, h2⟩ := times event (List.mem_cons_self _ _)
    rw [List.map_cons, List.pairwise_cons] at sorted
    refine ih (event.Handle system).system event.GetTime
      (Ticks.keep_clocked (Handle_ticks event system) (clocked.later h1)) h2 sorted.2 ?_
    intro e he
    exact ⟨sorted.1 e.GetTime (List.mem_map_of_mem _ he),
      (times e (List.mem_cons_of_mem _ he)).2⟩

theorem Clocked_opened (opening_time closing_time N r now : Int) (rate : 0 ≤ r) :
    Clocked now (⟨r, opening_time, closing_time, N, 0, [], [], [], [], [], []⟩ :
      CybercafeMonitoringSystem).CybercafeOpen.system := by
  have hzero : ∀ T v, (T, v) ∈ CybercafeMonitoringSystem.CybercafeOpen.loop N.toNat 1 []
      → 0 ≤ v := by
    intro T v hm
    rcases values_loop _ _ _ v (List.mem_map_of_mem Prod.snd hm) with h | h
    · omega
    · simp at h
  exact ⟨fun T since hm => by simp [CybercafeMonitoringSystem.CybercafeOpen] at hm,
    hzero, hzero, le_refl _, rate⟩

theorem getD_find_nonneg {m : List (Int × Int)} (h : ∀ T v, (T, v) ∈ m → 0 ≤ v) (T : Int) :
    0 ≤ (find T m).getD 0 := by
  cases hf : find T m with
  | none => simp
  | some v => exact h T v (mem_of_find hf)
/-! ## The claims -/

set_option maxRecDepth 8000

/-- C1. Departure accounting: when client `c` is seated at table `T`, occupied
since `s`, and `s ≤ t`, `ProcessClientDeparture` returns; it adds
`⌈(t - s) / 60⌉ * hourly_rate_` to the daily revenue of `T` and to the total
revenue, adds `t - s` to the daily occupied minutes of `T`, removes `c` from
`clients_at_table_` and from `clients_`, removes the occupied-since entry of
`T`, and leaves every other table, every other client, the waiting queue and
the configuration as they were. -/
theorem ProcessClientDeparture_accounting (system : CybercafeMonitoringSystem)
    (c : String) (T s t : Int)
    (seated : find c system.clients_at_table_ = some T)
    (since : find T system.tables_current_using_since_ = some s)
    (later : s ≤ t) :
    ∃ after, system.ProcessClientDeparture c t = .ok after
      ∧ find T after.tables_daily_revenue_
          = some ((find T system.tables_daily_revenue_).getD 0
              + ⌈((t - s : Int) : ℚ) / 60⌉ * system.hourly_rate_)
      ∧ after.total_revenue_
          = system.total_revenue_ + ⌈((t - s : Int) : ℚ) / 60⌉ * system.hourly_rate_
      ∧ find T after.tables_daily_using_
          = some ((find T system.tables_daily_using_).getD 0 + (t - s))
      ∧ find c after.clients_at_table_ = none
      ∧ c ∉ after.clients_
      ∧ find T after.tables_current_using_since_ = none
      ∧ (∀ T', T' ≠ T →
          find T' after.tables_daily_revenue_ = find T' system.tables_daily_revenue_
          ∧ find T' after.tables_daily_using_ = find T' system.tables_daily_using_
          ∧ find T' after.tables_current_using_since_
              = find T' system.tables_current_using_since_)
      ∧ (∀ c', c' ≠ c →
          find c' after.clients_at_table_ = find c' system.clients_at_table_
          ∧ (c' ∈ after.clients_ ↔ c' ∈ system.clients_))
      ∧ after.waiting_clients_ = system.waiting_clients_
      ∧ after.hourly_rate_ = system.hourly_rate_
      ∧ after.tables_count_ = system.tables_count_
      ∧ after.opening_time_ = system.opening_time_
      ∧ after.closing_time_ = system.closing_time_ := by
  simp only [CybercafeMonitoringSystem.ProcessClientDeparture, seated, since]
  refine ⟨_, rfl, ?_, ?_, ?_, ?_, ?_, ?_, ?_, ?_, rfl, rfl, rfl, rfl, rfl⟩
  · simp only [find_assign_self, tdiv_eq_ceil (t - s) (by omega)]
  · simp only [tdiv_eq_ceil (t - s) (by omega)]
  · simp only [find_assign_self]
  · exact find_erase_self _ _
  · simp [unordered_set.mem_erase_iff]
  · exact find_erase_self _ _
  · intro T' h
    exact ⟨find_assign_ne h _ _, find_assign_ne h _ _, find_erase_ne h _⟩
  · intro c' h
    exact ⟨find_erase_ne h _, by simp [unordered_set.mem_erase_iff, h]⟩

/-- Witness of C1: a client seated at table 1 since 10:00 leaves at 11:20. -/
theorem ProcessClientDeparture_accounting_witness :
    ∃ after, (HandleAll sits_down day_opened).ProcessClientDeparture "client1" 680 = .ok after
      ∧ after.total_revenue_
        = (HandleAll sits_down day_opened).total_revenue_
          + ⌈((680 - 600 : Int) : ℚ) / 60⌉ * (HandleAll sits_down day_opened).hourly_rate_ :=
  let ⟨after, h⟩ := ProcessClientDeparture_accounting (HandleAll sits_down day_opened)
    "client1" 1 600 680 (by decide) (by decide) (by decide)
  ⟨after, h.1, h.2.2.1⟩

/-- C2. Single stay: on a day constructed with `N ≥ 1` tables and rate `r`
and opened, for a table `T` in `1 .. N` and times `t0 ≤ t1 ≤ t2` with `t0`
inside the opening hours, handling the arrival of `c` at `t0`, the incoming
seating of `c` at `T` at `t1` and the incoming departure of `c` at `t2` leaves
a total revenue of `⌈(t2 - t1) / 60⌉ * r`, the same daily revenue for `T`,
`t2 - t1` occupied minutes for `T`, table `T` free and `c` not present. -/
theorem single_stay (opening_time closing_time N r : Int) (c : String) (T t0 t1 t2 : Int)
    (tables : 1 ≤ N) (valid : 1 ≤ T ∧ T ≤ N) (_h01 : t0 ≤ t1) (h12 : t1 ≤ t2)
    (working : opening_time ≤ t0 ∧ t0 < closing_time) :
    ∃ system final,
      CybercafeMonitoringSystem.ctor opening_time closing_time N r = .ok system
      ∧ HandleAll [.ClientArrivedEvent t0 c, .ClientSatAtTableEvent t1 c T .kIncoming,
          .ClientLeftEvent t2 c .kIncoming] system.CybercafeOpen.system = final
      ∧ final.GetTotalRevenue = ⌈((t2 - t1 : Int) : ℚ) / 60⌉ * r
      ∧ find T final.tables_daily_revenue_ = some (⌈((t2 - t1 : Int) : ℚ) / 60⌉ * r)
      ∧ find T final.tables_daily_using_ = some (t2 - t1)
      ∧ final.IsTableFree T = .ok true
      ∧ c ∉ final.clients_ := by
  have hN : ¬ N < 1 := by omega
  have hT1 : ¬ T < 1 := by omega
  have hT2 : ¬ N < T := by omega
  have hfree : ¬ (T < 1 ∨ T > N) := by omega
  have hf := find_loop_inside N.toNat 1 [] T valid.1 (by omega)
  refine ⟨_, _, ctor_ok opening_time closing_time N r tables, rfl, ?_⟩
  simp [HandleAll, Event.Handle, ClientArrivedEvent.Handle, ClientSatAtTableEvent.Handle,
    ClientLeftEvent.Handle, CybercafeMonitoringSystem.CybercafeOpen,
    CybercafeMonitoringSystem.IsWorking, CybercafeMonitoringSystem.IsTableFree,
    CybercafeMonitoringSystem.ProcessClientDeparture, CybercafeMonitoringSystem.GetTotalRevenue,
    unordered_set.insert, unordered_set.erase, contains, find, assign, erase,
    working.1, working.2, hN, hT1, hT2, hf, tdiv_eq_ceil (t2 - t1) (by omega)]

/-- Witness of C2: the day of the test `SingleClientOneHourTwentyMinutes`. -/
theorem single_stay_witness :
    ∃ system final,
      CybercafeMonitoringSystem.ctor 600 1320 2 100 = .ok system
      ∧ HandleAll [.ClientArrivedEvent 600 "client1",
          .ClientSatAtTableEvent 600 "client1" 1 .kIncoming,
          .ClientLeftEvent 680 "client1" .kIncoming] system.CybercafeOpen.system = final
      ∧ final.GetTotalRevenue = ⌈((680 - 600 : Int) : ℚ) / 60⌉ * 100
      ∧ find 1 final.tables_daily_revenue_ = some (⌈((680 - 600 : Int) : ℚ) / 60⌉ * 100)
      ∧ find 1 final.tables_daily_using_ = some (680 - 600)
      ∧ final.IsTableFree 1 = .ok true
      ∧ "client1" ∉ final.clients_ :=
  single_stay 600 1320 2 100 "client1" 1 600 600 680 (by decide) (by decide) (by decide)
    (by decide) (by decide)

/-- C3. No double-booking: in a state reached from a constructed and opened
system by handling incoming events, and in the state `CybercafeClose` makes of
it, no two clients are assigned to the same table in `clients_at_table_`. -/
theorem no_double_booking (system : CybercafeMonitoringSystem) (reachable : Reachable system) :
    (∀ c1 c2 T, find c1 system.clients_at_table_ = some T →
        find c2 system.clients_at_table_ = some T → c1 = c2)
    ∧ (∀ c1 c2 T, find c1 system.CybercafeClose.system.clients_at_table_ = some T →
        find c2 system.CybercafeClose.system.clients_at_table_ = some T → c1 = c2) :=
  ⟨(Seating_Reachable reachable).injective,
    (Seating_CybercafeClose system (Seating_Reachable reachable)).injective⟩

/-- Witness of C3: the day `waits_twice`, which `CybercafeClose` ends without
an exception. -/
theorem no_double_booking_witness :
    (HandleAll waits_twice day_opened).CybercafeClose.thrown = none
    ∧ (∀ c1 c2 T, find c1 (HandleAll waits_twice day_opened).clients_at_table_ = some T →
        find c2 (HandleAll waits_twice day_opened).clients_at_table_ = some T → c1 = c2)
    ∧ (∀ c1 c2 T,
        find c1 (HandleAll waits_twice day_opened).CybercafeClose.system.clients_at_table_
          = some T →
        find c2 (HandleAll waits_twice day_opened).CybercafeClose.system.clients_at_table_
          = some T → c1 = c2) :=
  ⟨by decide, no_double_booking (HandleAll waits_twice day_opened) Reachable_waits_twice⟩

/-- C4, evaluated where it fails.  With two tables taken, client `c` asks to
wait twice and is queued twice, since `ClientWaitingEvent::Handle` does not
look for the client in the queue; when table 1 is vacated the front entry is
seated and popped, and `c` is seated at table 1 and still in the waiting
queue. -/
theorem seated_and_waiting :
    Reachable (HandleAll waits_twice day_opened)
    ∧ find "c" (HandleAll waits_twice day_opened).clients_at_table_ = some 1
    ∧ "c" ∈ (HandleAll waits_twice day_opened).waiting_clients_ :=
  ⟨Reachable_waits_twice, by decide, by decide⟩

/-- C5, evaluated where it fails.  After the day `waits_twice` the client of
table 2 leaves too: the second queue entry of `c` is seated at
table 2 by the outgoing `ClientSatAtTableEvent`, which overwrites the seat of
`c` without a departure from table 1.  Table 1 keeps its occupied-since entry
and has no client. -/
theorem occupied_since_without_client :
    Reachable (HandleAll waits_twice_both_leave day_opened)
    ∧ find 1 (HandleAll waits_twice_both_leave day_opened).tables_current_using_since_
        = some 660
    ∧ (∀ c, find c (HandleAll waits_twice_both_leave day_opened).clients_at_table_ ≠ some 1)
    ∧ (HandleAll waits_twice_both_leave day_opened).IsTableFree 1 = .ok true := by
  refine ⟨Reachable_waits_twice_both_leave, by decide, ?_, by decide⟩
  intro c h
  have hm := mem_of_find h
  have : (HandleAll waits_twice_both_leave day_opened).clients_at_table_ = [("c", 2)] := by
    decide
  rw [this] at hm
  simp at hm

/-- C6. Revenue consistency: in every state reached from a constructed and
opened system by handling incoming events, `GetTotalRevenue` equals the sum of
the values of `tables_daily_revenue_`, which is the sum of the daily revenue of
the tables `1 .. tables_count_`. -/
theorem revenue_consistency (system : CybercafeMonitoringSystem) (reachable : Reachable system) :
    system.GetTotalRevenue = (system.tables_daily_revenue_.map Prod.snd).sum
    ∧ system.GetTotalRevenue
        = ∑ T ∈ Finset.Icc 1 system.tables_count_,
            (find T system.tables_daily_revenue_).getD 0 := by
  obtain ⟨-, h2, h3, h4⟩ := Accounted_Reachable reachable
  refine ⟨h4, ?_⟩
  have e : Finset.Icc 1 system.tables_count_
      = (system.tables_daily_revenue_.map Prod.fst).toFinset := by
    ext T
    simp only [Finset.mem_Icc, List.mem_toFinset, h3]
  rw [e, List.sum_toFinset _ h2, unordered_map.map_find_keys h2]
  exact h4

/-- Witness of C6: the day `waits_twice`, with a total revenue of 100. -/
theorem revenue_consistency_witness :
    (HandleAll waits_twice day_opened).GetTotalRevenue = 100
    ∧ (HandleAll waits_twice day_opened).GetTotalRevenue
        = ((HandleAll waits_twice day_opened).tables_daily_revenue_.map Prod.snd).sum
    ∧ (HandleAll waits_twice day_opened).GetTotalRevenue
        = ∑ T ∈ Finset.Icc 1 (HandleAll waits_twice day_opened).tables_count_,
            (find T (HandleAll waits_twice day_opened).tables_daily_revenue_).getD 0 :=
  ⟨by decide, revenue_consistency (HandleAll waits_twice day_opened) Reachable_waits_twice⟩

/-- C7. Business-rule violations do not change state: when handling an
incoming event prints an `ErrorEvent`, no exception is thrown, the system
after the handling is the system before it, and the message is one of the six
business errors. -/
theorem error_changes_nothing (system : CybercafeMonitoringSystem) (event : Event)
    (incoming : event.IsIncoming = true) (time : Int) (message : String)
    (emitted : Output.event (.ErrorEvent time message) ∈ (event.Handle system).printed) :
    (event.Handle system).thrown = none
    ∧ (event.Handle system).system = system
    ∧ message ∈ ["NotOpenYet", "YouShallNotPass", "PlaceIsBusy", "ClientUnknown",
        "ICanWaitNoLonger!", "YouAlreadyAtTable!"] := by
  cases event with
  | ClientArrivedEvent t c =>
    revert emitted
    simp only [Event.Handle, ClientArrivedEvent.Handle]
    repeat' split
    all_goals simp
    all_goals (rintro - rfl; trivial)
  | ClientSatAtTableEvent t c T type =>
    cases type with
    | kOutgoing => simp [Event.IsIncoming] at incoming
    | kIncoming =>
      revert emitted
      simp only [Event.Handle, ClientSatAtTableEvent.Handle]
      repeat' split
      all_goals simp
      all_goals (rintro - rfl; trivial)
  | ClientWaitingEvent t c =>
    revert emitted
    simp only [Event.Handle, ClientWaitingEvent.Handle, ClientLeftEvent.Handle]
    repeat' split
    all_goals simp
    all_goals (rintro - rfl; trivial)
  | ClientLeftEvent t c type =>
    cases type with
    | kOutgoing => simp [Event.IsIncoming] at incoming
    | kIncoming =>
      revert emitted
      simp only [Event.Handle, ClientLeftEvent.Handle, ClientSatAtTableEvent.Handle]
      repeat' split
      all_goals simp
      all_goals (rintro - rfl; trivial)
  | ErrorEvent t m => simp [Event.IsIncoming] at incoming

/-- Witness of C7: an arrival at 08:20, before the opening. -/
theorem error_changes_nothing_witness :
    Output.event (.ErrorEvent 500 "NotOpenYet")
        ∈ ((Event.ClientArrivedEvent 500 "client1").Handle day_opened).printed
    ∧ ((Event.ClientArrivedEvent 500 "client1").Handle day_opened).thrown = none
    ∧ ((Event.ClientArrivedEvent 500 "client1").Handle day_opened).system = day_opened
    ∧ "NotOpenYet" ∈ ["NotOpenYet", "YouShallNotPass", "PlaceIsBusy", "ClientUnknown",
        "ICanWaitNoLonger!", "YouAlreadyAtTable!"] :=
  ⟨by decide, error_changes_nothing day_opened (.ClientArrivedEvent 500 "client1") (by decide)
    500 "NotOpenYet" (by decide)⟩

/-- C8. ClientArrived rule: handling the arrival of `c` at `t` (1) prints
`YouShallNotPass` and changes nothing when `c` is in `clients_`, whatever the
time; (2) otherwise prints `NotOpenYet` and changes nothing when `t` is not in
`opening_time_ ≤ t < closing_time_`; (3) otherwise prints no error, throws
nothing, and changes only `clients_`, to which `c` is added. -/
theorem ClientArrived_rule (system : CybercafeMonitoringSystem) (t : Int) (c : String) :
    (c ∈ system.clients_ →
      (Event.ClientArrivedEvent t c).Handle system
        = ⟨system, [Output.event (.ClientArrivedEvent t c),
            Output.event (.ErrorEvent t "YouShallNotPass")], none⟩)
    ∧ (c ∉ system.clients_ → ¬ (system.opening_time_ ≤ t ∧ t < system.closing_time_) →
      (Event.ClientArrivedEvent t c).Handle system
        = ⟨system, [Output.event (.ClientArrivedEvent t c),
            Output.event (.ErrorEvent t "NotOpenYet")], none⟩)
    ∧ (c ∉ system.clients_ → system.opening_time_ ≤ t ∧ t < system.closing_time_ →
      ((Event.ClientArrivedEvent t c).Handle system).thrown = none
      ∧ ((Event.ClientArrivedEvent t c).Handle system).printed
          = [Output.event (.ClientArrivedEvent t c)]
      ∧ (∀ x, x ∈ ((Event.ClientArrivedEvent t c).Handle system).system.clients_
          ↔ x = c ∨ x ∈ system.clients_)
      ∧ ((Event.ClientArrivedEvent t c).Handle system).system
          = { system with
              clients_ := ((Event.ClientArrivedEvent t c).Handle system).system.clients_ }) := by
  refine ⟨?_, ?_, ?_⟩
  · intro known
    simp [Event.Handle, ClientArrivedEvent.Handle, known]
  · intro unknown closed
    have : system.IsWorking t = false := by
      simp only [CybercafeMonitoringSystem.IsWorking, ge_iff_le, Bool.and_eq_false_imp,
        decide_eq_true_eq, decide_eq_false_iff_not]
      intro h1 h2
      exact closed ⟨h1, h2⟩
    simp [Event.Handle, ClientArrivedEvent.Handle, unknown, this]
  · intro unknown working
    have : system.IsWorking t = true := by
      simp [CybercafeMonitoringSystem.IsWorking, working.1, working.2]
    simp [Event.Handle, ClientArrivedEvent.Handle, unknown, this, unordered_set.mem_insert_iff]

/-- Witness of C8: the first arrival of the day, at opening time. -/
theorem ClientArrived_rule_witness :
    ((Event.ClientArrivedEvent 600 "client1").Handle day_opened).thrown = none
    ∧ ((Event.ClientArrivedEvent 600 "client1").Handle day_opened).printed
        = [Output.event (.ClientArrivedEvent 600 "client1")]
    ∧ (∀ x, x ∈ ((Event.ClientArrivedEvent 600 "client1").Handle day_opened).system.clients_
        ↔ x = "client1" ∨ x ∈ day_opened.clients_)
    ∧ ((Event.ClientArrivedEvent 600 "client1").Handle day_opened).system
        = { day_opened with
            clients_ :=
              ((Event.ClientArrivedEvent 600 "client1").Handle day_opened).system.clients_ } :=
  (ClientArrived_rule day_opened 600 "client1").2.2 (by decide) (by decide)

/-- C9. Incoming ClientSat rule, for a table id `T` in `1 .. tables_count_`:
handling the incoming seating of `c` at `T` at `t` (1) prints `PlaceIsBusy`
and changes nothing when some client is assigned to `T`, whoever `c` is;
(2) otherwise prints `ClientUnknown` and changes nothing when `c` is not in
`clients_`; (3) otherwise, `c` being present and not seated, prints no error,
sets the table of `c` to `T` and the occupied-since time of `T` to `t`, and
changes nothing else. -/
theorem ClientSat_rule (system : CybercafeMonitoringSystem) (t : Int) (c : String) (T : Int)
    (valid : 1 ≤ T ∧ T ≤ system.tables_count_) :
    ((∃ c', (c', T) ∈ system.clients_at_table_) →
      (Event.ClientSatAtTableEvent t c T .kIncoming).Handle system
        = ⟨system, [Output.event (.ClientSatAtTableEvent t c T .kIncoming),
            Output.event (.ErrorEvent t "PlaceIsBusy")], none⟩)
    ∧ ((∀ c', (c', T) ∉ system.clients_at_table_) → c ∉ system.clients_ →
      (Event.ClientSatAtTableEvent t c T .kIncoming).Handle system
        = ⟨system, [Output.event (.ClientSatAtTableEvent t c T .kIncoming),
            Output.event (.ErrorEvent t "ClientUnknown")], none⟩)
    ∧ ((∀ c', (c', T) ∉ system.clients_at_table_) → c ∈ system.clients_ →
        find c system.clients_at_table_ = none →
      ((Event.ClientSatAtTableEvent t c T .kIncoming).Handle system).thrown = none
      ∧ ((Event.ClientSatAtTableEvent t c T .kIncoming).Handle system).printed
          = [Output.event (.ClientSatAtTableEvent t c T .kIncoming)]
      ∧ find c ((Event.ClientSatAtTableEvent t c T .kIncoming).Handle system).system.clients_at_table_
          = some T
      ∧ find T ((Event.ClientSatAtTableEvent t c T .kIncoming).Handle
            system).system.tables_current_using_since_ = some t
      ∧ (∀ c', c' ≠ c →
          find c' ((Event.ClientSatAtTableEvent t c T .kIncoming).Handle
              system).system.clients_at_table_ = find c' system.clients_at_table_)
      ∧ (∀ T', T' ≠ T →
          find T' ((Event.ClientSatAtTableEvent t c T .kIncoming).Handle
              system).system.tables_current_using_since_
            = find T' system.tables_current_using_since_)
      ∧ ((Event.ClientSatAtTableEvent t c T .kIncoming).Handle system).system
          = { system with
              clients_at_table_ :=
                ((Event.ClientSatAtTableEvent t c T .kIncoming).Handle
                  system).system.clients_at_table_
              tables_current_using_since_ :=
                ((Event.ClientSatAtTableEvent t c T .kIncoming).Handle
                  system).system.tables_current_using_since_ }) := by
  have hrange : ¬ (T < 1 ∨ T > system.tables_count_) := by omega
  refine ⟨?_, ?_, ?_⟩
  · rintro ⟨c', busy⟩
    have : system.IsTableFree T = .ok false := by
      simp only [CybercafeMonitoringSystem.IsTableFree, hrange, if_false, Except.ok.injEq,
        List.all_eq_false]
      exact ⟨(c', T), busy, by simp⟩
    simp [Event.Handle, ClientSatAtTableEvent.Handle, this]
  · intro free unknown
    have : system.IsTableFree T = .ok true := by
      simp only [CybercafeMonitoringSystem.IsTableFree, hrange, if_false, Except.ok.injEq,
        List.all_eq_true, decide_eq_true_eq]
      rintro ⟨c', T'⟩ hm rfl
      exact free c' hm
    simp [Event.Handle, ClientSatAtTableEvent.Handle, this, unknown]
  · intro free known standing
    have : system.IsTableFree T = .ok true := by
      simp only [CybercafeMonitoringSystem.IsTableFree, hrange, if_false, Except.ok.injEq,
        List.all_eq_true, decide_eq_true_eq]
      rintro ⟨c', T'⟩ hm rfl
      exact free c' hm
    have hc : contains c system.clients_at_table_ = false := by
      simp [contains, standing]
    simp only [Event.Handle, ClientSatAtTableEvent.Handle, this, known, hc, not_true_eq_false,
      if_false, Bool.false_eq_true, find_assign_self, true_and]
    exact ⟨fun c' h => find_assign_ne h _ _, fun T' h => find_assign_ne h _ _, trivial⟩

/-- Witness of C9: a second client asks for the table the first one has. -/
theorem ClientSat_rule_witness :
    ((Event.ClientSatAtTableEvent 600 "client2" 1 .kIncoming).Handle
        (HandleAll sits_down day_opened))
      = ⟨HandleAll sits_down day_opened,
          [Output.event (.ClientSatAtTableEvent 600 "client2" 1 .kIncoming),
            Output.event (.ErrorEvent 600 "PlaceIsBusy")], none⟩ :=
  (ClientSat_rule (HandleAll sits_down day_opened) 600 "client2" 1 (by decide)).1
    ⟨"client1", by decide⟩

/-- The table switch in a state where `c` is the only client assigned to
table `A`: the stay at `A` is billed, `A` is left without a client, `c` is
seated at `B`, and a departure of `c` handled next bills the stay at `B`
only. -/
theorem table_switch_of_alone (system : CybercafeMonitoringSystem) (c : String) (A B s t : Int)
    (present : c ∈ system.clients_)
    (seated : find c system.clients_at_table_ = some A)
    (occupied : find A system.tables_current_using_since_ = some s)
    (alone : ∀ c', (c', A) ∈ system.clients_at_table_ → c' = c)
    (other : B ≠ A) (valid : 1 ≤ B ∧ B ≤ system.tables_count_)
    (free : ∀ c', (c', B) ∉ system.clients_at_table_) (later : s ≤ t) :
    ∃ after,
      (Event.ClientSatAtTableEvent t c B .kIncoming).Handle system
        = ⟨after, [Output.event (.ClientSatAtTableEvent t c B .kIncoming)], none⟩
      ∧ find A after.tables_daily_revenue_
          = some ((find A system.tables_daily_revenue_).getD 0
              + ⌈((t - s : Int) : ℚ) / 60⌉ * system.hourly_rate_)
      ∧ after.total_revenue_
          = system.total_revenue_ + ⌈((t - s : Int) : ℚ) / 60⌉ * system.hourly_rate_
      ∧ find A after.tables_daily_using_
          = some ((find A system.tables_daily_using_).getD 0 + (t - s))
      ∧ (∀ c', (c', A) ∉ after.clients_at_table_)
      ∧ c ∈ after.clients_
      ∧ find c after.clients_at_table_ = some B
      ∧ find B after.tables_current_using_since_ = some t
      ∧ (∀ t', t ≤ t' →
          find B ((Event.ClientLeftEvent t' c .kIncoming).Handle after).system.tables_daily_revenue_
            = some ((find B after.tables_daily_revenue_).getD 0
                + ⌈((t' - t : Int) : ℚ) / 60⌉ * after.hourly_rate_)
          ∧ ((Event.ClientLeftEvent t' c .kIncoming).Handle after).system.total_revenue_
            = after.total_revenue_ + ⌈((t' - t : Int) : ℚ) / 60⌉ * after.hourly_rate_
          ∧ find A ((Event.ClientLeftEvent t' c .kIncoming).Handle after).system.tables_daily_revenue_
            = find A after.tables_daily_revenue_) := by
  have hrange : ¬ (B < 1 ∨ B > system.tables_count_) := by omega
  have hfree : system.IsTableFree B = .ok true := by
    simp only [CybercafeMonitoringSystem.IsTableFree, hrange, if_false, Except.ok.injEq,
      List.all_eq_true, decide_eq_true_eq]
    rintro ⟨c', T'⟩ hm rfl
    exact free c' hm
  have hc : contains c system.clients_at_table_ = true := by simp [contains, seated]
  have hd := ProcessClientDeparture_of_seated t seated occupied
  have hAB : A ≠ B := fun e => other e.symm
  have hh : (Event.ClientSatAtTableEvent t c B .kIncoming).Handle system
      = ⟨((Event.ClientSatAtTableEvent t c B .kIncoming).Handle system).system,
          [Output.event (.ClientSatAtTableEvent t c B .kIncoming)], none⟩ := by
    simp only [Event.Handle, ClientSatAtTableEvent.Handle, hfree, present, not_true_eq_false,
      if_false, hc, if_true, hd]
  have hs : ((Event.ClientSatAtTableEvent t c B .kIncoming).Handle system).system
      = { system with
          tables_daily_using_ :=
            assign A ((find A system.tables_daily_using_).getD 0 + (t - s))
              system.tables_daily_using_
          tables_daily_revenue_ :=
            assign A ((find A system.tables_daily_revenue_).getD 0
                + Int.tdiv (t - s + 59) 60 * system.hourly_rate_)
              system.tables_daily_revenue_
          total_revenue_ :=
            system.total_revenue_ + Int.tdiv (t - s + 59) 60 * system.hourly_rate_
          clients_ := unordered_set.insert c (unordered_set.erase c system.clients_)
          clients_at_table_ := assign c B (erase c system.clients_at_table_)
          tables_current_using_since_ :=
            assign B t (erase A system.tables_current_using_since_) } := by
    simp only [Event.Handle, ClientSatAtTableEvent.Handle, hfree, present, not_true_eq_false,
      if_false, hc, if_true, hd]
  generalize ((Event.ClientSatAtTableEvent t c B .kIncoming).Handle system).system = after
    at hh hs
  have hpresent : c ∈ after.clients_ := by
    rw [hs]
    simp [unordered_set.mem_insert_iff]
  have hseat : find c after.clients_at_table_ = some B := by
    rw [hs]
    exact find_assign_self _ _ _
  have hsince : find B after.tables_current_using_since_ = some t := by
    rw [hs]
    exact find_assign_self _ _ _
  refine ⟨after, hh, ?_, ?_, ?_, ?_, hpresent, hseat, hsince, ?_⟩
  · rw [hs]
    simp only [find_assign_self, tdiv_eq_ceil (t - s) (by omega)]
  · rw [hs]
    simp only [tdiv_eq_ceil (t - s) (by omega)]
  · rw [hs]
    simp only [find_assign_self]
  · intro c' hm
    rw [hs] at hm
    simp only [assign, List.mem_cons, Prod.mk.injEq] at hm
    rcases hm with ⟨-, h⟩ | hm
    · exact hAB h
    · have h1 := (mem_erase.mp hm).1
      have h2 := (mem_erase.mp h1)
      exact h2.2 (alone c' h2.1)
  · intro t' ht'
    obtain ⟨h1, h2, h3⟩ := ClientLeft_incoming_bill after c B t t' hpresent hseat hsince ht'
    exact ⟨h1, h2, h3 A hAB⟩

/-- C10. Table switch: in a state reached from a constructed and opened system
by handling incoming events, when `c` is present and seated at table `A`,
occupied since `s`, and `B ≠ A` in `1 .. tables_count_` is free and `s ≤ t`,
handling the incoming seating of `c` at `B` at `t` throws nothing and prints
no error; it adds `⌈(t - s) / 60⌉ * hourly_rate_` to the daily revenue of `A`
and to the total revenue and `t - s` to the occupied minutes of `A`, leaves
`A` without a client and `c` present, and seats `c` at `B`, occupied since
`t`.  A departure of `c` at `t' ≥ t` then adds `⌈(t' - t) / 60⌉ * hourly_rate_`
to the daily revenue of `B` and to the total revenue, and nothing to the daily
revenue of `A`. -/
theorem table_switch (system : CybercafeMonitoringSystem) (reachable : Reachable system)
    (c : String) (A B s t : Int)
    (present : c ∈ system.clients_)
    (seated : find c system.clients_at_table_ = some A)
    (occupied : find A system.tables_current_using_since_ = some s)
    (other : B ≠ A) (valid : 1 ≤ B ∧ B ≤ system.tables_count_)
    (free : ∀ c', (c', B) ∉ system.clients_at_table_) (later : s ≤ t) :
    ∃ after,
      (Event.ClientSatAtTableEvent t c B .kIncoming).Handle system
        = ⟨after, [Output.event (.ClientSatAtTableEvent t c B .kIncoming)], none⟩
      ∧ find A after.tables_daily_revenue_
          = some ((find A system.tables_daily_revenue_).getD 0
              + ⌈((t - s : Int) : ℚ) / 60⌉ * system.hourly_rate_)
      ∧ after.total_revenue_
          = system.total_revenue_ + ⌈((t - s : Int) : ℚ) / 60⌉ * system.hourly_rate_
      ∧ find A after.tables_daily_using_
          = some ((find A system.tables_daily_using_).getD 0 + (t - s))
      ∧ (∀ c', (c', A) ∉ after.clients_at_table_)
      ∧ c ∈ after.clients_
      ∧ find c after.clients_at_table_ = some B
      ∧ find B after.tables_current_using_since_ = some t
      ∧ (∀ t', t ≤ t' →
          find B ((Event.ClientLeftEvent t' c .kIncoming).Handle after).system.tables_daily_revenue_
            = some ((find B after.tables_daily_revenue_).getD 0
                + ⌈((t' - t : Int) : ℚ) / 60⌉ * after.hourly_rate_)
          ∧ ((Event.ClientLeftEvent t' c .kIncoming).Handle after).system.total_revenue_
            = after.total_revenue_ + ⌈((t' - t : Int) : ℚ) / 60⌉ * after.hourly_rate_
          ∧ find A ((Event.ClientLeftEvent t' c .kIncoming).Handle after).system.tables_daily_revenue_
            = find A after.tables_daily_revenue_) :=
  table_switch_of_alone system c A B s t present seated occupied
    (fun _ hm => (Seating_Reachable reachable).unique hm (mem_of_find seated))
    other valid free later

/-- Witness of C10: the switch of the test
`ClientsSwitchingTablesRevenueAccumulates`. -/
theorem table_switch_witness :
    ∃ after,
      (Event.ClientSatAtTableEvent 630 "client1" 2 .kIncoming).Handle
          (HandleAll sits_down day_opened)
        = ⟨after, [Output.event (.ClientSatAtTableEvent 630 "client1" 2 .kIncoming)], none⟩
      ∧ after.total_revenue_
          = (HandleAll sits_down day_opened).total_revenue_
            + ⌈((630 - 600 : Int) : ℚ) / 60⌉ * (HandleAll sits_down day_opened).hourly_rate_
      ∧ (∀ c', (c', (1 : Int)) ∉ after.clients_at_table_)
      ∧ find "client1" after.clients_at_table_ = some 2 :=
  have seats : (HandleAll sits_down day_opened).clients_at_table_ = [("client1", 1)] := by
    decide
  let ⟨after, h⟩ := table_switch (HandleAll sits_down day_opened)
    (Reachable_HandleAll Reachable_day_opened sits_down (by decide)) "client1" 1 2 600 630
    (by decide) (by decide) (by decide) (by decide) (by decide)
    (by intro c' hm; rw [seats] at hm; simp at hm)
    (by decide)
  ⟨after, h.1, h.2.2.1, h.2.2.2.2.1, h.2.2.2.2.2.2.1⟩
/-- C11, amended.  Re-sit onto the own table: when `c` is seated at table
`T`, handling the incoming seating of `c` at `T` prints `PlaceIsBusy` and
changes nothing for `T` in `1 .. tables_count_` (`IsTableFree` is asked first
and finds `c` there), and throws `std::invalid_argument` and changes nothing
for any other `T`: no departure accounting is run and no new stay is
opened. -/
theorem resit_own_table (system : CybercafeMonitoringSystem) (c : String) (T t : Int)
    (seated : find c system.clients_at_table_ = some T) :
    (1 ≤ T ∧ T ≤ system.tables_count_ →
      (Event.ClientSatAtTableEvent t c T .kIncoming).Handle system
        = ⟨system, [Output.event (.ClientSatAtTableEvent t c T .kIncoming),
            Output.event (.ErrorEvent t "PlaceIsBusy")], none⟩)
    ∧ (¬ (1 ≤ T ∧ T ≤ system.tables_count_) →
      (Event.ClientSatAtTableEvent t c T .kIncoming).Handle system
        = ⟨system, [Output.event (.ClientSatAtTableEvent t c T .kIncoming)],
            some .invalid_argument⟩) := by
  constructor
  · intro range
    simp [Event.Handle, ClientSatAtTableEvent.Handle, IsTableFree_busy range (mem_of_find seated)]
  · intro range
    simp [Event.Handle, ClientSatAtTableEvent.Handle, IsTableFree_outside range]

/-- Counterexample of C11 as stated: `client1`, seated at table 1 since 10:00,
asks for table 1 at 10:30; `PlaceIsBusy` is printed, the system is unchanged
and table 1 stays occupied since 10:00. -/
theorem resit_own_table_is_refused :
    "client1" ∈ (HandleAll sits_down day_opened).clients_
    ∧ find "client1" (HandleAll sits_down day_opened).clients_at_table_ = some 1
    ∧ find 1 (HandleAll sits_down day_opened).tables_current_using_since_ = some 600
    ∧ (600 : Int) ≤ 630
    ∧ (Event.ClientSatAtTableEvent 630 "client1" 1 .kIncoming).Handle
          (HandleAll sits_down day_opened)
        = ⟨HandleAll sits_down day_opened,
            [Output.event (.ClientSatAtTableEvent 630 "client1" 1 .kIncoming),
              Output.event (.ErrorEvent 630 "PlaceIsBusy")], none⟩
    ∧ find 1 ((Event.ClientSatAtTableEvent 630 "client1" 1 .kIncoming).Handle
          (HandleAll sits_down day_opened)).system.tables_current_using_since_ ≠ some 630 := by
  decide

/-- Witness of C11, amended: the same request. -/
theorem resit_own_table_witness :
    (Event.ClientSatAtTableEvent 630 "client1" 1 .kIncoming).Handle
        (HandleAll sits_down day_opened)
      = ⟨HandleAll sits_down day_opened,
          [Output.event (.ClientSatAtTableEvent 630 "client1" 1 .kIncoming),
            Output.event (.ErrorEvent 630 "PlaceIsBusy")], none⟩ :=
  (resit_own_table (HandleAll sits_down day_opened) "client1" 1 630 (by decide)).1 (by decide)

/-- C12. ClientWaiting rule, for a client name the event constructor accepts;
the first case that applies decides: (1) `ICanWaitNoLonger!` when
`IsAvailableTableExists`; (2) else `YouAlreadyAtTable!` when `c` is seated;
(3) else, when the queue holds `tables_count_` clients or more, an outgoing
`ClientLeftEvent` for `c` at `t` is handled, which removes `c` from
`clients_` and from the queue, also when `c` is unknown, and `c` is not
queued; (4) else `ClientUnknown` when `c` is not in `clients_`; (5) else `c`
is appended to the queue and nothing else changes.  In (1), (2) and (4) the
system is unchanged. -/
theorem ClientWaiting_rule (system : CybercafeMonitoringSystem) (t : Int) (c : String)
    (valid : IsClientNameValid c = true) :
    (system.IsAvailableTableExists = true →
      (Event.ClientWaitingEvent t c).Handle system
        = ⟨system, [Output.event (.ClientWaitingEvent t c),
            Output.event (.ErrorEvent t "ICanWaitNoLonger!")], none⟩)
    ∧ (system.IsAvailableTableExists = false →
        (∃ T, find c system.clients_at_table_ = some T) →
      (Event.ClientWaitingEvent t c).Handle system
        = ⟨system, [Output.event (.ClientWaitingEvent t c),
            Output.event (.ErrorEvent t "YouAlreadyAtTable!")], none⟩)
    ∧ (system.IsAvailableTableExists = false → find c system.clients_at_table_ = none →
        (system.waiting_clients_.length : Int) ≥ system.tables_count_ →
      (Event.ClientWaitingEvent t c).Handle system
        = ⟨((Event.ClientLeftEvent t c .kOutgoing).Handle system).system,
            [Output.event (.ClientWaitingEvent t c),
              Output.event (.ClientLeftEvent t c .kOutgoing)], none⟩
      ∧ ((Event.ClientLeftEvent t c .kOutgoing).Handle system).system
        = { system with
            clients_ := unordered_set.erase c system.clients_
            waiting_clients_ := deque.remove c system.waiting_clients_ }
      ∧ c ∉ ((Event.ClientWaitingEvent t c).Handle system).system.waiting_clients_)
    ∧ (system.IsAvailableTableExists = false → find c system.clients_at_table_ = none →
        (system.waiting_clients_.length : Int) < system.tables_count_ →
        c ∉ system.clients_ →
      (Event.ClientWaitingEvent t c).Handle system
        = ⟨system, [Output.event (.ClientWaitingEvent t c),
            Output.event (.ErrorEvent t "ClientUnknown")], none⟩)
    ∧ (system.IsAvailableTableExists = false → find c system.clients_at_table_ = none →
        (system.waiting_clients_.length : Int) < system.tables_count_ →
        c ∈ system.clients_ →
      (Event.ClientWaitingEvent t c).Handle system
        = ⟨{ system with waiting_clients_ := system.waiting_clients_ ++ [c] },
            [Output.event (.ClientWaitingEvent t c)], none⟩) := by
  refine ⟨?_, ?_, ?_, ?_, ?_⟩
  · intro free
    simp [Event.Handle, ClientWaitingEvent.Handle, free]
  · rintro full ⟨T, seated⟩
    simp [Event.Handle, ClientWaitingEvent.Handle, full, mem_find_isSome seated]
  · intro full standing queue
    have hc : contains c system.clients_at_table_ = false := by simp [contains, standing]
    simp [Event.Handle, ClientWaitingEvent.Handle, ClientLeftEvent.Handle, full, hc, queue,
      valid, deque.remove]
  · intro full standing queue unknown
    have hc : contains c system.clients_at_table_ = false := by simp [contains, standing]
    have hq : ¬ (system.waiting_clients_.length : Int) ≥ system.tables_count_ := by omega
    simp [Event.Handle, ClientWaitingEvent.Handle, full, hc, hq, unknown]
  · intro full standing queue known
    have hc : contains c system.clients_at_table_ = false := by simp [contains, standing]
    have hq : ¬ (system.waiting_clients_.length : Int) ≥ system.tables_count_ := by omega
    simp [Event.Handle, ClientWaitingEvent.Handle, full, hc, hq, known]

/-- Witness of C12: a client asks to wait while table 2 is free. -/
theorem ClientWaiting_rule_witness :
    (Event.ClientWaitingEvent 600 "client2").Handle (HandleAll sits_down day_opened)
      = ⟨HandleAll sits_down day_opened,
          [Output.event (.ClientWaitingEvent 600 "client2"),
            Output.event (.ErrorEvent 600 "ICanWaitNoLonger!")], none⟩ :=
  (ClientWaiting_rule (HandleAll sits_down day_opened) 600 "client2" (by decide)).1 (by decide)

/-- C13. Full-queue ejection: when `tables_count_ ≥ 1`, every table
`1 .. tables_count_` has a client, the queue holds `tables_count_` clients,
and `c` is present, not seated and not queued, handling the waiting of `c`
prints the event, one outgoing `ClientLeftEvent` for `c` and no error, throws
nothing, and changes only `clients_`, from which `c` is removed: the queue,
the seating, the occupied-since times and the accounting stay as they
were. -/
theorem full_queue_ejection (system : CybercafeMonitoringSystem) (t : Int) (c : String)
    (valid : IsClientNameValid c = true)
    (tables : 1 ≤ system.tables_count_)
    (full : ∀ T, 1 ≤ T → T ≤ system.tables_count_ → ∃ c', (c', T) ∈ system.clients_at_table_)
    (queue : (system.waiting_clients_.length : Int) = system.tables_count_)
    (_present : c ∈ system.clients_)
    (standing : find c system.clients_at_table_ = none)
    (not_queued : c ∉ system.waiting_clients_) :
    (Event.ClientWaitingEvent t c).Handle system
      = ⟨{ system with clients_ := unordered_set.erase c system.clients_ },
          [Output.event (.ClientWaitingEvent t c),
            Output.event (.ClientLeftEvent t c .kOutgoing)], none⟩
    ∧ c ∉ unordered_set.erase c system.clients_
    ∧ (∀ x, x ≠ c → (x ∈ unordered_set.erase c system.clients_ ↔ x ∈ system.clients_)) := by
  have hlen := length_ge_of_full full
  have hfull : system.IsAvailableTableExists = false := by
    simp only [CybercafeMonitoringSystem.IsAvailableTableExists, decide_eq_false_iff_not, not_lt]
    have h64 : (2 : Int) ^ 64 = 18446744073709551616 := by norm_num
    rw [h64]
    omega
  have hc : contains c system.clients_at_table_ = false := by simp [contains, standing]
  refine ⟨?_, ?_, ?_⟩
  · simp [Event.Handle, ClientWaitingEvent.Handle, ClientLeftEvent.Handle, hfull, hc, queue,
      valid, remove_of_not_mem not_queued]
  · simp [unordered_set.mem_erase_iff]
  · intro x hx
    simp [unordered_set.mem_erase_iff, hx]

/-- Witness of C13: the fifth client of the day `queue_full` asks to wait. -/
theorem full_queue_ejection_witness :
    (Event.ClientWaitingEvent 610 "e").Handle (HandleAll queue_full day_opened)
      = ⟨{ HandleAll queue_full day_opened with
            clients_ := unordered_set.erase "e" (HandleAll queue_full day_opened).clients_ },
          [Output.event (.ClientWaitingEvent 610 "e"),
            Output.event (.ClientLeftEvent 610 "e" .kOutgoing)], none⟩ :=
  have count : (HandleAll queue_full day_opened).tables_count_ = 2 := by decide
  (full_queue_ejection (HandleAll queue_full day_opened) 610 "e" (by decide) (by decide)
    (by
      intro T h1 h2
      rw [count] at h2
      have hT : T = 1 ∨ T = 2 := by omega
      rcases hT with rfl | rfl
      · exact ⟨"a", by decide⟩
      · exact ⟨"b", by decide⟩)
    (by decide) (by decide) (by decide) (by decide)).1

/-- The incoming departure of a seated client `c` whose table `T` has an
occupied-since entry and no other client: `ProcessClientDeparture`, then the
front of the queue, if there is one, is seated at `T`. -/
theorem ClientLeft_promotion_of_alone (system : CybercafeMonitoringSystem) (c : String) (T s t : Int)
    (present : c ∈ system.clients_)
    (seated : find c system.clients_at_table_ = some T)
    (occupied : find T system.tables_current_using_since_ = some s)
    (alone : ∀ c', (c', T) ∈ system.clients_at_table_ → c' = c) :
    ∃ departed, system.ProcessClientDeparture c t = .ok departed
      ∧ (system.waiting_clients_ = [] →
          (Event.ClientLeftEvent t c .kIncoming).Handle system
            = ⟨departed, [Output.event (.ClientLeftEvent t c .kIncoming)], none⟩
          ∧ ∀ c', (c', T) ∉ departed.clients_at_table_)
      ∧ (∀ h rest, system.waiting_clients_ = h :: rest → IsClientNameValid h = true →
          (Event.ClientLeftEvent t c .kIncoming).Handle system
            = ⟨{ departed with
                  clients_at_table_ := assign h T departed.clients_at_table_
                  tables_current_using_since_ :=
                    assign T t departed.tables_current_using_since_
                  waiting_clients_ := rest },
                [Output.event (.ClientLeftEvent t c .kIncoming),
                  Output.event (.ClientSatAtTableEvent t h T .kOutgoing)], none⟩
          ∧ find h (assign h T departed.clients_at_table_) = some T
          ∧ find T (assign T t departed.tables_current_using_since_) = some t
          ∧ (∀ c', (c', T) ∈ assign h T departed.clients_at_table_ ↔ c' = h)) := by
  have hd := ProcessClientDeparture_of_seated t seated occupied
  refine ⟨_, hd, ?_, ?_⟩
  · intro empty
    refine ⟨?_, ?_⟩
    · simp only [Event.Handle, ClientLeftEvent.Handle, present, not_true_eq_false, if_false,
        seated, hd, empty]
    · exact not_mem_erase_of_alone alone
  · intro h rest queue valid
    refine ⟨?_, find_assign_self _ _ _, find_assign_self _ _ _, ?_⟩
    · simp only [Event.Handle, ClientLeftEvent.Handle, present, not_true_eq_false, if_false,
        seated, hd, queue, valid, if_true, ClientSatAtTableEvent.Handle, List.tail_cons]
    · intro c'
      simp only [assign, List.mem_cons, Prod.mk.injEq, and_true]
      constructor
      · rintro (h1 | h1)
        · exact h1
        · exact absurd (mem_erase.mp h1).1 (not_mem_erase_of_alone alone c')
      · exact Or.inl

/-- C14. Normal departure with FIFO promotion: in a state reached from a
constructed and opened system by handling incoming events, when `c` is present
and seated at table `T`, handling the incoming departure of `c` at `t` runs
`ProcessClientDeparture` for `c` at `t`, which returns; with an empty queue
nothing more is printed and no client is assigned to `T` afterwards; with a
queue `h :: rest` an outgoing `ClientSatAtTableEvent` seats `h` at `T`,
occupied since `t`, the queue becomes `rest`, and `h` is the client of `T`. -/
theorem ClientLeft_promotion (system : CybercafeMonitoringSystem)
    (reachable : Reachable system) (c : String) (T t : Int)
    (present : c ∈ system.clients_)
    (seated : find c system.clients_at_table_ = some T) :
    ∃ departed, system.ProcessClientDeparture c t = .ok departed
      ∧ (system.waiting_clients_ = [] →
          (Event.ClientLeftEvent t c .kIncoming).Handle system
            = ⟨departed, [Output.event (.ClientLeftEvent t c .kIncoming)], none⟩
          ∧ ∀ c', (c', T) ∉ departed.clients_at_table_)
      ∧ (∀ h rest, system.waiting_clients_ = h :: rest →
          (Event.ClientLeftEvent t c .kIncoming).Handle system
            = ⟨{ departed with
                  clients_at_table_ := assign h T departed.clients_at_table_
                  tables_current_using_since_ :=
                    assign T t departed.tables_current_using_since_
                  waiting_clients_ := rest },
                [Output.event (.ClientLeftEvent t c .kIncoming),
                  Output.event (.ClientSatAtTableEvent t h T .kOutgoing)], none⟩
          ∧ find h (assign h T departed.clients_at_table_) = some T
          ∧ find T (assign T t departed.tables_current_using_since_) = some t
          ∧ (∀ c', (c', T) ∈ assign h T departed.clients_at_table_ ↔ c' = h)) := by
  obtain ⟨s, occupied⟩ := (Settled_Reachable reachable).2 c T seated
  obtain ⟨departed, h1, h2, h3⟩ := ClientLeft_promotion_of_alone system c T s t present seated
    occupied (fun _ hm => (Seating_Reachable reachable).unique hm (mem_of_find seated))
  refine ⟨departed, h1, h2, fun h rest queue => h3 h rest queue ?_⟩
  exact (Registered_Reachable reachable).2.2 h (by rw [queue]; exact List.mem_cons_self _ _)

/-- Witness of C14: in the day `queue_full` the client of table 1 leaves and
the head of the queue takes the table. -/
theorem ClientLeft_promotion_witness :
    ∃ departed,
      (HandleAll queue_full day_opened).ProcessClientDeparture "a" 660 = .ok departed
      ∧ (Event.ClientLeftEvent 660 "a" .kIncoming).Handle (HandleAll queue_full day_opened)
          = ⟨{ departed with
                clients_at_table_ := assign "c" 1 departed.clients_at_table_
                tables_current_using_since_ :=
                  assign 1 660 departed.tables_current_using_since_
                waiting_clients_ := ["d"] },
              [Output.event (.ClientLeftEvent 660 "a" .kIncoming),
                Output.event (.ClientSatAtTableEvent 660 "c" 1 .kOutgoing)], none⟩ :=
  let ⟨departed, h⟩ := ClientLeft_promotion (HandleAll queue_full day_opened)
    (Reachable_HandleAll Reachable_day_opened queue_full (by decide)) "a" 1 660
    (by decide) (by decide)
  ⟨departed, h.1, (h.2.2 "c" ["d"] (by decide)).1⟩

/-- C15. Departure of an unseated or unknown client: handling the incoming
departure of `c` prints `ClientUnknown` and changes nothing when `c` is not in
`clients_`; when `c` is present and not seated it prints no error, throws
nothing, removes `c` from `clients_`, keeps of the queue exactly the entries
other than `c`, in their order, and leaves everything else as it was. -/
theorem ClientLeft_unseated (system : CybercafeMonitoringSystem) (t : Int) (c : String) :
    (c ∉ system.clients_ →
      (Event.ClientLeftEvent t c .kIncoming).Handle system
        = ⟨system, [Output.event (.ClientLeftEvent t c .kIncoming),
            Output.event (.ErrorEvent t "ClientUnknown")], none⟩)
    ∧ (c ∈ system.clients_ → find c system.clients_at_table_ = none →
      (Event.ClientLeftEvent t c .kIncoming).Handle system
        = ⟨{ system with
              clients_ := ((Event.ClientLeftEvent t c .kIncoming).Handle system).system.clients_
              waiting_clients_ := system.waiting_clients_.filter (fun x => decide (x ≠ c)) },
            [Output.event (.ClientLeftEvent t c .kIncoming)], none⟩
      ∧ (∀ x, x ∈ ((Event.ClientLeftEvent t c .kIncoming).Handle system).system.clients_
          ↔ x ∈ system.clients_ ∧ x ≠ c)) := by
  constructor
  · intro unknown
    simp [Event.Handle, ClientLeftEvent.Handle, unknown]
  · intro known standing
    simp [Event.Handle, ClientLeftEvent.Handle, known, standing, deque.remove,
      unordered_set.mem_erase_iff]

/-- Witness of C15: the departure of the test `LeavingNonExistentClient`. -/
theorem ClientLeft_unseated_witness :
    (Event.ClientLeftEvent 600 "ghost_client" .kIncoming).Handle day_opened
      = ⟨day_opened, [Output.event (.ClientLeftEvent 600 "ghost_client" .kIncoming),
          Output.event (.ErrorEvent 600 "ClientUnknown")], none⟩ :=
  (ClientLeft_unseated day_opened 600 "ghost_client").1 (by decide)

/-- C17, amended.  Day close forces everybody out in comparator order: when
`clients_` holds distinct client names, no table has two clients and the
table of every seated client has an occupied-since entry, `CybercafeClose`
sorts `clients_` without an exception into a list `order` that has exactly
the clients of `clients_`, once each, and in which every client comes before
every later one under `ClientsNameCompare`; it handles one outgoing
`ClientLeftEvent` at `closing_time_` for each client of `order`, in that
order, none of them throwing, and prints no other event; and when the forced
departures are done each client that was present and seated at `T` since
`s ≤ closing_time_` has added `⌈(closing_time_ - s) / 60⌉ * hourly_rate_` to
the daily revenue of `T`, which is what the closing statistics then read. -/
theorem CybercafeClose_order (system : CybercafeMonitoringSystem)
    (names : ∀ c ∈ system.clients_, IsClientNameValid c = true)
    (distinct : system.clients_.Nodup) (settled : Settled system) :
    ∃ order,
      CybercafeMonitoringSystem.sort system.clients_ = .ok order
      ∧ order.Perm system.clients_
      ∧ order.Pairwise
          (fun a b => CybercafeMonitoringSystem.ClientsNameCompare a b = .ok true)
      ∧ (CybercafeMonitoringSystem.CybercafeClose.loop order system).thrown = none
      ∧ system.CybercafeClose.printed
          = order.map
              (fun c => Output.event (.ClientLeftEvent system.closing_time_ c .kOutgoing))
            ++ (CybercafeMonitoringSystem.CybercafeClose.loop order
                system).system.PrintClosingStats.1
      ∧ (∀ line ∈ (CybercafeMonitoringSystem.CybercafeClose.loop order
            system).system.PrintClosingStats.1, ∀ e, line ≠ Output.event e)
      ∧ (∀ c T s, c ∈ system.clients_ → find c system.clients_at_table_ = some T →
          find T system.tables_current_using_since_ = some s → s ≤ system.closing_time_ →
          find T (CybercafeMonitoringSystem.CybercafeClose.loop order
              system).system.tables_daily_revenue_
            = some ((find T system.tables_daily_revenue_).getD 0
                + ⌈((system.closing_time_ - s : Int) : ℚ) / 60⌉ * system.hourly_rate_)) := by
  obtain ⟨order, h1, h2, h3⟩ := sort_ok system.clients_ names distinct
  have hvalid : ∀ c ∈ order, IsClientNameValid c = true := fun c hc => names c (h2.subset hc)
  obtain ⟨l1, l2, l3, -⟩ := CybercafeClose_loop_ok order system hvalid
    (h2.nodup_iff.mpr distinct) settled
  refine ⟨order, h1, h2, ?_, l1, ?_, ?_, ?_⟩
  · refine (List.Pairwise.and_mem.mp h3).imp ?_
    rintro a b ⟨ha, hb, hab⟩
    rw [ClientsNameCompare_eq (hvalid a ha) (hvalid b hb)]
    simp [hab]
  · rw [(CybercafeClose_printed h1 l1).1, l2]
  · exact fun line h e => PrintClosingStats_no_event _ line h e
  · intro c T s hc hseat hs hle
    rw [l3 c T s (h2.symm.subset hc) hseat hs, tdiv_eq_ceil _ (by omega)]

/-- Counterexample of C17 as stated.  In the day `sits_late` client `a` sits
down at 23:00, after closing time 22:00: `CybercafeClose` bills table 1
nothing, where `⌈(1320 - 1380) / 60⌉ * 100` is `-100`.  In `unaccounted_seat`
the forced departure of `c` throws `std::out_of_range` and `c` stays
present. -/
theorem CybercafeClose_late_sitter :
    (Reachable (HandleAll sits_late day_opened)
      ∧ "a" ∈ (HandleAll sits_late day_opened).clients_
      ∧ find "a" (HandleAll sits_late day_opened).clients_at_table_ = some 1
      ∧ find 1 (HandleAll sits_late day_opened).tables_current_using_since_ = some 1380
      ∧ (HandleAll sits_late day_opened).closing_time_ = 1320
      ∧ (HandleAll sits_late day_opened).hourly_rate_ = 100
      ∧ (HandleAll sits_late day_opened).CybercafeClose.printed
          = [Output.event (.ClientLeftEvent 1320 "a" .kOutgoing), Output.time 1320,
              Output.table 1 0 (-60), Output.table 2 0 0]
      ∧ ⌈((1320 - 1380 : Int) : ℚ) / 60⌉ * 100 = -100)
    ∧ ("c" ∈ unaccounted_seat.clients_
      ∧ unaccounted_seat.CybercafeClose.thrown = some .out_of_range
      ∧ "c" ∈ unaccounted_seat.CybercafeClose.system.clients_) := by
  refine ⟨⟨Reachable_sits_late, by decide, by decide, by decide, by decide, by decide,
    by decide, ?_⟩, by decide⟩
  have : ⌈((1320 - 1380 : Int) : ℚ) / 60⌉ = -1 := by
    rw [Int.ceil_eq_iff]
    norm_num
  rw [this]
  norm_num

/-- Witness of C17, amended: the five clients of the day `queue_full` are
forced out in the order `a`, `b`, `c`, `d`, `e`. -/
theorem CybercafeClose_order_witness :
    ∃ order,
      CybercafeMonitoringSystem.sort (HandleAll queue_full day_opened).clients_ = .ok order
      ∧ order = ["a", "b", "c", "d", "e"]
      ∧ (CybercafeMonitoringSystem.CybercafeClose.loop order
          (HandleAll queue_full day_opened)).thrown = none
      ∧ (∀ c T s, c ∈ (HandleAll queue_full day_opened).clients_ →
          find c (HandleAll queue_full day_opened).clients_at_table_ = some T →
          find T (HandleAll queue_full day_opened).tables_current_using_since_ = some s →
          s ≤ (HandleAll queue_full day_opened).closing_time_ →
          find T (CybercafeMonitoringSystem.CybercafeClose.loop order
              (HandleAll queue_full day_opened)).system.tables_daily_revenue_
            = some ((find T (HandleAll queue_full day_opened).tables_daily_revenue_).getD 0
                + ⌈(((HandleAll queue_full day_opened).closing_time_ - s : Int) : ℚ) / 60⌉
                  * (HandleAll queue_full day_opened).hourly_rate_)) :=
  have seats : (HandleAll queue_full day_opened).clients_at_table_ = [("b", 2), ("a", 1)] := by
    decide
  have settled : Settled (HandleAll queue_full day_opened) := by
    refine ⟨⟨by decide, by decide⟩, ?_⟩
    intro c T h
    have hm := mem_of_find h
    rw [seats] at hm
    simp only [List.mem_cons, Prod.mk.injEq, List.mem_singleton, List.not_mem_nil, or_false] at hm
    rcases hm with ⟨-, rfl⟩ | ⟨-, rfl⟩
    · exact ⟨600, by decide⟩
    · exact ⟨600, by decide⟩
  let ⟨order, h⟩ := CybercafeClose_order (HandleAll queue_full day_opened) (by decide)
    (by decide) settled
  ⟨order, h.1,
    Except.ok.inj (h.1.symm.trans (by decide :
      CybercafeMonitoringSystem.sort (HandleAll queue_full day_opened).clients_
        = .ok ["a", "b", "c", "d", "e"])),
    h.2.2.2.1, h.2.2.2.2.2.2⟩

/-- C18, amended.  Comparator character ranking: for two valid client names
that first differ at position `p.length`, with characters `x` and `y` there,
`ClientsNameCompare` puts first the name whose character is of the earlier
class, the classes being in this order: lowercase letters, digits, `_`,
`-`. -/
theorem ClientsNameCompare_ranking (a b : String) (p : List Char) (x y : Char)
    (r1 r2 : List Char) (ha : IsClientNameValid a = true) (hb : IsClientNameValid b = true)
    (hpa : a.data = p ++ x :: r1) (hpb : b.data = p ++ y :: r2)
    (h : CharacterClass x < CharacterClass y) :
    CybercafeMonitoringSystem.ClientsNameCompare a b = .ok true
    ∧ CybercafeMonitoringSystem.ClientsNameCompare b a = .ok false := by
  have hx : ValidChar x = true :=
    ((IsClientNameValid_iff a).mp ha).2 x (by rw [hpa]; simp)
  have hy : ValidChar y = true :=
    ((IsClientNameValid_iff b).mp hb).2 y (by rw [hpb]; simp)
  have hlt : Precedes a b := by
    unfold Precedes ranks
    rw [hpa, hpb, List.map_append, List.map_append]
    exact List.Lex.append_left _ (List.Lex.rel (rank_lt_of_class hx hy h)) _
  rw [ClientsNameCompare_eq ha hb, ClientsNameCompare_eq hb ha]
  simp only [Except.ok.injEq, decide_eq_true_eq, decide_eq_false_iff_not]
  exact ⟨hlt, hlt.asymm⟩

/-- Counterexample of C18 as stated: the name `0` does not precede the name
`a`; `a` precedes `0`. -/
theorem ClientsNameCompare_digit_after_letter :
    CybercafeMonitoringSystem.ClientsNameCompare "0" "a" = .ok false
    ∧ CybercafeMonitoringSystem.ClientsNameCompare "a" "0" = .ok true := by
  decide

/-- Witness of C18, amended: `ab` precedes `a0`. -/
theorem ClientsNameCompare_ranking_witness :
    CybercafeMonitoringSystem.ClientsNameCompare "ab" "a0" = .ok true
    ∧ CybercafeMonitoringSystem.ClientsNameCompare "a0" "ab" = .ok false :=
  ClientsNameCompare_ranking "ab" "a0" ['a'] 'b' '0' [] [] (by decide) (by decide) rfl rfl
    (by decide)

/-- C19. On the names `IsClientNameValid` accepts, `ClientsNameCompare` is a
strict total order: it is irreflexive and transitive, of two distinct names
exactly one precedes the other, a name that is a proper prefix of another
precedes it, and the comparison always returns, never throwing the
`std::runtime_error` of `CharacterRank`. -/
theorem ClientsNameCompare_strict_total_order :
    (∀ a, IsClientNameValid a = true →
      CybercafeMonitoringSystem.ClientsNameCompare a a = .ok false)
    ∧ (∀ a b c, IsClientNameValid a = true → IsClientNameValid b = true →
        IsClientNameValid c = true →
        CybercafeMonitoringSystem.ClientsNameCompare a b = .ok true →
        CybercafeMonitoringSystem.ClientsNameCompare b c = .ok true →
        CybercafeMonitoringSystem.ClientsNameCompare a c = .ok true)
    ∧ (∀ a b, IsClientNameValid a = true → IsClientNameValid b = true → a ≠ b →
        (CybercafeMonitoringSystem.ClientsNameCompare a b = .ok true
          ∧ CybercafeMonitoringSystem.ClientsNameCompare b a = .ok false)
        ∨ (CybercafeMonitoringSystem.ClientsNameCompare a b = .ok false
          ∧ CybercafeMonitoringSystem.ClientsNameCompare b a = .ok true))
    ∧ (∀ a b, IsClientNameValid a = true → IsClientNameValid b = true → a ≠ b →
        a.data <+: b.data →
        CybercafeMonitoringSystem.ClientsNameCompare a b = .ok true)
    ∧ (∀ a b, IsClientNameValid a = true → IsClientNameValid b = true →
        CybercafeMonitoringSystem.ClientsNameCompare a b ≠ .error .runtime_error
        ∧ ∃ r, CybercafeMonitoringSystem.ClientsNameCompare a b = .ok r) := by
  refine ⟨?_, ?_, ?_, ?_, ?_⟩
  · intro a ha
    simp [ClientsNameCompare_eq ha ha, Precedes.irrefl a]
  · intro a b c ha hb hc hab hbc
    rw [ClientsNameCompare_eq ha hb] at hab
    rw [ClientsNameCompare_eq hb hc] at hbc
    rw [ClientsNameCompare_eq ha hc]
    simp only [Except.ok.injEq, decide_eq_true_eq] at hab hbc ⊢
    exact hab.trans hbc
  · intro a b ha hb hne
    rw [ClientsNameCompare_eq ha hb, ClientsNameCompare_eq hb ha]
    simp only [Except.ok.injEq, decide_eq_true_eq, decide_eq_false_iff_not]
    rcases Precedes.total ha hb hne with h | h
    · exact Or.inl ⟨h, h.asymm⟩
    · exact Or.inr ⟨h.asymm, h⟩
  · intro a b ha hb hne hp
    rw [ClientsNameCompare_eq ha hb]
    simp only [Except.ok.injEq, decide_eq_true_eq]
    exact Precedes_of_prefix hp hne
  · intro a b ha hb
    rw [ClientsNameCompare_eq ha hb]
    exact ⟨by simp, _, rfl⟩

/-- Witness of C19: `client1` is a proper prefix of `client10`. -/
theorem ClientsNameCompare_strict_total_order_witness :
    CybercafeMonitoringSystem.ClientsNameCompare "client1" "client10" = .ok true :=
  ClientsNameCompare_strict_total_order.2.2.2.1 "client1" "client10" (by decide) (by decide)
    (by decide) (by decide)

/-- C20, evaluated where it fails.  In the day `leaves_while_queued` client
`c`, queued twice, is seated at table 1 from the first queue entry and then
leaves while the second entry is still queued: the departure removes `c` from
`clients_` and the promotion seats `c` again.  `CybercafeClose` walks
`clients_` only, so `c` stays assigned to table 1 after it. -/
theorem seated_after_close :
    Reachable (HandleAll leaves_while_queued day_opened)
    ∧ (HandleAll leaves_while_queued day_opened).CybercafeClose.thrown = none
    ∧ find "c" (HandleAll leaves_while_queued day_opened).CybercafeClose.system.clients_at_table_
        = some 1
    ∧ (HandleAll leaves_while_queued day_opened).CybercafeClose.system.IsTableFree 1
        = .ok false :=
  ⟨Reachable_leaves_while_queued, by decide, by decide, by decide⟩


/-! ## The claims on closing, rounding and validation -/

/-- C23. Hour rounding: for every number of minutes `m ≥ 0` the hours that
`ProcessClientDeparture` bills, `(m + 59) / 60`, are the ceiling of `m / 60`,
the least integer `h` with `60 * h ≥ m`; 0, 1, 59, 60, 61 and 121 minutes give
0, 1, 1, 1, 2 and 3 hours.  The departure of a client seated since `s`, at time
`s + m`, adds that many hours at the hourly rate to `total_revenue_`. -/
theorem hour_rounding (m : Int) (nonneg : 0 ≤ m) :
    CybercafeMonitoringSystem.ProcessClientDeparture.hours m = ⌈((m : Int) : ℚ) / 60⌉
    ∧ m ≤ 60 * CybercafeMonitoringSystem.ProcessClientDeparture.hours m
    ∧ (∀ h : Int, m ≤ 60 * h → CybercafeMonitoringSystem.ProcessClientDeparture.hours m ≤ h)
    ∧ [0, 1, 59, 60, 61, 121].map CybercafeMonitoringSystem.ProcessClientDeparture.hours
        = [0, 1, 1, 1, 2, 3]
    ∧ (∀ (system : CybercafeMonitoringSystem) (c : String) (T s : Int),
        find c system.clients_at_table_ = some T →
        find T system.tables_current_using_since_ = some s →
        ∃ departed, system.ProcessClientDeparture c (s + m) = .ok departed
          ∧ departed.total_revenue_ = system.total_revenue_
              + CybercafeMonitoringSystem.ProcessClientDeparture.hours m
                * system.hourly_rate_) := by
  refine ⟨tdiv_eq_ceil m nonneg, ?_, ?_, by decide, ?_⟩
  · unfold CybercafeMonitoringSystem.ProcessClientDeparture.hours
    rw [Int.tdiv_eq_ediv (by omega) (by omega)]
    omega
  · intro h hm
    unfold CybercafeMonitoringSystem.ProcessClientDeparture.hours
    rw [Int.tdiv_eq_ediv (by omega) (by omega)]
    omega
  · intro system c T s seated occupied
    refine ⟨_, ProcessClientDeparture_of_seated (s + m) seated occupied, ?_⟩
    simp only [CybercafeMonitoringSystem.ProcessClientDeparture.hours, add_sub_cancel_left]

/-- Witness of C23: 61 minutes. -/
theorem hour_rounding_witness :
    CybercafeMonitoringSystem.ProcessClientDeparture.hours 61 = 2
    ∧ CybercafeMonitoringSystem.ProcessClientDeparture.hours 61 = ⌈((61 : Int) : ℚ) / 60⌉ :=
  ⟨by decide, (hour_rounding 61 (by decide)).1⟩

/-- C25. `ValidateEventsOrder` compares every event with the first event only:
it accepts a list exactly when no event is earlier than the first one, and
otherwise prints the first event that is.  The events at 10:00, 10:30 and
10:20 are accepted, though the third is earlier than the second. -/
theorem ValidateEventsOrder_first_only :
    (∀ (first : Event) (rest : List Event),
      (ValidateEventsOrder (first :: rest) = none
        ↔ ∀ event ∈ rest, first.GetTime ≤ event.GetTime)
      ∧ (∀ event, ValidateEventsOrder (first :: rest) = some event →
          ∃ before after, rest = before ++ event :: after
            ∧ event.GetTime < first.GetTime
            ∧ ∀ earlier ∈ before, first.GetTime ≤ earlier.GetTime))
    ∧ ValidateEventsOrder
        [.ClientArrivedEvent 600 "a", .ClientArrivedEvent 630 "b",
          .ClientArrivedEvent 620 "c"] = none
    ∧ ¬ ([Event.ClientArrivedEvent 600 "a", .ClientArrivedEvent 630 "b",
          .ClientArrivedEvent 620 "c"].map Event.GetTime).Pairwise (· ≤ ·) := by
  refine ⟨?_, by decide, by decide⟩
  intro first rest
  have hloop : ∀ (p : Int) (l : List Event),
      (ValidateEventsOrder.loop p l = none ↔ ∀ event ∈ l, p ≤ event.GetTime)
      ∧ (∀ event, ValidateEventsOrder.loop p l = some event →
          ∃ before after, l = before ++ event :: after
            ∧ event.GetTime < p ∧ ∀ earlier ∈ before, p ≤ earlier.GetTime) := by
    intro p l
    induction l with
    | nil => simp [ValidateEventsOrder.loop]
    | cons e l ih =>
      by_cases h : e.GetTime < p
      · simp only [ValidateEventsOrder.loop, h, if_true, List.mem_cons, forall_eq_or_imp]
        refine ⟨⟨fun x => by simp at x, fun x => by omega⟩, ?_⟩
        intro event he
        simp only [Option.some.injEq] at he
        subst he
        exact ⟨[], l, rfl, h, fun _ hx => by simp at hx⟩
      · simp only [ValidateEventsOrder.loop, h, if_false, List.mem_cons, forall_eq_or_imp]
        refine ⟨⟨fun x => ⟨by omega, ih.1.mp x⟩, fun x => ih.1.mpr x.2⟩, ?_⟩
        intro event he
        obtain ⟨before, after, h1, h2, h3⟩ := ih.2 event he
        refine ⟨e :: before, after, by rw [h1]; rfl, h2, ?_⟩
        intro x hx
        rcases List.mem_cons.mp hx with rfl | hx
        · omega
        · exact h3 x hx
  cases rest with
  | nil => simp [ValidateEventsOrder]
  | cons e l =>
    have hlen : (first :: e :: l).length > 1 := by simp
    simp only [ValidateEventsOrder, hlen, if_true]
    exact hloop first.GetTime (e :: l)

/-- C26, amended.  Configuration validation lies with the input reader:
`CreateTestObject`, which builds the system from the parsed header, throws
`std::runtime_error` exactly when the table count or the hourly rate is below
1, and for a table count and an hourly rate of at least 1 it returns the
system the constructor builds, with the four values and empty containers.
The constructor itself checks the table count only: it throws
`std::invalid_argument` exactly when `tables_count < 1`, whatever the hourly
rate, and succeeds otherwise. -/
theorem configuration_validation (opening_time closing_time tables_count hourly_rate : Int) :
    (CreateTestObject tables_count opening_time closing_time hourly_rate
        = .error .runtime_error ↔ tables_count < 1 ∨ hourly_rate < 1)
    ∧ (1 ≤ tables_count → 1 ≤ hourly_rate →
        CreateTestObject tables_count opening_time closing_time hourly_rate
          = .ok ⟨hourly_rate, opening_time, closing_time, tables_count, 0,
              [], [], [], [], [], []⟩
        ∧ CreateTestObject tables_count opening_time closing_time hourly_rate
          = CybercafeMonitoringSystem.ctor opening_time closing_time tables_count hourly_rate)
    ∧ (CybercafeMonitoringSystem.ctor opening_time closing_time tables_count hourly_rate
        = .error .invalid_argument ↔ tables_count < 1)
    ∧ (1 ≤ tables_count →
        CybercafeMonitoringSystem.ctor opening_time closing_time tables_count hourly_rate
          = .ok ⟨hourly_rate, opening_time, closing_time, tables_count, 0,
              [], [], [], [], [], []⟩) := by
  by_cases hN : tables_count < 1
  · have hN' : tables_count ≤ 0 := by omega
    have hN'' : ¬ 1 ≤ tables_count := by omega
    simp [CybercafeMonitoringSystem.ctor, CreateTestObject, hN, hN', hN'']
  · have hN' : ¬ tables_count ≤ 0 := by omega
    have hN'' : 1 ≤ tables_count := by omega
    by_cases hr : hourly_rate < 1
    · have hr' : hourly_rate ≤ 0 := by omega
      have hr'' : ¬ 1 ≤ hourly_rate := by omega
      simp [CybercafeMonitoringSystem.ctor, CreateTestObject, hN, hN', hN'', hr, hr', hr'']
    · have hr' : ¬ hourly_rate ≤ 0 := by omega
      have hr'' : 1 ≤ hourly_rate := by omega
      simp [CybercafeMonitoringSystem.ctor, CreateTestObject, hN, hN', hN'', hr, hr', hr'']

/-- Counterexample to C26 as stated: called directly, the constructor accepts
three tables at an hourly rate of 0, and at an hourly rate of -5; the reader
refuses both rates. -/
theorem ctor_accepts_rate_below_one :
    CybercafeMonitoringSystem.ctor 600 1320 3 0
      = .ok ⟨0, 600, 1320, 3, 0, [], [], [], [], [], []⟩
    ∧ CybercafeMonitoringSystem.ctor 600 1320 3 (-5)
      = .ok ⟨-5, 600, 1320, 3, 0, [], [], [], [], [], []⟩
    ∧ CreateTestObject 3 600 1320 0 = .error .runtime_error
    ∧ CreateTestObject 3 600 1320 (-5) = .error .runtime_error := by
  decide

/-- C27. Client-name validation: `IsClientNameValid` rejects a name exactly
when it is empty or has a character outside `a-z`, `0-9`, `_` and `-`, and the
constructors of `ClientArrivedEvent`, `ClientSatAtTableEvent`,
`ClientWaitingEvent` and `ClientLeftEvent` throw `std::invalid_argument`
exactly for the rejected names and build the event for the others.  The names
`Invalid Client`, `Invalid@Client` and the empty name are rejected; `a`, `_`,
`-` and the name made of all 38 allowed characters are accepted. -/
theorem name_validation (t : Int) (s : String) (T : Int) (type : EventType) :
    (IsClientNameValid s = false ↔
      s.data = [] ∨ ∃ c ∈ s.data,
        ¬ (('a' ≤ c ∧ c ≤ 'z') ∨ ('0' ≤ c ∧ c ≤ '9') ∨ c = '_' ∨ c = '-'))
    ∧ (ClientArrivedEvent.ctor t s = .error .invalid_argument ↔ IsClientNameValid s = false)
    ∧ (ClientSatAtTableEvent.ctor t s T type = .error .invalid_argument
        ↔ IsClientNameValid s = false)
    ∧ (ClientWaitingEvent.ctor t s = .error .invalid_argument ↔ IsClientNameValid s = false)
    ∧ (ClientLeftEvent.ctor t s type = .error .invalid_argument
        ↔ IsClientNameValid s = false)
    ∧ (IsClientNameValid s = true →
        ClientArrivedEvent.ctor t s = .ok (.ClientArrivedEvent t s)
        ∧ ClientSatAtTableEvent.ctor t s T type = .ok (.ClientSatAtTableEvent t s T type)
        ∧ ClientWaitingEvent.ctor t s = .ok (.ClientWaitingEvent t s)
        ∧ ClientLeftEvent.ctor t s type = .ok (.ClientLeftEvent t s type))
    ∧ ["Invalid Client", "Invalid@Client", "", "a", "_", "-",
        "abcdefghijklmnopqrstuvwxyz0123456789_-"].map IsClientNameValid
        = [false, false, false, true, true, true, true] := by
  have hchar : ∀ c : Char, ValidChar c = true ↔
      (('a' ≤ c ∧ c ≤ 'z') ∨ ('0' ≤ c ∧ c ≤ '9') ∨ c = '_' ∨ c = '-') := by
    intro c
    simp only [ValidChar, isdigit, islower, Bool.or_eq_true, Bool.and_eq_true,
      decide_eq_true_eq, beq_iff_eq]
    tauto
  refine ⟨?_, ?_, ?_, ?_, ?_, ?_, by decide⟩
  · rw [← Bool.not_eq_true, IsClientNameValid_iff]
    constructor
    · intro h
      by_cases he : s.data = []
      · exact Or.inl he
      · right
        by_contra hall
        push_neg at hall
        exact h ⟨he, fun c hc => (hchar c).mpr (hall c hc)⟩
    · rintro (he | ⟨c, hc, hbad⟩) ⟨h1, h2⟩
      · exact h1 he
      · exact hbad ((hchar c).mp (h2 c hc))
  all_goals
    cases h : IsClientNameValid s <;>
      simp [ClientArrivedEvent.ctor, ClientSatAtTableEvent.ctor, ClientWaitingEvent.ctor,
        ClientLeftEvent.ctor, h]

/-- C28. Invalid table id: for every state, client, time and table id below 1
or above `tables_count_`, handling an incoming `ClientSatAtTableEvent` throws
`std::invalid_argument` after printing the event itself: no `ErrorEvent` is
printed and the system is left as it was. -/
theorem invalid_table_id (system : CybercafeMonitoringSystem) (t : Int) (c : String)
    (T : Int) (outside : T < 1 ∨ T > system.tables_count_) :
    ((Event.ClientSatAtTableEvent t c T .kIncoming).Handle system).thrown
      = some .invalid_argument
    ∧ ((Event.ClientSatAtTableEvent t c T .kIncoming).Handle system).printed
      = [Output.event (.ClientSatAtTableEvent t c T .kIncoming)]
    ∧ (∀ time message, Output.event (.ErrorEvent time message)
        ∉ ((Event.ClientSatAtTableEvent t c T .kIncoming).Handle system).printed)
    ∧ ((Event.ClientSatAtTableEvent t c T .kIncoming).Handle system).system = system := by
  have hfree : system.IsTableFree T = .error .invalid_argument :=
    IsTableFree_outside (by omega)
  simp only [Event.Handle, ClientSatAtTableEvent.Handle, hfree, List.mem_singleton,
    Output.event.injEq, not_false_eq_true, implies_true, and_self, reduceCtorEq]

/-- Witness of C28: table 3 and table 0 on a day with two tables. -/
theorem invalid_table_id_witness :
    ((Event.ClientSatAtTableEvent 600 "a" 3 .kIncoming).Handle day_opened).thrown
      = some .invalid_argument
    ∧ ((Event.ClientSatAtTableEvent 600 "a" 0 .kIncoming).Handle day_opened).system
      = day_opened :=
  ⟨(invalid_table_id day_opened 600 "a" 3 (by decide)).1,
    (invalid_table_id day_opened 600 "a" 0 (by decide)).2.2.2⟩

/-- C29. The query `IsTableFree`: it throws exactly when the id is below 1 or
above `tables_count_`, and then `std::invalid_argument`; for an id in range it
returns `true` exactly when no entry of `clients_at_table_` assigns a client
to the id, and `false` exactly when some entry does. -/
theorem IsTableFree_rule (system : CybercafeMonitoringSystem) (id : Int) :
    (system.IsTableFree id = .error .invalid_argument
        ↔ id < 1 ∨ id > system.tables_count_)
    ∧ (∀ failure, system.IsTableFree id = .error failure → failure = .invalid_argument)
    ∧ (1 ≤ id ∧ id ≤ system.tables_count_ →
        (system.IsTableFree id = .ok true ↔ ∀ c, (c, id) ∉ system.clients_at_table_)
        ∧ (system.IsTableFree id = .ok false ↔ ∃ c, (c, id) ∈ system.clients_at_table_)) := by
  by_cases h : id < 1 ∨ id > system.tables_count_
  · have hr : ¬ (1 ≤ id ∧ id ≤ system.tables_count_) := by omega
    simp [CybercafeMonitoringSystem.IsTableFree, h, hr]
  · have hr : 1 ≤ id ∧ id ≤ system.tables_count_ := by omega
    simp only [CybercafeMonitoringSystem.IsTableFree, h, if_false, reduceCtorEq, false_iff,
      not_false_eq_true, false_implies, implies_true, Except.ok.injEq, List.all_eq_true,
      decide_eq_true_eq, List.all_eq_false, Prod.exists, Prod.forall, true_and,
      decide_not, Bool.not_eq_true', decide_eq_false_iff_not, not_not, ne_eq]
    intro _
    constructor
    · constructor
      · intro hall c hm
        exact hall c id hm rfl
      · intro hall c T hm hT
        exact hall c (hT ▸ hm)
    · constructor
      · rintro ⟨c, T, hm, hT⟩
        exact ⟨c, hT ▸ hm⟩
      · rintro ⟨c, hm⟩
        exact ⟨c, id, hm, rfl⟩

/-- C30, amended.  The query `IsWorking` is true exactly for the times from
`opening_time_` up to, not including, `closing_time_`.  So a client who is not
present is admitted at `opening_time_` and at `closing_time_ - 1` (the day
having at least a minute), and gets `NotOpenYet` at `closing_time_` and at any
time before `opening_time_`, minute 0 included when the day opens later. -/
theorem IsWorking_rule (system : CybercafeMonitoringSystem) (t : Int) (c : String)
    (absent : c ∉ system.clients_) :
    (system.IsWorking t = true ↔ system.opening_time_ ≤ t ∧ t < system.closing_time_)
    ∧ (system.opening_time_ < system.closing_time_ →
        (Event.ClientArrivedEvent system.opening_time_ c).Handle system
          = ⟨{ system with clients_ := unordered_set.insert c system.clients_ },
              [Output.event (.ClientArrivedEvent system.opening_time_ c)], none⟩
        ∧ (Event.ClientArrivedEvent (system.closing_time_ - 1) c).Handle system
          = ⟨{ system with clients_ := unordered_set.insert c system.clients_ },
              [Output.event (.ClientArrivedEvent (system.closing_time_ - 1) c)], none⟩)
    ∧ (Event.ClientArrivedEvent system.closing_time_ c).Handle system
        = ⟨system, [Output.event (.ClientArrivedEvent system.closing_time_ c),
            Output.event (.ErrorEvent system.closing_time_ "NotOpenYet")], none⟩
    ∧ (t < system.opening_time_ →
        (Event.ClientArrivedEvent t c).Handle system
          = ⟨system, [Output.event (.ClientArrivedEvent t c),
              Output.event (.ErrorEvent t "NotOpenYet")], none⟩)
    ∧ (0 < system.opening_time_ →
        (Event.ClientArrivedEvent 0 c).Handle system
          = ⟨system, [Output.event (.ClientArrivedEvent 0 c),
              Output.event (.ErrorEvent 0 "NotOpenYet")], none⟩) := by
  have hw : ∀ time, system.IsWorking time = true
      ↔ system.opening_time_ ≤ time ∧ time < system.closing_time_ := by
    intro time
    simp [CybercafeMonitoringSystem.IsWorking]
  have hin : ∀ time, system.opening_time_ ≤ time ∧ time < system.closing_time_ →
      (Event.ClientArrivedEvent time c).Handle system
        = ⟨{ system with clients_ := unordered_set.insert c system.clients_ },
            [Output.event (.ClientArrivedEvent time c)], none⟩ := by
    intro time h
    simp only [Event.Handle, ClientArrivedEvent.Handle, absent, if_false, (hw time).mpr h,
      Bool.not_true, Bool.false_eq_true]
  have hout : ∀ time, ¬ (system.opening_time_ ≤ time ∧ time < system.closing_time_) →
      (Event.ClientArrivedEvent time c).Handle system
        = ⟨system, [Output.event (.ClientArrivedEvent time c),
            Output.event (.ErrorEvent time "NotOpenYet")], none⟩ := by
    intro time h
    have hf : system.IsWorking time = false := by
      rw [← Bool.not_eq_true, hw]
      exact h
    simp only [Event.Handle, ClientArrivedEvent.Handle, absent, if_false, hf,
      Bool.not_false, if_true]
  exact ⟨hw t, fun h => ⟨hin _ (by omega), hin _ (by omega)⟩, hout _ (by omega),
    fun h => hout _ (by omega), fun h => hout _ (by omega)⟩

/-- Witness of C30, amended: on the day from 10:00 to 22:00 a client arriving at 10:00
or at 21:59 is admitted; at 22:00, at 09:59 or at 00:00 the answer is
`NotOpenYet`. -/
theorem IsWorking_rule_witness :
    ((Event.ClientArrivedEvent 600 "a").Handle day_opened).system.clients_ = ["a"]
    ∧ ((Event.ClientArrivedEvent 1319 "a").Handle day_opened).system.clients_ = ["a"]
    ∧ ((Event.ClientArrivedEvent 1320 "a").Handle day_opened).printed
        = [Output.event (.ClientArrivedEvent 1320 "a"),
            Output.event (.ErrorEvent 1320 "NotOpenYet")]
    ∧ ((Event.ClientArrivedEvent 599 "a").Handle day_opened).printed
        = [Output.event (.ClientArrivedEvent 599 "a"),
            Output.event (.ErrorEvent 599 "NotOpenYet")]
    ∧ (Event.ClientArrivedEvent 0 "a").Handle day_opened
        = ⟨day_opened, [Output.event (.ClientArrivedEvent 0 "a"),
            Output.event (.ErrorEvent 0 "NotOpenYet")], none⟩ :=
  ⟨by decide, by decide, by decide, by decide,
    (IsWorking_rule day_opened 0 "a" (by decide)).2.2.2.2 (by decide)⟩

/-- Counterexample to C30 as stated.  On a day from 00:00 to 22:00 the arrival
at minute 0 is admitted.  On the day from 10:00 to 22:00 a client who is
present gets `YouShallNotPass` at opening time and at closing time.  On a day
whose opening time 22:00 is not before its closing time 10:00 the arrival at
opening time gets `NotOpenYet`. -/
theorem arrival_at_midnight_admitted :
    CybercafeMonitoringSystem.ctor 0 1320 2 100
      = .ok ⟨100, 0, 1320, 2, 0, [], [], [], [], [], []⟩
    ∧ (Event.ClientArrivedEvent 0 "a").Handle
        (⟨100, 0, 1320, 2, 0, [], [], [], [], [], []⟩ :
          CybercafeMonitoringSystem).CybercafeOpen.system
      = ⟨{ (⟨100, 0, 1320, 2, 0, [], [], [], [], [], []⟩ :
            CybercafeMonitoringSystem).CybercafeOpen.system with clients_ := ["a"] },
          [Output.event (.ClientArrivedEvent 0 "a")], none⟩
    ∧ ((Event.ClientArrivedEvent 600 "client1").Handle
        (HandleAll sits_down day_opened)).printed
      = [Output.event (.ClientArrivedEvent 600 "client1"),
          Output.event (.ErrorEvent 600 "YouShallNotPass")]
    ∧ ((Event.ClientArrivedEvent 1320 "client1").Handle
        (HandleAll sits_down day_opened)).printed
      = [Output.event (.ClientArrivedEvent 1320 "client1"),
          Output.event (.ErrorEvent 1320 "YouShallNotPass")]
    ∧ ((Event.ClientArrivedEvent 1320 "a").Handle
        (⟨100, 1320, 600, 2, 0, [], [], [], [], [], []⟩ :
          CybercafeMonitoringSystem).CybercafeOpen.system).printed
      = [Output.event (.ClientArrivedEvent 1320 "a"),
          Output.event (.ErrorEvent 1320 "NotOpenYet")] := by
  decide

/-- C21, as the code has it.  Closing twice: for every state that `CybercafeClose`
has produced without throwing, a second `CybercafeClose` prints the closing
time and then throws `std::out_of_range`, the report finding no entry for its
first table in the cleared daily maps; it changes nothing: the system after
the second call is the system after the first, `GetTotalRevenue` included. -/
theorem second_close (system : CybercafeMonitoringSystem)
    (closed : system.CybercafeClose.thrown = none) :
    system.CybercafeClose.system.CybercafeClose.thrown = some .out_of_range
    ∧ system.CybercafeClose.system.CybercafeClose.printed
        = [Output.time system.closing_time_]
    ∧ system.CybercafeClose.system.CybercafeClose.system = system.CybercafeClose.system
    ∧ system.CybercafeClose.system.CybercafeClose.system.GetTotalRevenue
        = system.CybercafeClose.system.GetTotalRevenue := by
  obtain ⟨h1, -, -, h4⟩ := CybercafeClose_done system closed
  rw [CybercafeClose_of_closed _ h1 h4, (CybercafeClose_config system).2.1]
  exact ⟨rfl, rfl, rfl, rfl⟩

/-- Witness of C21: the day `sits_down`, closed twice. -/
theorem second_close_witness :
    (HandleAll sits_down day_opened).CybercafeClose.thrown = none
    ∧ (HandleAll sits_down day_opened).CybercafeClose.system.CybercafeClose.system
        = (HandleAll sits_down day_opened).CybercafeClose.system :=
  ⟨by decide, (second_close (HandleAll sits_down day_opened) (by decide)).2.2.1⟩

/-- Counterexample to C21 as stated: a day that is opened and closed at once is
closed without an exception, and the second close throws `std::out_of_range`
instead of completing. -/
theorem second_close_throws :
    day_opened.CybercafeClose.thrown = none
    ∧ day_opened.CybercafeClose.system.CybercafeClose.thrown = some .out_of_range
    ∧ day_opened.CybercafeClose.system.CybercafeClose.printed = [Output.time 1320] := by
  decide

/-- C24. In every reachable state (the table count being an `int`),
`IsAvailableTableExists` is true exactly when the number of occupied tables is
below `tables_count_`, that is exactly when `IsTableFree` returns true for some
table id in `1 .. tables_count_`. -/
theorem free_table_exists (system : CybercafeMonitoringSystem) (reachable : Reachable system)
    (int : system.tables_count_ < 2147483648) :
    (system.IsAvailableTableExists = true
      ↔ ((system.clients_at_table_.map Prod.snd).toFinset.card : Int) < system.tables_count_)
    ∧ (system.IsAvailableTableExists = true
      ↔ ∃ T, 1 ≤ T ∧ T ≤ system.tables_count_ ∧ system.IsTableFree T = .ok true) := by
  have hN := tables_Reachable reachable
  have hseat := Seating_Reachable reachable
  have hacc := Accounted_Reachable reachable
  have hpow : (2 : Int) ^ 64 = 18446744073709551616 := by norm_num
  have hmod : system.tables_count_ % 2 ^ 64 = system.tables_count_ := by
    rw [hpow]
    omega
  have hcard : (system.clients_at_table_.map Prod.snd).toFinset.card
      = system.clients_at_table_.length := by
    rw [List.toFinset_card_of_nodup hseat.2, List.length_map]
  have hfirst : system.IsAvailableTableExists = true
      ↔ ((system.clients_at_table_.map Prod.snd).toFinset.card : Int) < system.tables_count_ := by
    simp only [CybercafeMonitoringSystem.IsAvailableTableExists, hmod, decide_eq_true_eq, hcard]
  have hIcc : (Finset.Icc 1 system.tables_count_).card = system.tables_count_.toNat := by
    rw [Int.card_Icc]
    congr 1
    omega
  refine ⟨hfirst, hfirst.trans ⟨?_, ?_⟩⟩
  · intro hlt
    have hlt' : (system.clients_at_table_.map Prod.snd).toFinset.card
        < (Finset.Icc 1 system.tables_count_).card := by
      rw [hIcc]
      omega
    have hex : ∃ T ∈ Finset.Icc 1 system.tables_count_,
        T ∉ (system.clients_at_table_.map Prod.snd).toFinset := by
      by_contra hall
      push_neg at hall
      exact absurd (Finset.card_le_card (fun T hT => hall T hT)) (by omega)
    obtain ⟨T, hT, hfree⟩ := hex
    rw [Finset.mem_Icc] at hT
    refine ⟨T, hT.1, hT.2, IsTableFree_free hT (fun c hm => hfree ?_)⟩
    exact List.mem_toFinset.mpr (List.mem_map.mpr ⟨(c, T), hm, rfl⟩)
  · rintro ⟨T, h1, h2, hfree⟩
    have hsub : (system.clients_at_table_.map Prod.snd).toFinset
        ⊆ (Finset.Icc 1 system.tables_count_).erase T := by
      intro T' hT'
      obtain ⟨⟨c, T''⟩, hm, rfl⟩ := List.mem_map.mp (List.mem_toFinset.mp hT')
      refine Finset.mem_erase.mpr ⟨?_, Finset.mem_Icc.mpr (hacc.1 c T'' hm)⟩
      rintro rfl
      exact IsTableFree_true hfree c hm
    have hle := Finset.card_le_card hsub
    rw [Finset.card_erase_of_mem (Finset.mem_Icc.mpr ⟨h1, h2⟩), hIcc] at hle
    omega

/-- Witness of C24: after the day `waits_twice` table 2 is taken and table 1
as well, so no table is available. -/
theorem free_table_exists_witness :
    (HandleAll waits_twice day_opened).IsAvailableTableExists = false
    ∧ ((HandleAll waits_twice day_opened).IsAvailableTableExists = true
      ↔ ∃ T, 1 ≤ T ∧ T ≤ (HandleAll waits_twice day_opened).tables_count_
          ∧ (HandleAll waits_twice day_opened).IsTableFree T = .ok true) :=
  ⟨by decide,
    (free_table_exists (HandleAll waits_twice day_opened) Reachable_waits_twice
      (by decide)).2⟩

/-- C22. Closing report: a day is constructed with `N ≥ 1` tables and opened,
and any list of incoming events is handled.  Then `CybercafeClose` throws
nothing and prints, after the forced departures in sorted order and the
closing time, exactly `N` rows, for the table ids `1 .. N` in ascending
order, each with the revenue and the occupied minutes that the two daily maps
hold for the table after the forced departures; both maps have an entry for
every table, and a table at which no event of the day seats a client is
reported with zero revenue and zero minutes.  `total_revenue_` is not reset: it
is what it was after the forced departures, the sum of the reported
revenues. -/
theorem closing_report (opening_time closing_time N r : Int) (events : List Event)
    (tables : 1 ≤ N) (incoming : ∀ event ∈ events, event.IsIncoming = true) :
    ∃ system day order last,
      CybercafeMonitoringSystem.ctor opening_time closing_time N r = .ok system
      ∧ day = HandleAll events system.CybercafeOpen.system
      ∧ CybercafeMonitoringSystem.sort day.clients_ = .ok order
      ∧ last = (CybercafeMonitoringSystem.CybercafeClose.loop order day).system
      ∧ day.CybercafeClose.thrown = none
      ∧ day.CybercafeClose.printed
          = order.map (fun c => Output.event (.ClientLeftEvent closing_time c .kOutgoing))
            ++ Output.time closing_time ::
              (List.range N.toNat).map (fun i : Nat => Output.table ((i : Int) + 1)
                ((find ((i : Int) + 1) last.tables_daily_revenue_).getD 0)
                ((find ((i : Int) + 1) last.tables_daily_using_).getD 0))
      ∧ (∀ T, 1 ≤ T → T ≤ N →
          (∃ revenue, find T last.tables_daily_revenue_ = some revenue)
          ∧ (∃ duration, find T last.tables_daily_using_ = some duration))
      ∧ (∀ T, 1 ≤ T → T ≤ N →
          (∀ t c, Event.ClientSatAtTableEvent t c T .kIncoming ∉ events) →
          find T last.tables_daily_revenue_ = some 0
          ∧ find T last.tables_daily_using_ = some 0)
      ∧ day.CybercafeClose.system.total_revenue_ = last.total_revenue_
      ∧ day.CybercafeClose.system.total_revenue_
          = ∑ T ∈ Finset.Icc 1 N, (find T last.tables_daily_revenue_).getD 0 := by
  have hctor := ctor_ok opening_time closing_time N r tables
  generalize hsys : (⟨r, opening_time, closing_time, N, 0, [], [], [], [], [], []⟩ :
    CybercafeMonitoringSystem) = system at hctor
  have hopened : Reachable system.CybercafeOpen.system :=
    Reachable.opened opening_time closing_time N r system hctor
  generalize hday : HandleAll events system.CybercafeOpen.system = day
  have hreach : Reachable day := hday ▸ Reachable_HandleAll hopened events incoming
  have hsteps : Steps (fun T => ∃ event ∈ events, event.Seats T)
      system.CybercafeOpen.system day := hday ▸ HandleAll_steps events _ incoming
  have hcfg : day.tables_count_ = N ∧ day.closing_time_ = closing_time := by
    obtain ⟨h1, h2, -, -⟩ := hsteps.same_config
    rw [h1, h2, ← hsys]
    exact ⟨rfl, rfl⟩
  obtain ⟨g1, g2, -⟩ := Registered_Reachable hreach
  obtain ⟨order, sorted, hperm, -⟩ := sort_ok day.clients_ g2 g1
  obtain ⟨quiet, hprinted, -, -⟩ := CybercafeClose_loop_ok order day
    (fun c hc => g2 c (hperm.mem_iff.mp hc)) (hperm.nodup_iff.mpr g1) (Settled_Reachable hreach)
  have hloop := CybercafeClose_loop_steps (fun T => ∃ event ∈ events, event.Seats T) order day
  generalize hlast : (CybercafeMonitoringSystem.CybercafeClose.loop order day).system = last
    at hloop
  have hcfg' : last.tables_count_ = N ∧ last.closing_time_ = closing_time := by
    obtain ⟨h1, h2, -, -⟩ := hloop.same_config
    rw [h1, h2]
    exact hcfg
  have hreported : Reported last :=
    Steps.invariant Reported (fun _ _ hs step => step.reported hs) hloop
      (Reported_Reachable hreach)
  have haccounted : Accounted last :=
    Steps.invariant Accounted (fun _ _ hs step => step.accounted hs) hloop
      (Accounted_Reachable hreach)
  have hstats := PrintClosingStats_ok last (by rw [hcfg'.1]; exact tables) hreported
  rw [hcfg'.1, hcfg'.2] at hstats
  have hclose := CybercafeClose_ok sorted quiet (by rw [hlast, hstats])
  rw [hlast, hstats, hprinted, hcfg.2] at hclose
  refine ⟨system, day, order, last, hctor, hday.symm, sorted, hlast.symm, ?_, ?_, ?_, ?_, ?_, ?_⟩
  · rw [hclose]
  · rw [hclose]
  · intro T h1 h2
    exact hreported T h1 (by rw [hcfg'.1]; exact h2)
  · intro T h1 h2 unused
    have hunused : ¬ ∃ event ∈ events, event.Seats T := by
      rintro ⟨event, hmem, t, c, rfl⟩
      exact unused t c hmem
    have hstart : Untouched T system.CybercafeOpen.system :=
      hsys ▸ Untouched_opened opening_time closing_time N r T h1 h2
    have hend : Untouched T last :=
      Steps.invariant (Untouched T) (fun _ _ hs step => step.untouched hunused hs)
        (Relation.ReflTransGen.trans hsteps hloop) hstart
    exact hend.2
  · rw [hclose]
  · rw [hclose, ← hcfg'.1]
    exact haccounted.total_eq_sum

/-- Witness of C22: the day `waits_twice` with its two tables; both tables are
reported, with 1200 in revenue and 720 minutes each. -/
theorem closing_report_witness :
    (HandleAll waits_twice day_opened).CybercafeClose.printed
      = [Output.event (.ClientLeftEvent 1320 "b" .kOutgoing),
          Output.event (.ClientLeftEvent 1320 "c" .kOutgoing),
          Output.time 1320, Output.table 1 1200 720, Output.table 2 1200 720]
    ∧ ∃ system day,
        CybercafeMonitoringSystem.ctor 600 1320 2 100 = .ok system
        ∧ day = HandleAll waits_twice system.CybercafeOpen.system
        ∧ day.CybercafeClose.thrown = none := by
  refine ⟨by decide, ?_⟩
  obtain ⟨system, day, order, last, h1, h2, -, -, h5, -⟩ :=
    closing_report 600 1320 2 100 waits_twice (by decide) (by decide)
  exact ⟨system, day, h1, h2, h5⟩

/-! ## The claims on ranges, the queue and the close -/

/-- C31. Table ids stay in range: in every state reached from a constructed
and opened system by handling incoming events, every table id that is a value
of `clients_at_table_` or a key of `tables_current_using_since_`,
`tables_daily_using_` or `tables_daily_revenue_` lies in `1 .. tables_count_`;
an incoming `ClientSatAtTableEvent` with an id outside that range throws and
leaves the system as it was. -/
theorem table_ids_in_range (system : CybercafeMonitoringSystem) (reachable : Reachable system) :
    (∀ c T, (c, T) ∈ system.clients_at_table_ → 1 ≤ T ∧ T ≤ system.tables_count_)
    ∧ (∀ T ∈ system.tables_current_using_since_.map Prod.fst,
        1 ≤ T ∧ T ≤ system.tables_count_)
    ∧ (∀ T ∈ system.tables_daily_using_.map Prod.fst, 1 ≤ T ∧ T ≤ system.tables_count_)
    ∧ (∀ T ∈ system.tables_daily_revenue_.map Prod.fst, 1 ≤ T ∧ T ≤ system.tables_count_)
    ∧ (∀ t c T, T < 1 ∨ T > system.tables_count_ →
        ((Event.ClientSatAtTableEvent t c T .kIncoming).Handle system).thrown
          = some .invalid_argument
        ∧ ((Event.ClientSatAtTableEvent t c T .kIncoming).Handle system).system = system) := by
  obtain ⟨h1, h2, h3, h4⟩ := Ranged_Reachable reachable
  refine ⟨h1, h2, h3, h4, ?_⟩
  intro t c T outside
  have hfree : system.IsTableFree T = .error .invalid_argument :=
    IsTableFree_outside (by omega)
  simp only [Event.Handle, ClientSatAtTableEvent.Handle, hfree, and_self]

/-- Witness of C31: the day `waits_twice`, whose tables 1 and 2 are both taken
and both have an occupied-since entry. -/
theorem table_ids_in_range_witness :
    (HandleAll waits_twice day_opened).clients_at_table_.map Prod.snd = [1, 2]
    ∧ (HandleAll waits_twice day_opened).tables_current_using_since_.map Prod.fst = [1, 2]
    ∧ ∀ T ∈ (HandleAll waits_twice day_opened).tables_current_using_since_.map Prod.fst,
        1 ≤ T ∧ T ≤ (HandleAll waits_twice day_opened).tables_count_ :=
  ⟨by decide, by decide,
    (table_ids_in_range (HandleAll waits_twice day_opened) Reachable_waits_twice).2.1⟩

/-- C33. Queue capacity: in every state reached from a constructed and opened
system by handling incoming events, `waiting_clients_` holds at most
`tables_count_` entries. -/
theorem queue_capacity (system : CybercafeMonitoringSystem) (reachable : Reachable system) :
    (system.waiting_clients_.length : Int) ≤ system.tables_count_ :=
  queue_Reachable reachable

/-- Witness of C33: the day `queue_full`, with two tables and two clients
queued. -/
theorem queue_capacity_witness :
    (HandleAll queue_full day_opened).waiting_clients_ = ["c", "d"]
    ∧ ((HandleAll queue_full day_opened).waiting_clients_.length : Int)
        ≤ (HandleAll queue_full day_opened).tables_count_ :=
  ⟨by decide,
    queue_capacity (HandleAll queue_full day_opened)
      (Reachable_HandleAll Reachable_day_opened queue_full (by decide))⟩

/-- C34, evaluated where it fails.  The day `leaves_while_queued` is a list of
incoming events handled after opening; at its end client `c` has table 1 in
`clients_at_table_` and is not in `clients_`. -/
theorem seated_not_present :
    Reachable (HandleAll leaves_while_queued day_opened)
    ∧ find "c" (HandleAll leaves_while_queued day_opened).clients_at_table_ = some 1
    ∧ "c" ∉ (HandleAll leaves_while_queued day_opened).clients_
    ∧ (HandleAll leaves_while_queued day_opened).clients_ = ["b"] :=
  ⟨Reachable_leaves_while_queued, by decide, by decide, by decide⟩

/-- C35. Departure accounting never lacks its data: in every state reached
from a constructed and opened system by handling incoming events, every client
with an entry in `clients_at_table_` has a table with an entry in
`tables_current_using_since_`, so `ProcessClientDeparture` returns for that
client at any time; no handler of an incoming event throws
`std::out_of_range`, and `CybercafeClose`, forced departures and report
included, throws nothing. -/
theorem departure_finds_data (system : CybercafeMonitoringSystem)
    (reachable : Reachable system) :
    (∀ c, contains c system.clients_at_table_ = true →
      ∃ T since, find c system.clients_at_table_ = some T
        ∧ find T system.tables_current_using_since_ = some since)
    ∧ (∀ c t, contains c system.clients_at_table_ = true →
        ∃ departed, system.ProcessClientDeparture c t = .ok departed)
    ∧ (∀ event : Event, event.IsIncoming = true →
        (event.Handle system).thrown ≠ some .out_of_range)
    ∧ system.CybercafeClose.thrown = none := by
  have settled := Settled_Reachable reachable
  refine ⟨?_, fun c t hc => ProcessClientDeparture_of_settled settled t hc, ?_,
    CybercafeClose_Reachable reachable⟩
  · intro c hc
    obtain ⟨T, hT⟩ := contains_iff_find.mp hc
    obtain ⟨since, hs⟩ := settled.2 c T hT
    exact ⟨T, since, hT, hs⟩
  · intro event _
    rcases Handle_thrown event system settled with h | h <;> rw [h] <;> simp

/-- Witness of C35: after the day `waits_twice` client `b` sits at table 2
since 10:00, and the close throws nothing. -/
theorem departure_finds_data_witness :
    find "b" (HandleAll waits_twice day_opened).clients_at_table_ = some 2
    ∧ find 2 (HandleAll waits_twice day_opened).tables_current_using_since_ = some 600
    ∧ (HandleAll waits_twice day_opened).CybercafeClose.thrown = none :=
  ⟨by decide, by decide,
    (departure_finds_data (HandleAll waits_twice day_opened) Reachable_waits_twice).2.2.2⟩

/-- C37, as the code has it.  Nobody is present after closing: for every state
in which the clients present are distinct and validly named, no table has two
clients and the table of every seated client has an occupied-since entry (every
reachable state is one), `clients_` is empty after `CybercafeClose`, whether or
not the report that follows the forced departures throws. -/
theorem nobody_after_close (system : CybercafeMonitoringSystem)
    (registered : Registered system) (settled : Settled system) :
    system.CybercafeClose.system.clients_ = [] := by
  obtain ⟨g1, g2, -⟩ := registered
  obtain ⟨order, sorted, hperm, -⟩ := sort_ok system.clients_ g2 g1
  obtain ⟨quiet, -, -, -⟩ := CybercafeClose_loop_ok order system
    (fun c hc => g2 c (hperm.mem_iff.mp hc)) (hperm.nodup_iff.mpr g1) settled
  have hnone : (CybercafeMonitoringSystem.CybercafeClose.loop order system).system.clients_
      = [] := by
    refine List.eq_nil_iff_forall_not_mem.mpr (fun x hx => ?_)
    obtain ⟨h1, h2⟩ := CybercafeClose_loop_clients order system quiet x hx
    exact h2 (hperm.mem_iff.mpr h1)
  cases hstats : (CybercafeMonitoringSystem.CybercafeClose.loop order
      system).system.PrintClosingStats.2 with
  | some failure =>
    simp only [CybercafeMonitoringSystem.CybercafeClose, sorted, quiet, hstats]
    exact hnone
  | none =>
    simp only [CybercafeMonitoringSystem.CybercafeClose, sorted, quiet, hstats]
    exact hnone

/-- Witness of C37: the day `waits_twice`, at whose end `b` and `c` are
present. -/
theorem nobody_after_close_witness :
    (HandleAll waits_twice day_opened).clients_ = ["c", "b"]
    ∧ (HandleAll waits_twice day_opened).CybercafeClose.system.clients_ = [] :=
  ⟨by decide,
    nobody_after_close (HandleAll waits_twice day_opened)
      (Registered_Reachable Reachable_waits_twice) (Settled_Reachable Reachable_waits_twice)⟩

/-- Counterexample to C37 as stated: in `unaccounted_seat` client `c` is present
and seated at a table without occupied-since entry; the forced departure of
`c` throws `std::out_of_range`, and `c` is still present after
`CybercafeClose`. -/
theorem present_after_failed_close :
    unaccounted_seat.clients_ = ["c"]
    ∧ unaccounted_seat.CybercafeClose.thrown = some .out_of_range
    ∧ unaccounted_seat.CybercafeClose.system.clients_ = ["c"] := by
  decide

/-- C32. Time parsing: `ParseTime` accepts a token exactly when it has the five
characters `d d : d d` with decimal digits `d`, the hours at most 23 and the
minutes at most 59, and then returns `hours * 60 + minutes`; the time point
lies in `0 .. 1439`, two accepted tokens with the same time point are the same
token, and every rejection is `std::invalid_argument`.  The token `25:00` is
rejected, `08:00` is minute 480 and `23:59` minute 1439. -/
theorem ParseTime_rule (time_token : String) :
    (∀ t, ParseTime time_token = .ok t ↔
      ∃ c0 c1 c3 c4 : Char, time_token.data = [c0, c1, ':', c3, c4]
        ∧ isdigit c0 = true ∧ isdigit c1 = true ∧ isdigit c3 = true ∧ isdigit c4 = true
        ∧ 10 * ((c0.toNat : Int) - 48) + ((c1.toNat : Int) - 48) ≤ 23
        ∧ 10 * ((c3.toNat : Int) - 48) + ((c4.toNat : Int) - 48) ≤ 59
        ∧ t = (10 * ((c0.toNat : Int) - 48) + ((c1.toNat : Int) - 48)) * 60
            + (10 * ((c3.toNat : Int) - 48) + ((c4.toNat : Int) - 48)))
    ∧ (∀ t, ParseTime time_token = .ok t → 0 ≤ t ∧ t ≤ 1439)
    ∧ (∀ other t, ParseTime time_token = .ok t → ParseTime other = .ok t →
        other = time_token)
    ∧ (∀ failure, ParseTime time_token = .error failure → failure = .invalid_argument)
    ∧ ["25:00", "24:00", "12:60", "1:00", "12-00", "ab:cd", "", "08:00", "00:00",
        "23:59"].map ParseTime
        = [.error .invalid_argument, .error .invalid_argument, .error .invalid_argument,
            .error .invalid_argument, .error .invalid_argument, .error .invalid_argument,
            .error .invalid_argument, .ok 480, .ok 0, .ok 1439] := by
  refine ⟨ParseTime_ok_iff time_token, ?_, ?_, ParseTime_failure time_token, by decide⟩
  · intro t hok
    obtain ⟨c0, c1, c3, c4, -, h0, h1, h3, h4, hh, hm, rfl⟩ :=
      (ParseTime_ok_iff time_token _).mp hok
    have g0 := (isdigit_iff c0).mp h0
    have g1 := (isdigit_iff c1).mp h1
    have g3 := (isdigit_iff c3).mp h3
    have g4 := (isdigit_iff c4).mp h4
    constructor <;> omega
  · intro other t hok hother
    obtain ⟨c0, c1, c3, c4, hdata, h0, h1, h3, h4, hh, hm, rfl⟩ :=
      (ParseTime_ok_iff time_token _).mp hok
    obtain ⟨b0, b1, b3, b4, hdata', k0, k1, k3, k4, kh, km, heq⟩ :=
      (ParseTime_ok_iff other _).mp hother
    have g0 := (isdigit_iff c0).mp h0
    have g1 := (isdigit_iff c1).mp h1
    have g3 := (isdigit_iff c3).mp h3
    have g4 := (isdigit_iff c4).mp h4
    have f0 := (isdigit_iff b0).mp k0
    have f1 := (isdigit_iff b1).mp k1
    have f3 := (isdigit_iff b3).mp k3
    have f4 := (isdigit_iff b4).mp k4
    have e0 : b0 = c0 := Char_eq_of_toNat (by omega)
    have e1 : b1 = c1 := Char_eq_of_toNat (by omega)
    have e3 : b3 = c3 := Char_eq_of_toNat (by omega)
    have e4 : b4 = c4 := Char_eq_of_toNat (by omega)
    apply String.ext
    rw [hdata, hdata', e0, e1, e3, e4]

/-- C36, as the code has it.  Accounting is never negative when no event is
later than closing time: a day is constructed with `N ≥ 1` tables and an hourly
rate `r ≥ 1` and opened, and a list of incoming events is handled whose times
are non-decreasing and at most `closing_time`.  Then `CybercafeClose` throws
nothing, every row of its report has a revenue and an occupied time `≥ 0`,
there is such a row for every table `1 .. N`, and `GetTotalRevenue` is `≥ 0`
after it. -/
theorem accounting_nonnegative (opening_time closing_time N r : Int) (events : List Event)
    (tables : 1 ≤ N) (rate : 1 ≤ r) (incoming : ∀ event ∈ events, event.IsIncoming = true)
    (sorted : (events.map Event.GetTime).Pairwise (· ≤ ·))
    (early : ∀ event ∈ events, event.GetTime ≤ closing_time) :
    ∃ system day,
      CybercafeMonitoringSystem.ctor opening_time closing_time N r = .ok system
      ∧ day = HandleAll events system.CybercafeOpen.system
      ∧ day.CybercafeClose.thrown = none
      ∧ (∀ T revenue duration,
          Output.table T revenue duration ∈ day.CybercafeClose.printed →
          0 ≤ revenue ∧ 0 ≤ duration)
      ∧ (∀ T, 1 ≤ T → T ≤ N →
          ∃ revenue duration, Output.table T revenue duration ∈ day.CybercafeClose.printed)
      ∧ 0 ≤ day.CybercafeClose.system.GetTotalRevenue := by
  have hctor := ctor_ok opening_time closing_time N r tables
  have hopened : Reachable (⟨r, opening_time, closing_time, N, 0, [], [], [], [], [], []⟩ :
      CybercafeMonitoringSystem).CybercafeOpen.system :=
    Reachable.opened opening_time closing_time N r _ hctor
  have hstart : ∀ now, Clocked now (⟨r, opening_time, closing_time, N, 0, [], [], [], [], [],
      []⟩ : CybercafeMonitoringSystem).CybercafeOpen.system :=
    fun now => Clocked_opened opening_time closing_time N r now (by omega)
  have hclocked : Clocked closing_time (HandleAll events
      (⟨r, opening_time, closing_time, N, 0, [], [], [], [], [], []⟩ :
        CybercafeMonitoringSystem).CybercafeOpen.system) := by
    cases events with
    | nil => exact hstart closing_time
    | cons event rest =>
      refine Clocked_HandleAll _ _ event.GetTime closing_time (hstart _)
        (early event (List.mem_cons_self _ _)) sorted ?_
      intro e he
      refine ⟨?_, early e he⟩
      rcases List.mem_cons.mp he with rfl | he
      · exact le_refl _
      · rw [List.map_cons, List.pairwise_cons] at sorted
        exact sorted.1 e.GetTime (List.mem_map_of_mem _ he)
  have hsteps := HandleAll_steps events (⟨r, opening_time, closing_time, N, 0, [], [], [], [],
    [], []⟩ : CybercafeMonitoringSystem).CybercafeOpen.system incoming
  have hreach := Reachable_HandleAll hopened events incoming
  generalize hday : HandleAll events (⟨r, opening_time, closing_time, N, 0, [], [], [], [],
    [], []⟩ : CybercafeMonitoringSystem).CybercafeOpen.system = day at hclocked hsteps hreach
  have hcfg : day.tables_count_ = N ∧ day.closing_time_ = closing_time := by
    obtain ⟨h1, h2, -, -⟩ := hsteps.same_config
    rw [h1, h2]
    exact ⟨rfl, rfl⟩
  obtain ⟨order, last, -, -, hlast, -, hclose⟩ := CybercafeClose_run day
    (tables_Reachable hreach) (Registered_Reachable hreach) (Settled_Reachable hreach)
    (Reported_Reachable hreach)
  have hticks := CybercafeClose_loop_ticks order day
  rw [← hlast, hcfg.2] at hticks
  obtain ⟨-, k2, k3, k4, -⟩ := Ticks.keep_clocked hticks hclocked
  rw [hcfg.1, hcfg.2] at hclose
  refine ⟨_, day, hctor, hday.symm, ?_, ?_, ?_, ?_⟩
  · rw [hclose]
  · intro T revenue duration hm
    rw [hclose] at hm
    simp only [List.mem_append, List.mem_map, List.mem_cons, List.mem_range, reduceCtorEq,
      and_false, exists_false, false_or, Output.table.injEq] at hm
    obtain ⟨i, -, -, rfl, rfl⟩ := hm
    exact ⟨getD_find_nonneg k3 _, getD_find_nonneg k2 _⟩
  · intro T h1 h2
    rw [hclose]
    have e : (((T - 1).toNat : Nat) : Int) + 1 = T := by omega
    refine ⟨(find T last.tables_daily_revenue_).getD 0,
      (find T last.tables_daily_using_).getD 0,
      List.mem_append_right _ (List.mem_cons_of_mem _
        (List.mem_map.mpr ⟨(T - 1).toNat, List.mem_range.mpr (by omega), ?_⟩))⟩
    simp only [e]
  · rw [hclose]
    exact k4

/-- Witness of C36: the day `waits_twice`, whose last event is at 11:00. -/
theorem accounting_nonnegative_witness :
    (HandleAll waits_twice day_opened).CybercafeClose.system.GetTotalRevenue = 2400
    ∧ ∃ system day,
        CybercafeMonitoringSystem.ctor 600 1320 2 100 = .ok system
        ∧ day = HandleAll waits_twice system.CybercafeOpen.system
        ∧ 0 ≤ day.CybercafeClose.system.GetTotalRevenue := by
  refine ⟨by decide, ?_⟩
  obtain ⟨system, day, h1, h2, -, -, -, h6⟩ :=
    accounting_nonnegative 600 1320 2 100 waits_twice (by decide) (by decide) (by decide)
      (by decide) (by decide)
  exact ⟨system, day, h1, h2, h6⟩

/-- Counterexample to C36 as stated: on the day from 10:00 to 22:00 with two
tables at 100 an hour, a client arrives at 21:40 and sits down at table 1 at
23:59.  The times are non-decreasing and within the day; the close reports
table 1 with a revenue of -100 and -119 occupied minutes, and the total
revenue is -100. -/
theorem accounting_negative_after_closing :
    Reachable (HandleAll sits_at_last_minute day_opened)
    ∧ (sits_at_last_minute.map Event.GetTime).Pairwise (· ≤ ·)
    ∧ (∀ event ∈ sits_at_last_minute, 0 ≤ event.GetTime ∧ event.GetTime ≤ 1439)
    ∧ (HandleAll sits_at_last_minute day_opened).CybercafeClose.printed
        = [Output.event (.ClientLeftEvent 1320 "a" .kOutgoing), Output.time 1320,
            Output.table 1 (-100) (-119), Output.table 2 0 0]
    ∧ (HandleAll sits_at_last_minute day_opened).CybercafeClose.system.GetTotalRevenue
        = -100 :=
  ⟨Reachable_HandleAll Reachable_day_opened sits_at_last_minute (by decide), by decide,
    by decide, by decide, by decide⟩

end cybercafe_monitoring_system
